import Mathlib

/-!
# StarWarsFFG importer helpers

A shallow embedding of `modules/importer/import-helpers.js` (class `ImportHelpers`)
and theorems about it.

The embedding has three layers.

* `JsVal` and the functions on it model the fragment of JavaScript the helpers use:
  property reads and writes, truthiness, `typeof`, `===`, `parseInt(_, 10)`,
  `Object.keys`, `for ... in`, object spread and `JSON.parse(JSON.stringify(_))`.
  Evaluation that can raise a JavaScript exception returns `Except JsErr`.
* The host (Foundry VTT: `game`, `CONFIG`, `Actor`, `FilePicker`, the browser) is not
  part of the repository. It is modelled by the records `Pack`, `Game` and `Host`,
  which are parameters of every function that talks to it.
* The functions of `ImportHelpers` are translated one by one, keeping their names.
  Code that mutates `CONFIG.temporary` or the character under construction passes
  the mutated value explicitly.

Conventions of the JavaScript layer.

* Numbers are integers or `NaN`; fractions and infinities are not modelled.
  `parseInt` and the sums of the experience counters round to the nearest double
  (`JsVal.toDouble`); the arithmetic on ranks, counts and percentages is exact.
* An object is the list of its own enumerable properties in the order the engine
  enumerates them (integer-like keys first, ascending, then the other keys in
  insertion order). `JsVal.setField` keeps that order. `JsVal.get` reads own
  properties; `JsVal.member` also reads what a plain object inherits from
  `Object.prototype`, and is the read of the catalog cache, whose keys are the import
  ids of the data.
* String length counts code points.
-/

namespace ImportHelpers

/-! ## JavaScript values -/

/-- JavaScript values. `entity d` is an instance of the host class `Entity` whose
`data` property is `d` and whose `toJSON()` returns `d`. `fn name` is the built-in
function of that name, such as `Object.prototype.toString`. -/
inductive JsVal where
  | undef
  | null
  | bool (b : Bool)
  | num (n : Int)
  | nan
  | str (s : String)
  | arr (xs : List JsVal)
  | obj (fields : List (String × JsVal))
  | entity (data : JsVal)
  | fn (name : String)

/-- Exceptions: `TypeError`, `SyntaxError`, and a failure reported by the host. -/
inductive JsErr where
  | typeError
  | syntaxError
  | hostError
  deriving DecidableEq, Repr

/-- A computation that may throw. -/
abbrev Js (α : Type) := Except JsErr α

instance : Inhabited JsVal := ⟨JsVal.undef⟩

instance {ε α : Type} [DecidableEq ε] [DecidableEq α] : DecidableEq (Except ε α)
  | .ok a, .ok b =>
    if h : a = b then isTrue (h ▸ rfl) else isFalse (fun e => h (Except.ok.inj e))
  | .error a, .error b =>
    if h : a = b then isTrue (h ▸ rfl) else isFalse (fun e => h (Except.error.inj e))
  | .ok _, .error _ => isFalse (fun e => by cases e)
  | .error _, .ok _ => isFalse (fun e => by cases e)

namespace JsVal

/-- The own properties of an object, as a list. -/
abbrev Fields := List (String × JsVal)

/-! ### Decidable equality -/

mutual
/-- Structural equality test on values. -/
def beq : JsVal → JsVal → Bool
  | undef, undef => true
  | null, null => true
  | bool a, bool b => a == b
  | num a, num b => a == b
  | nan, nan => true
  | str a, str b => a == b
  | arr a, arr b => beqList a b
  | obj a, obj b => beqFields a b
  | entity a, entity b => beq a b
  | fn a, fn b => a == b
  | _, _ => false
/-- Structural equality test on lists of values. -/
def beqList : List JsVal → List JsVal → Bool
  | [], [] => true
  | x :: xs, y :: ys => beq x y && beqList xs ys
  | _, _ => false
/-- Structural equality test on property lists. -/
def beqFields : List (String × JsVal) → List (String × JsVal) → Bool
  | [], [] => true
  | (k, x) :: xs, (l, y) :: ys => (k == l) && beq x y && beqFields xs ys
  | _, _ => false
end

mutual
theorem eq_of_beq : (a b : JsVal) → beq a b = true → a = b
  | undef, b => by cases b <;> simp [beq]
  | null, b => by cases b <;> simp [beq]
  | bool a, b => by cases b <;> simp [beq]
  | num a, b => by cases b <;> simp [beq]
  | nan, b => by cases b <;> simp [beq]
  | str a, b => by cases b <;> simp [beq]
  | arr a, b => by
      cases b <;> simp [beq]
      exact eq_of_beqList a _
  | obj a, b => by
      cases b <;> simp [beq]
      exact eq_of_beqFields a _
  | entity a, b => by
      cases b <;> simp [beq]
      exact eq_of_beq a _
  | fn a, b => by cases b <;> simp [beq]
theorem eq_of_beqList : (a b : List JsVal) → beqList a b = true → a = b
  | [], b => by cases b <;> simp [beqList]
  | x :: xs, b => by
      cases b with
      | nil => simp [beqList]
      | cons y ys =>
        simp only [beqList, Bool.and_eq_true, List.cons.injEq]
        exact fun h => ⟨eq_of_beq x y h.1, eq_of_beqList xs ys h.2⟩
theorem eq_of_beqFields :
    (a b : List (String × JsVal)) → beqFields a b = true → a = b
  | [], b => by cases b <;> simp [beqFields]
  | (k, x) :: xs, b => by
      cases b with
      | nil => simp [beqFields]
      | cons p ys =>
        obtain ⟨l, y⟩ := p
        simp only [beqFields, Bool.and_eq_true, List.cons.injEq, Prod.mk.injEq,
          beq_iff_eq]
        exact fun h => ⟨⟨h.1.1, eq_of_beq x y h.1.2⟩, eq_of_beqFields xs ys h.2⟩
end

mutual
theorem beq_self : (a : JsVal) → beq a a = true
  | undef => rfl
  | null => rfl
  | bool a => by simp [beq]
  | num a => by simp [beq]
  | nan => rfl
  | str a => by simp [beq]
  | arr a => by simp [beq, beqList_self a]
  | obj a => by simp [beq, beqFields_self a]
  | entity a => by simp [beq, beq_self a]
  | fn a => by simp [beq]
theorem beqList_self : (a : List JsVal) → beqList a a = true
  | [] => rfl
  | x :: xs => by simp [beqList, beq_self x, beqList_self xs]
theorem beqFields_self : (a : List (String × JsVal)) → beqFields a a = true
  | [] => rfl
  | (k, x) :: xs => by simp [beqFields, beq_self x, beqFields_self xs]
end

instance : DecidableEq JsVal := fun a b =>
  if h : beq a b = true then isTrue (eq_of_beq a b h)
  else isFalse (fun e => h (e ▸ beq_self a))

/-! ### Primitive operations -/

/-- Truthiness (`ToBoolean`). -/
def truthy : JsVal → Bool
  | undef => false
  | null => false
  | bool b => b
  | num n => n != 0
  | nan => false
  | str s => s != ""
  | arr _ => true
  | obj _ => true
  | entity _ => true
  | fn _ => true

/-- The `typeof` operator. -/
def typeOf : JsVal → String
  | undef => "undefined"
  | null => "object"
  | bool _ => "boolean"
  | num _ => "number"
  | nan => "number"
  | str _ => "string"
  | arr _ => "object"
  | obj _ => "object"
  | entity _ => "object"
  | fn _ => "function"

/-- The value is `undefined` or `null`. -/
def nullish : JsVal → Bool
  | undef => true
  | null => true
  | _ => false

/-- Strict equality `===`. Objects are equal only to themselves by reference; every
comparison in the helpers has a primitive on one side, for which the answer is
`false` whenever the other side is an object. -/
def strictEq : JsVal → JsVal → Bool
  | undef, undef => true
  | null, null => true
  | bool a, bool b => a == b
  | num a, num b => a == b
  | str a, str b => a == b
  | fn a, fn b => a == b
  | _, _ => false

mutual
/-- String conversion (`ToString`, template literals, property keys). -/
def toStr : JsVal → String
  | undef => "undefined"
  | null => "null"
  | bool true => "true"
  | bool false => "false"
  | num n => toString n
  | nan => "NaN"
  | str s => s
  | arr xs => ",".intercalate (toStrElems xs)
  | obj _ => "[object Object]"
  | entity _ => "[object Object]"
  | fn name => "function " ++ name ++ "() \x7b [native code] \x7d"
/-- The pieces `Array.prototype.join` puts between the commas. -/
def toStrElems : List JsVal → List String
  | [] => []
  | undef :: xs => "" :: toStrElems xs
  | null :: xs => "" :: toStrElems xs
  | x :: xs => toStr x :: toStrElems xs
end

/-- The characters `parseInt` skips at the start of its input (`StrWhiteSpaceChar`). -/
def isJsSpace (c : Char) : Bool :=
  c.toNat ∈ [0x9, 0xA, 0xB, 0xC, 0xD, 0x20, 0xA0, 0x1680, 0x2028, 0x2029, 0x202F,
    0x205F, 0x3000, 0xFEFF] || (0x2000 ≤ c.toNat && c.toNat ≤ 0x200A)

/-- The value of a decimal digit. -/
def digit? (c : Char) : Option Nat :=
  if 48 ≤ c.toNat ∧ c.toNat ≤ 57 then some (c.toNat - 48) else none

/-- Reads the longest run of decimal digits at the start of the input: the number
read so far, and whether a digit was seen. -/
def readDigits : List Char → Nat → Bool → Nat × Bool
  | [], acc, seen => (acc, seen)
  | c :: cs, acc, seen =>
    match digit? c with
    | some d => readDigits cs (10 * acc + d) true
    | none => (acc, seen)

/-- The integer written at the start of the characters: an optional sign and the
longest run of decimal digits; `NaN` when there is no digit. -/
def readInteger : List Char → JsVal
  | '-' :: cs =>
    match readDigits cs 0 false with
    | (n, true) => num (-(n : Int))
    | (_, false) => nan
  | '+' :: cs =>
    match readDigits cs 0 false with
    | (n, true) => num n
    | (_, false) => nan
  | cs =>
    match readDigits cs 0 false with
    | (n, true) => num n
    | (_, false) => nan

/-- How many binary digits `m` has beyond the 53 that the significand of a double
holds. -/
def excessBits : Nat → Nat → Nat
  | 0, _ => 0
  | fuel + 1, m => if m < 2 ^ 53 then 0 else excessBits fuel (m / 2) + 1

/-- The natural number nearest to `m` that a double holds exactly: `m` is cut to 53
binary digits, and a remainder of half a unit goes to the even neighbour. -/
def nearestDouble (m : Nat) : Nat :=
  let shift := excessBits m m
  let q := m / 2 ^ shift
  let r := m % 2 ^ shift
  if 2 * r < 2 ^ shift ∨ (2 * r = 2 ^ shift ∧ q % 2 = 0) then q * 2 ^ shift
  else (q + 1) * 2 ^ shift

/-- The integer nearest to `n` that a double holds exactly: the number that the integer
`n` is as a JavaScript number. The range of the exponent is not modelled: an integer
of magnitude `2^1024` or more, which is `Infinity` in JavaScript, is outside the number
model. -/
def toDouble : Int → Int
  | .ofNat m => nearestDouble m
  | .negSucc m => -(nearestDouble (m + 1) : Int)

/-- A number that a double holds exactly, with its neighbours: an integer of magnitude
below `2^53` (`Number.isSafeInteger`). -/
def isSafe (n : Int) : Prop := -(2 ^ 53 : Int) < n ∧ n < 2 ^ 53

instance (n : Int) : Decidable (isSafe n) := by unfold isSafe; infer_instance

/-- `parseInt` on the characters left after the white space was skipped: the integer
that is written, as a JavaScript number. -/
def parseIntChars (cs : List Char) : JsVal :=
  match readInteger cs with
  | num n => num (toDouble n)
  | v => v

/-- The call `parseInt(v, 10)`: the argument is converted to a string, and the integer
at its start is read. A number below `10^21` prints as its decimal digits and reads
back as itself; larger numbers, which print with an exponent, are outside the number
model. -/
def parseInt10 : JsVal → JsVal
  | num n => num n
  | v => parseIntChars ((toStr v).toList.dropWhile isJsSpace)

/-- Addition of two numbers (`a + b` where both operands are numbers), in exact
arithmetic: for ranks and counts, which the importer adds one to. -/
def numAdd : JsVal → JsVal → JsVal
  | num a, num b => num (a + b)
  | _, _ => nan

/-- The sum `a + b` of two numbers as JavaScript computes it: the exact sum, rounded
to the nearest double. -/
def doubleAdd : JsVal → JsVal → JsVal
  | num a, num b => num (toDouble (a + b))
  | _, _ => nan

/-- The difference `a - b` of two numbers as JavaScript computes it. -/
def doubleSub : JsVal → JsVal → JsVal
  | num a, num b => num (toDouble (a - b))
  | _, _ => nan

/-- An integer-like property key: the canonical decimal form of an integer in
`0 .. 2^32 - 2`. -/
def index? (k : String) : Option Nat :=
  match readDigits k.toList 0 false with
  | (n, true) => if toString n = k ∧ n ≤ 4294967294 then some n else none
  | (_, false) => none

/-! ### Objects -/

/-- The value of an own property, if there is one. -/
def lookupField (k : String) : Fields → Option JsVal
  | [] => none
  | (l, v) :: fs => if l = k then some v else lookupField k fs

/-- Replaces the value of an existing property, keeping its place. -/
def replaceField (k : String) (x : JsVal) : Fields → Fields
  | [] => []
  | (l, v) :: fs => if l = k then (k, x) :: fs else (l, v) :: replaceField k x fs

/-- Adds a new integer-like key `k` (of value `i`) at its place among the
integer-like keys, which come first in ascending order. -/
def insertIndexField (i : Nat) (k : String) (x : JsVal) : Fields → Fields
  | [] => [(k, x)]
  | (l, v) :: fs =>
    match index? l with
    | some j => if j < i then (l, v) :: insertIndexField i k x fs else (k, x) :: (l, v) :: fs
    | none => (k, x) :: (l, v) :: fs

/-- The assignment `o[k] = x` on the property list of an ordinary object. -/
def setField (k : String) (x : JsVal) (fs : Fields) : Fields :=
  match lookupField k fs with
  | some _ => replaceField k x fs
  | none =>
    match index? k with
    | some i => insertIndexField i k x fs
    | none => fs ++ [(k, x)]

/-- The property lists `"0" ↦ x₀, "1" ↦ x₁, ...` of an array or a string, from index `i`. -/
def indexed : Nat → List JsVal → Fields
  | _, [] => []
  | i, x :: xs => (toString i, x) :: indexed (i + 1) xs

/-- The own enumerable properties of a value, in enumeration order: what
`Object.keys`, `Object.values`, `for ... in` and object spread see. An `Entity`
instance is never enumerated by the helpers (it is serialised first). -/
def ownFields : JsVal → Fields
  | obj fs => fs
  | arr xs => indexed 0 xs
  | str s => indexed 0 (s.toList.map fun c => str (String.singleton c))
  | _ => []

/-- The number of parameters a built-in function declares (its property `length`). -/
def arity (name : String) : Int :=
  if name ∈ ["__defineGetter__", "__defineSetter__"] then 2
  else if name ∈ ["toString", "valueOf", "toLocaleString"] then 0
  else 1

/-- The property read `v[k]` (or `v.k`) of an own property: a `TypeError` on
`undefined` and `null`, `undefined` for a property the value does not have. A built-in
function has the own properties `name` and `length`. What a value inherits is read by
`member`. -/
def get (v : JsVal) (k : String) : Js JsVal :=
  match v with
  | undef => throw JsErr.typeError
  | null => throw JsErr.typeError
  | obj fs => pure ((lookupField k fs).getD undef)
  | arr xs =>
    if k = "length" then pure (num xs.length)
    else
      match index? k with
      | some i => pure (xs.getD i undef)
      | none => pure undef
  | str s =>
    if k = "length" then pure (num s.length)
    else
      match index? k with
      | some i => pure (((s.toList.map fun c => str (String.singleton c)).getD i undef))
      | none => pure undef
  | entity d => pure (if k = "data" then d else undef)
  | fn name =>
    pure (if k = "name" then str name else if k = "length" then num (arity name) else undef)
  | _ => pure undef

/-- The optional read `v?.[k]` (or `v?.k`). -/
def getOpt (v : JsVal) (k : String) : JsVal :=
  match v.get k with
  | .ok x => x
  | .error _ => undef

/-- The names of the functions every plain object inherits from `Object.prototype`. -/
def prototypeFunctions : List String :=
  ["__defineGetter__", "__defineSetter__", "hasOwnProperty", "__lookupGetter__",
    "__lookupSetter__", "isPrototypeOf", "propertyIsEnumerable", "toString", "valueOf",
    "toLocaleString"]

/-- What a plain object inherits under the name `k`: the function `Object` under
`constructor`, `Object.prototype` itself (an object without enumerable properties) under
`__proto__`, a function of `Object.prototype` under its name, and nothing under any
other name. -/
def inherited (k : String) : Option JsVal :=
  if k = "constructor" then some (fn "Object")
  else if k = "__proto__" then some (obj [])
  else if k ∈ prototypeFunctions then some (fn k)
  else none

/-- The property read `v[k]` under a name that comes from the data: an own property,
or, for a plain object that does not have it, what the object inherits from
`Object.prototype`. The methods that arrays, strings and functions inherit are outside
the model: for them, only own properties are read. -/
def member (v : JsVal) (k : String) : Js JsVal :=
  match v with
  | obj fs =>
    match lookupField k fs with
    | some x => pure x
    | none => pure ((inherited k).getD undef)
  | _ => v.get k

/-- The optional read `v?.[k]` under a name that comes from the data. -/
def memberOpt (v : JsVal) (k : String) : JsVal :=
  match v.member k with
  | .ok x => x
  | .error _ => undef

/-- The read `v.k₁.k₂...kₙ`. -/
def getPath : JsVal → List String → Js JsVal
  | v, [] => pure v
  | v, k :: ks => do
    let c ← v.get k
    getPath c ks

/-- The assignment `v[k] = x` in strict mode (the helpers are an ES module):
a `TypeError` on `undefined`, `null` and the primitives. Writing past the end of an
array fills the gap with `undefined`. `name` and `length` of a built-in function are
read-only, and another property written on it is not kept by the model. -/
def set (v : JsVal) (k : String) (x : JsVal) : Js JsVal :=
  match v with
  | obj fs => pure (obj (setField k x fs))
  | arr xs =>
    match index? k with
    | some i =>
      if i < xs.length then pure (arr (xs.set i x))
      else pure (arr (xs ++ List.replicate (i - xs.length) undef ++ [x]))
    | none => pure (arr xs)
  | entity d => pure (if k = "data" then entity x else entity d)
  | fn name => if k = "name" ∨ k = "length" then throw JsErr.typeError else pure (fn name)
  | _ => throw JsErr.typeError

/-- The update `v.k₁...kₙ = f(v.k₁...kₙ)`-style mutation of the object reached by the
path: every object on the way is read, so a missing one is a `TypeError`. -/
def modifyPath : JsVal → List String → (JsVal → Js JsVal) → Js JsVal
  | v, [], f => f v
  | v, k :: ks, f => do
    let c ← v.get k
    let c' ← modifyPath c ks f
    v.set k c'

/-- The assignment `v.k₁...kₙ.k = x`. -/
def setPath (v : JsVal) (path : List String) (k : String) (x : JsVal) : Js JsVal :=
  modifyPath v path (fun o => o.set k x)

/-- `Object.keys(v)`. -/
def keys (v : JsVal) : Js (List String) :=
  if v.nullish then throw JsErr.typeError else pure (v.ownFields.map Prod.fst)

/-- `Object.values(v)`. -/
def values (v : JsVal) : Js (List JsVal) :=
  if v.nullish then throw JsErr.typeError else pure (v.ownFields.map Prod.snd)

/-- The receiver of an array method (`forEach`, `find`, `filter`, `push`):
anything but an array has no such method, and calling it is a `TypeError`. -/
def asArray : JsVal → Js (List JsVal)
  | arr xs => pure xs
  | _ => throw JsErr.typeError

/-- `Array.isArray(v)`. -/
def isArray : JsVal → Bool
  | arr _ => true
  | _ => false

/-- The spread `{ ...a, ...b }` continued: the own properties of `src` written
onto `target` one by one. -/
def spreadOnto (target : Fields) (src : JsVal) : Fields :=
  src.ownFields.foldl (fun t p => setField p.1 p.2 t) target

mutual
/-- The value `JSON.stringify` and then `JSON.parse` give back for a value other than
`undefined` and a function: properties whose value is `undefined` or a function are
dropped, `NaN`, `undefined` and functions among the elements of an array become `null`,
an `Entity` is replaced by its data. -/
def jsonValue : JsVal → JsVal
  | arr xs => arr (jsonElems xs)
  | obj fs => obj (jsonFields fs)
  | entity d => jsonValue d
  | nan => null
  | undef => null
  | fn _ => null
  | v => v
/-- `jsonValue` on the elements of an array. -/
def jsonElems : List JsVal → List JsVal
  | [] => []
  | x :: xs => jsonValue x :: jsonElems xs
/-- `jsonValue` on the properties of an object. -/
def jsonFields : List (String × JsVal) → List (String × JsVal)
  | [] => []
  | (k, x) :: fs =>
    match x with
    | undef => jsonFields fs
    | entity undef => jsonFields fs
    | fn _ => jsonFields fs
    | _ => (k, jsonValue x) :: jsonFields fs
end

/-- The deep copy `JSON.parse(JSON.stringify(v))`. `JSON.stringify` of `undefined` and
of a function is `undefined`, which `JSON.parse` rejects with a `SyntaxError`. -/
def jsonCopy : JsVal → Js JsVal
  | undef => throw JsErr.syntaxError
  | entity undef => throw JsErr.syntaxError
  | fn _ => throw JsErr.syntaxError
  | v => pure (jsonValue v)

/-- Numeric conversion (`ToNumber`) as the comparison `i < v` applies it to `v`.
Numerals that are not decimal integers are outside the number model and give `NaN`. -/
def toNumber : JsVal → JsVal
  | undef => nan
  | null => num 0
  | bool b => num (if b then 1 else 0)
  | num n => num n
  | nan => nan
  | str s =>
    let cs := ((s.toList.dropWhile isJsSpace).reverse.dropWhile isJsSpace).reverse
    match cs with
    | [] => num 0
    | _ =>
      match readInteger cs with
      | num n =>
        if (toString n).toList = cs ∨ ('+' :: (toString n).toList) = cs then num (toDouble n)
        else nan
      | _ => nan
  | _ => nan

/-- How often the body of `for (let i = 0; i < v; i += 1)` runs. -/
def loopBound (v : JsVal) : Nat :=
  match v.toNumber with
  | num n => n.toNat
  | _ => 0

/-- The operator `a + b`: concatenation when an operand is a string or an object,
addition of numbers otherwise. -/
def plus (a b : JsVal) : JsVal :=
  match a, b with
  | str x, _ => str (x ++ b.toStr)
  | arr _, _ => str (a.toStr ++ b.toStr)
  | obj _, _ => str (a.toStr ++ b.toStr)
  | entity _, _ => str (a.toStr ++ b.toStr)
  | fn _, _ => str (a.toStr ++ b.toStr)
  | _, str y => str (a.toStr ++ y)
  | _, arr _ => str (a.toStr ++ b.toStr)
  | _, obj _ => str (a.toStr ++ b.toStr)
  | _, entity _ => str (a.toStr ++ b.toStr)
  | _, fn _ => str (a.toStr ++ b.toStr)
  | _, _ => numAdd a.toNumber b.toNumber

/-- `Math.trunc((a / b) * k)` in exact arithmetic. For the counts and totals of one
run of the importer (below `2^40`) the floating-point result is the same. A quotient
by zero is `NaN` here: it is `NaN` in JavaScript when `a` is zero, and an infinity,
which is outside the number model, otherwise. -/
def truncRatio (a b : JsVal) (k : Int) : JsVal :=
  match a.toNumber, b.toNumber with
  | num x, num y => if y = 0 then nan else num (Int.tdiv (x * k) y)
  | _, _ => nan

/-- `xs.find(p)`: the first element the callback accepts, or `undefined`. -/
def arrayFind (p : JsVal → Js Bool) : List JsVal → Js JsVal
  | [] => pure undef
  | x :: xs => do
    if (← p x) then pure x else arrayFind p xs

/-- `xs.filter(p)`. -/
def arrayFilter (p : JsVal → Js Bool) : List JsVal → Js (List JsVal)
  | [] => pure []
  | x :: xs => do
    let keep ← p x
    let rest ← arrayFilter p xs
    pure (if keep then x :: rest else rest)

/-- `xs.forEach(f)` for a callback that updates a local value `a`. -/
def arrayForEach {α : Type} (f : α → JsVal → Js α) : List JsVal → α → Js α
  | [], a => pure a
  | x :: xs, a => do
    let a' ← f a x
    arrayForEach f xs a'

/-- `names.includes(v)` for an array of strings (`SameValueZero`). -/
def includedIn (v : JsVal) (names : List String) : Bool :=
  match v with
  | str s => decide (s ∈ names)
  | _ => false

end JsVal

open JsVal

/-! ## Computations with state -/

/-- A computation over a mutable state `σ` that may throw. The state reached when the
exception is raised is kept, as a `try ... catch` around the computation sees it. -/
def Eff (σ α : Type) : Type := σ → Js α × σ

namespace Eff

variable {σ τ α β : Type}

/-- Returns a value without touching the state. -/
def ret (a : α) : Eff σ α := fun s => (.ok a, s)

/-- Sequencing: the second computation runs only when the first did not throw. -/
def andThen (m : Eff σ α) (f : α → Eff σ β) : Eff σ β := fun s =>
  match m s with
  | (.ok a, s') => f a s'
  | (.error e, s') => (.error e, s')

/-- Raises an exception. -/
def raise (e : JsErr) : Eff σ α := fun s => (.error e, s)

/-- The statement `try { body } catch (err) { handler }`. -/
def tryCatch (body : Eff σ α) (handler : JsErr → Eff σ α) : Eff σ α := fun s =>
  match body s with
  | (.ok a, s') => (.ok a, s')
  | (.error e, s') => handler e s'

/-- A computation that does not touch the state. -/
def lift (x : Js α) : Eff σ α := fun s => (x, s)

/-- Reads the state. -/
def read : Eff σ σ := fun s => (.ok s, s)

/-- Replaces the state. -/
def write (s : σ) : Eff σ Unit := fun _ => (.ok (), s)

/-- Reads a component of the state. -/
def gets (f : σ → α) : Eff σ α := fun s => (.ok (f s), s)

/-- Changes the state. -/
def modify (f : σ → σ) : Eff σ Unit := fun s => (.ok (), f s)

/-- Runs a computation on a part of the state (`view` reads the part, `put` writes it back). -/
def zoom (view : σ → τ) (put : τ → σ → σ) (m : Eff τ α) : Eff σ α := fun s =>
  match m (view s) with
  | (r, t) => (r, put t s)

instance : Monad (Eff σ) where
  pure := ret
  bind := andThen

/-- `asyncForEach(array, callback)` (lines 401-405): the callback is awaited on each
element in turn. -/
def forEach (f : α → Eff σ Unit) : List α → Eff σ Unit
  | [] => ret ()
  | x :: xs => andThen (f x) (fun _ => forEach f xs)

end Eff

/-! ## The host -/

/-- A compendium pack as `game.packs.get(id)` returns it: its declared entity type
(`pack.entity`), the `locked` flag, what `pack.getContent()` resolves to (a list of
`Entity` instances) or the error it rejects with, the entries of `pack.index` once
`pack.getIndex()` has resolved, and `pack.getEntity(id)`. -/
structure Pack where
  id : String
  entity : String
  locked : Bool
  content : Js (List JsVal)
  index : Js (List JsVal)
  getEntity : JsVal → Js JsVal

/-- The host object `game`: `game.data` (an object whose properties `items` and `actors`
list the records of the world), `game.packs` in the order of `game.packs.keys()`, and
`game.world.id`. -/
structure Game where
  data : JsVal
  packs : List Pack
  worldId : JsVal

/-- `game.packs.get(packid)`: `packs` is a `Map` keyed by strings. -/
def Game.getPack (game : Game) (packid : JsVal) : Option Pack :=
  match packid with
  | .str s => game.packs.find? (fun p => p.id = s)
  | _ => none

/-- `game.packs.keys()`. -/
def Game.packKeys (game : Game) : List String := game.packs.map Pack.id

/-! ## `buildUpdateData` (lines 96-126) -/

mutual
/-- The inner function `recursiveObject(itemkey, obj)` (lines 104-115), with
`updateData` passed explicitly. The object comes first: it is the argument the
recursion descends on. -/
def recursiveObject (o : JsVal) (itemkey : String) (updateData : Fields) : Fields :=
  match o with
  | .obj fs => recursiveFields fs itemkey updateData
  | .arr xs => recursiveElems xs 0 itemkey updateData
  | _ => updateData
/-- The loop `for (let objkey in obj)` over the properties of an object. -/
def recursiveFields (fs : List (String × JsVal)) (itemkey : String) (updateData : Fields) :
    Fields :=
  match fs with
  | [] => updateData
  | (objkey, v) :: rest =>
    if v.typeOf = "object" then
      recursiveFields rest itemkey (recursiveObject v (itemkey ++ "." ++ objkey) updateData)
    else if !(strictEq (.str v.typeOf) .undef) then
      recursiveFields rest itemkey
        (setField ("data." ++ itemkey ++ "." ++ objkey) v updateData)
    else recursiveFields rest itemkey updateData
/-- The loop `for (let objkey in obj)` over the elements of an array, from index `i`. -/
def recursiveElems (xs : List JsVal) (i : Nat) (itemkey : String) (updateData : Fields) :
    Fields :=
  match xs with
  | [] => updateData
  | v :: rest =>
    if v.typeOf = "object" then
      recursiveElems rest (i + 1) itemkey
        (recursiveObject v (itemkey ++ "." ++ toString i) updateData)
    else if !(strictEq (.str v.typeOf) .undef) then
      recursiveElems rest (i + 1) itemkey
        (setField ("data." ++ itemkey ++ "." ++ toString i) v updateData)
    else recursiveElems rest (i + 1) itemkey updateData
end

/-- The loop `for (let key in newItem.data)` (lines 103-123). -/
def buildUpdateDataLoop : List (String × JsVal) → Fields → Fields
  | [], updateData => updateData
  | (key, v) :: rest, updateData =>
    if v.typeOf = "object" then
      buildUpdateDataLoop rest (recursiveObject v key updateData)
    else
      buildUpdateDataLoop rest (setField ("data." ++ key) v updateData)

/-- `buildUpdateData(newItem)` (lines 96-126). -/
def buildUpdateData (newItem : JsVal) : Js JsVal := do
  let _ ← newItem.get "name"
  let img ← newItem.get "img"
  let updateData : Fields := if img.truthy then setField "img" img [] else []
  let data ← newItem.get "data"
  pure (.obj (buildUpdateDataLoop data.ownFields updateData))

/-! ## Lookups (lines 128-217) -/

/-- The callback `(item) => item.flags.ffgimportid === id` (lines 136 and 1112). -/
def hasImportId (id : JsVal) (item : JsVal) : Js Bool := do
  let flag ← item.getPath ["flags", "ffgimportid"]
  pure (strictEq flag id)

/-- `findEntityByImportId(type, id)` (lines 134-138). -/
def findEntityByImportId (game : Game) (type : String) (id : JsVal) : Js JsVal := do
  let collection ← game.data.get type
  let items ← collection.asArray
  arrayFind (hasImportId id) items

/-- `findCompendiumEntityById(type, id)`, the loop body from pack `i` on (lines 150-160). -/
def findCompendiumEntityByIdLoop (game : Game) (type : String) (id : JsVal) :
    List String → Js JsVal
  | [] => pure .undef
  | packId :: rest =>
    match game.getPack (.str packId) with
    | none => throw JsErr.typeError
    | some pack =>
      if pack.entity = type then do
        let index ← pack.index
        let entity ← arrayFind (fun e => do pure (strictEq (← e.get "_id") id)) index
        if entity.truthy then
          pack.getEntity (← entity.get "_id")
        else findCompendiumEntityByIdLoop game type id rest
      else findCompendiumEntityByIdLoop game type id rest

/-- `findCompendiumEntityById(type, id)` (lines 146-161). -/
def findCompendiumEntityById (game : Game) (type : String) (id : JsVal) : Js JsVal :=
  findCompendiumEntityByIdLoop game type id game.packKeys

/-- The loop of `cachePack` that indexes the content of a pack (lines 178-180). The
state is `CONFIG.temporary`. The assignment stores the entry as an own property of the
slot; an entry whose import id is `__proto__` would become the prototype of the slot
instead, which the model does not follow (`Pack.wellFormed` excludes such an entry). -/
def cacheContent (packid : String) : List JsVal → Eff JsVal Unit
  | [] => pure ()
  | c :: rest => do
    let temporary ← Eff.read
    let slot ← Eff.lift (temporary.member packid)
    let key ← Eff.lift (c.getPath ["data", "flags", "ffgimportid"])
    let slot' ← Eff.lift (slot.set key.toStr c)
    let temporary' ← Eff.lift (temporary.set packid slot')
    Eff.write temporary'
    cacheContent packid rest

/-- The inner function `cachePack(packid)` of `findCompendiumEntityByImportId`
(lines 170-190). The state is `CONFIG.temporary`; the result is `packid` or
`undefined`. `CONFIG.temporary` and the slot of a pack are plain objects, and the reads
`CONFIG.temporary[packid]` and `CONFIG.temporary[packid][id]` are under names that come
from the data, so they also see what a plain object inherits (`member`). -/
def cachePack (game : Game) (type : String) (id : JsVal) (packid : JsVal) :
    Eff JsVal JsVal := do
  let temporary ← Eff.read
  let cached ← Eff.lift (temporary.member packid.toStr)
  if !cached.truthy then
    match game.getPack packid with
    | none => Eff.raise JsErr.typeError
    | some pack =>
      if pack.entity = type && !pack.locked then
        let temporary' ← Eff.lift (temporary.set packid.toStr (.obj []))
        Eff.write temporary'
        let content ← Eff.lift pack.content
        cacheContent packid.toStr content
  let temporary ← Eff.read
  if ((temporary.memberOpt packid.toStr).memberOpt id.toStr).truthy then
    pure packid
  else
    pure JsVal.undef

/-- The loop `asyncForEach(packs, ...)` of lines 202-207, with the local `packname`
passed explicitly. -/
def scanPacks (game : Game) (type : String) (id : JsVal) :
    List String → JsVal → Eff JsVal JsVal
  | [], packname => pure packname
  | packid :: rest, packname => do
    let temppackname ← cachePack game type id (.str packid)
    scanPacks game type id rest (if temppackname.truthy then temppackname else packname)

/-- `findCompendiumEntityByImportId(type, id, packId)` (lines 169-217). The state is
`CONFIG.temporary`. -/
def findCompendiumEntityByImportId (game : Game) (type : String) (id : JsVal)
    (packId : JsVal) : Eff JsVal JsVal := do
  let item ← Eff.lift (findEntityByImportId game "items" id)
  if item.truthy then
    pure item
  else
    let packname ←
      if !packId.truthy then scanPacks game type id game.packKeys .undef
      else cachePack game type id packId
    if packname.truthy then
      let temporary ← Eff.read
      Eff.lift (do (← temporary.member packname.toStr).member id.toStr)
    else
      pure JsVal.undef

/-! ## Modifier attributes (lines 245-303, 1182-1207) -/

/-- `convertOGCharacteristic(value)` (lines 1182-1207). -/
def convertOGCharacteristic (value : JsVal) : JsVal :=
  match value with
  | .str "BR" => .str "Brawn"
  | .str "AG" => .str "Agility"
  | .str "INT" => .str "Intellect"
  | .str "CUN" => .str "Cunning"
  | .str "WIL" => .str "Willpower"
  | .str "PR" => .str "Presence"
  | _ => JsVal.undef

/-- The die counts of a skill modifier (lines 258-288): the modtype `"Skill Boost"` and
the value so far, each replaced by what the later fields of the descriptor say. -/
def dieCountModifier (mod : JsVal) (value : JsVal) : JsVal × JsVal := Id.run do
  let mut modtype := JsVal.str "Skill Boost"
  let mut value := value
  if (mod.getOpt "AddSetbackCount").truthy then
    modtype := .str "Skill Setback"
    value := parseInt10 (mod.getOpt "AddSetbackCount")
  if (mod.getOpt "SetbackCount").truthy then
    modtype := .str "Skill Remove Setback"
    value := parseInt10 (mod.getOpt "SetbackCount")
  if (mod.getOpt "BoostCount").truthy then
    value := parseInt10 (mod.getOpt "BoostCount")
  if (mod.getOpt "AdvantageCount").truthy then
    modtype := .str "Skill Add Advantage"
    value := parseInt10 (mod.getOpt "AdvantageCount")
  if (mod.getOpt "ThreatCount").truthy then
    modtype := .str "Skill Add Threat"
    value := parseInt10 (mod.getOpt "ThreatCount")
  if (mod.getOpt "SuccessCount").truthy then
    modtype := .str "Skill Add Success"
    value := parseInt10 (mod.getOpt "SuccessCount")
  if (mod.getOpt "FailureCount").truthy then
    modtype := .str "Skill Add Failure"
    value := parseInt10 (mod.getOpt "FailureCount")
  return (modtype, value)

/-- The modtype and the value of a modifier whose key is a skill (lines 256-291). -/
def skillModifier (mod : JsVal) (value : JsVal) : JsVal × JsVal :=
  if (mod.getOpt "SkillIsCareer").truthy then
    (.str "Career Skill", value)
  else if (mod.getOpt "BoostCount").truthy || (mod.getOpt "SetbackCount").truthy
      || (mod.getOpt "AddSetbackCount").truthy || (mod.getOpt "ForceCount").truthy
      || (mod.getOpt "AdvantageCount").truthy || (mod.getOpt "ThreatCount").truthy
      || (mod.getOpt "SuccessCount").truthy || (mod.getOpt "FailureCount").truthy then
    dieCountModifier mod value
  else
    (.str "Skill Rank", value)

/-- `getBaseModAttributeObject(mod)` (lines 245-303); `temporary` is `CONFIG.temporary`,
whose property `skills` is the skill name table. -/
def getBaseModAttributeObject (temporary : JsVal) (mod : JsVal) : Js JsVal := do
  let mut type := JsVal.undef
  let mut modtype := JsVal.undef
  let mut value := if (mod.getOpt "Count").truthy then parseInt10 (mod.getOpt "Count") else .num 0
  let key ← mod.get "Key"
  if key.includedIn ["BR", "AG", "INT", "CUN", "WIL", "PR"] then
    modtype := .str "Characteristic"
    type := convertOGCharacteristic key
  let skills ← temporary.get "skills"
  let skillKeys ← skills.keys
  if key.includedIn skillKeys then
    (modtype, value) := skillModifier mod value
    type ← skills.get key.toStr
  if strictEq key (.str "ENCTADD") then
    modtype := .str "Stat"
    type := .str "Encumbrance"
  if type.truthy then
    pure (.obj [("type", type),
      ("value", .obj [("mod", type), ("modtype", modtype), ("value", value)])])
  else
    pure JsVal.undef

/-- The statements `const attr = this.getBaseModAttributeObject(mod); if (attr) {
itemAttributes[attr.type] = attr.value; }` of `getBaseModObject`. -/
def applyBaseMod (temporary : JsVal) (itemAttributes : Fields) (mod : JsVal) : Js Fields := do
  let attr ← getBaseModAttributeObject temporary mod
  if attr.truthy then
    pure (setField (attr.getOpt "type").toStr (attr.getOpt "value") itemAttributes)
  else
    pure itemAttributes

/-- The same for a die modifier, which is passed on as `{ Key: diemod.SkillKey,
...diemod }` (lines 322-328, 331-337, 353-359). -/
def applyDieModifier (temporary : JsVal) (itemAttributes : Fields) (diemod : JsVal) :
    Js Fields := do
  let skillKey ← diemod.get "SkillKey"
  applyBaseMod temporary itemAttributes (.obj (spreadOnto [("Key", skillKey)] diemod))

/-- The callback of `attrs.Mod.forEach` (lines 313-340). -/
def baseModStep (temporary : JsVal) (itemAttributes : Fields) (mod : JsVal) : Js Fields := do
  if (← mod.get "Key").truthy then
    applyBaseMod temporary itemAttributes mod
  else
    let dieModifier := (mod.getOpt "DieModifiers").getOpt "DieModifier"
    if dieModifier.truthy then
      if dieModifier.isArray then
        arrayForEach (applyDieModifier temporary) (← dieModifier.asArray) itemAttributes
      else
        applyDieModifier temporary itemAttributes dieModifier
    else
      pure itemAttributes

/-- `getBaseModObject(basemods)` (lines 308-364); `attrs` is what
`JXON.xmlToJs(basemods)` returns and `temporary` is `CONFIG.temporary`. -/
def getBaseModObject (temporary : JsVal) (attrs : JsVal) : Js JsVal := do
  let mod ← attrs.get "Mod"
  let mut itemAttributes : Fields := []
  if mod.isArray then
    itemAttributes ← arrayForEach (baseModStep temporary) (← mod.asArray) itemAttributes
  if (mod.getOpt "Key").truthy then
    itemAttributes ← applyBaseMod temporary itemAttributes mod
  else
    let dieModifier := (mod.getOpt "DieModifiers").getOpt "DieModifier"
    if dieModifier.truthy then
      let dieModifiers ←
        if !dieModifier.isArray then pure [dieModifier] else dieModifier.asArray
      itemAttributes ← arrayForEach (applyDieModifier temporary) dieModifiers itemAttributes
  pure (.obj itemAttributes)

/-! ## `characterImport` (lines 409-1129)

The function is translated block by block. Of the progress bar, the model keeps the
percentages it is asked to show; the calls to `$` are left out. -/

/-- One entry of the skill table of lines 457-642. -/
def skillEntry (key : String) : JsVal :=
  .obj [("rank", .num 0), ("careerskill", .bool false), ("Key", .str key)]

/-- The object literal `skills` of the new character (lines 457-642). -/
def initialSkills : JsVal :=
  .obj [
    ("Astrogation", skillEntry "ASTRO"),
    ("Athletics", skillEntry "ATHL"),
    ("Brawl", skillEntry "BRAWL"),
    ("Charm", skillEntry "CHARM"),
    ("Coercion", skillEntry "COERC"),
    ("Computers", skillEntry "COMP"),
    ("Cool", skillEntry "COOL"),
    ("Coordination", skillEntry "COORD"),
    ("Deception", skillEntry "DECEP"),
    ("Discipline", skillEntry "DISC"),
    ("Gunnery", skillEntry "GUNN"),
    ("Leadership", skillEntry "LEAD"),
    ("Lightsaber", skillEntry "LTSABER"),
    ("Mechanics", skillEntry "MECH"),
    ("Medicine", skillEntry "MED"),
    ("Melee", skillEntry "MELEE"),
    ("Negotiation", skillEntry "NEG"),
    ("Perception", skillEntry "PERC"),
    ("Piloting: Planetary", skillEntry "PILOTPL"),
    ("Piloting: Space", skillEntry "PILOTSP"),
    ("Ranged: Heavy", skillEntry "RANGHVY"),
    ("Ranged: Light", skillEntry "RANGLT"),
    ("Resilience", skillEntry "RESIL"),
    ("Skulduggery", skillEntry "SKUL"),
    ("Stealth", skillEntry "STEAL"),
    ("Streetwise", skillEntry "SW"),
    ("Survival", skillEntry "SURV"),
    ("Vigilance", skillEntry "VIGIL"),
    ("Knowledge: Core Worlds", skillEntry "CORE"),
    ("Knowledge: Education", skillEntry "EDU"),
    ("Knowledge: Lore", skillEntry "LORE"),
    ("Knowledge: Outer Rim", skillEntry "OUT"),
    ("Knowledge: Underworld", skillEntry "UND"),
    ("Knowledge: Warfare", skillEntry "WARF"),
    ("Knowledge: Xenology", skillEntry "XEN"),
    ("Cybernetics", .obj [("rank", .num 0), ("careerskill", .bool false),
      ("Key", .str "CYBERNETICS"), ("custom", .bool true), ("type", .str "General"),
      ("characteristic", .str "Intellect"), ("label", .str "Cybernetics")])]

/-- The operator `a ?? b`. -/
def JsVal.orElse (a b : JsVal) : JsVal := if a.nullish then b else a

/-- The object literal `character` (lines 429-657). -/
def initialCharacter (characterData : JsVal) : Js JsVal := do
  let characterName ← characterData.getPath ["Character", "Description", "CharName"]
  let key ← characterData.getPath ["Character", "Key"]
  let credits ← characterData.getPath ["Character", "Credits"]
  let ranks ← characterData.getPath ["Character", "Experience", "ExperienceRanks"]
  let starting := parseInt10 ((← ranks.get "StartingRanks").orElse (.num 0))
  let species := parseInt10 ((← ranks.get "SpeciesRanks").orElse (.num 0))
  let purchased := parseInt10 ((← ranks.get "PurchasedRanks").orElse (.num 0))
  let used := parseInt10 ((← ranks.get "UsedExperience").orElse (.num 0))
  let zero : JsVal := .obj [("value", .num 0)]
  pure (.obj [
    ("name", if characterName.truthy then characterName else .str "No Name"),
    ("type", .str "character"),
    ("flags", .obj [("ffgimportid", key)]),
    ("data", .obj [
      ("attributes", .obj []),
      ("characteristics", .obj [("Brawn", zero), ("Agility", zero), ("Intellect", zero),
        ("Cunning", zero), ("Willpower", zero), ("Presence", zero)]),
      ("skills", initialSkills),
      ("stats", .obj [("forcePool", .obj [("max", .num 0)]),
        ("credits", .obj [("value", parseInt10 credits)])]),
      ("experience", .obj [
        ("total", doubleAdd (doubleAdd starting species) purchased),
        ("available", doubleSub (doubleAdd (doubleAdd starting species) purchased) used)])]),
    ("items", .arr [])])

/-- The attribute literal `{ key, mod, modtype, value }` of lines 663-668, 688-693,
700-705 and 768-773. -/
def attributeLiteral (name : JsVal) (modtype : String) (value : JsVal) : JsVal :=
  .obj [("key", name), ("mod", name), ("modtype", .str modtype), ("value", value)]

/-- The callback of `CharCharacteristic.forEach` (lines 659-674). -/
def characteristicStep (character : JsVal) (char : JsVal) : Js JsVal := do
  let name := convertOGCharacteristic (← char.get "Key")
  let mut character := character
  let attributes ← character.getPath ["data", "attributes"]
  if !(attributes.getOpt name.toStr).truthy then
    character ← character.setPath ["data", "attributes"] name.toStr
      (attributeLiteral name "Characteristic" (.num 0))
  if ((char.getOpt "Rank").getOpt "PurchasedRanks").truthy then
    let ranks := parseInt10 ((char.getOpt "Rank").getOpt "PurchasedRanks")
    character ← character.setPath ["data", "characteristics", name.toStr] "value" ranks
    character ← character.setPath ["data", "attributes", name.toStr] "value" ranks
  pure character

/-- `Object.keys(character.data.skills).find((s) => character.data.skills[s].Key === key)`
(lines 681, 758, 790): the name of the skill whose code is `key`, or `undefined`. -/
def findCharSkill (character : JsVal) (key : JsVal) : Js JsVal := do
  let skills ← character.getPath ["data", "skills"]
  let names ← skills.keys
  arrayFind (fun s => do
    let code ← (← skills.get s.toStr).get "Key"
    pure (strictEq code key)) (names.map .str)

/-- The callback of `skills.forEach` (lines 680-711), on the pair of `character` and
`speciesSkills`. -/
def skillStep (st : JsVal × List JsVal) (skill : JsVal) : Js (JsVal × List JsVal) := do
  let mut character := st.1
  let mut speciesSkills := st.2
  let charSkill ← findCharSkill character (← skill.get "Key")
  if (skill.getOpt "isCareer").truthy then
    character ← character.setPath ["data", "skills", charSkill.toStr] "careerskill" (.bool true)
  let attributes ← character.getPath ["data", "attributes"]
  if !(attributes.getOpt charSkill.toStr).truthy then
    character ← character.setPath ["data", "attributes"] charSkill.toStr
      (attributeLiteral charSkill "Skill Rank" (.num 0))
  if ((skill.getOpt "Rank").getOpt "PurchasedRanks").truthy then
    let ranks := parseInt10 ((skill.getOpt "Rank").getOpt "PurchasedRanks")
    character ← character.setPath ["data", "skills", charSkill.toStr] "rank" ranks
    character ← character.setPath ["data", "attributes", charSkill.toStr] "value" ranks
  else if ((skill.getOpt "Rank").getOpt "SpeciesRanks").truthy then
    let speciesSkill := attributeLiteral charSkill "Skill Rank"
      (parseInt10 ((skill.getOpt "Rank").getOpt "SpeciesRanks"))
    speciesSkills := speciesSkills ++ [speciesSkill]
  else
    character ← character.setPath ["data", "skills", charSkill.toStr] "rank" (.num 0)
    character ← character.setPath ["data", "attributes", charSkill.toStr] "value" (.num 0)
  pure (character, speciesSkills)

/-- The callback of `CharForcePower.filter` (lines 716-721). -/
def hasPurchasedAbility (power : JsVal) : Js Bool := do
  let abilities ← (← power.getPath ["ForceAbilities", "CharForceAbility"]).asArray
  let fa ← arrayFind (fun fa => do
    pure (strictEq (← fa.get "Purchased") (.str "true"))) abilities
  pure fa.truthy

/-- The list `forcepowers` (lines 713-725). -/
def selectForcePowers (characterData : JsVal) : Js (List JsVal) := do
  let powers := ((characterData.getOpt "Character").getOpt "ForcePowers").getOpt "CharForcePower"
  if powers.truthy then
    if powers.isArray then
      arrayFilter hasPurchasedAbility (← powers.asArray)
    else
      pure [powers]
  else
    pure []

/-- The first part of `characterImport`, which no `try` of its own protects (lines
427-725): the new record with the characteristics and skills of the document, the
deferred species skills, and the force powers to import. -/
def prepareCharacter (characterData : JsVal) : Js (JsVal × List JsVal × List JsVal) := do
  let character ← initialCharacter characterData
  let chars ← (← characterData.getPath
    ["Character", "Characteristics", "CharCharacteristic"]).asArray
  let character ← arrayForEach characteristicStep chars character
  let skills ← (← characterData.getPath ["Character", "Skills", "CharSkill"]).asArray
  let (character, speciesSkills) ← arrayForEach skillStep skills (character, [])
  let forcepowers ← selectForcePowers characterData
  pure (character, speciesSkills, forcepowers)

/-- A call to the actor storage: `Actor.create(record)` or `Actor.update(record)`. -/
inductive StorageCall where
  | create (record : JsVal)
  | update (record : JsVal)
  deriving DecidableEq

/-- The collaborators `characterImport` calls that are not part of the repository:
`JXON.xmlToJs(new DOMParser().parseFromString(data, "text/xml"))`, the browser
function `atob`, `FilePicker.createDirectory(source, target)` (given the requests made
before), `Helpers.UploadFile(source, path, file)` (given the name and the bytes of the
file), and `Actor.create` and `Actor.update`, which take `game.data` to the `game.data`
after the call. Each may fail. -/
structure Host where
  xmlToJs : String → Js JsVal
  atob : String → Js String
  createDirectory : List (String × String) → String → String → Js Unit
  uploadFile : String → String → String → List Nat → Js Unit
  actorCreate : JsVal → JsVal → Js JsVal
  actorUpdate : JsVal → JsVal → Js JsVal

/-- What one run of `characterImport` reads and changes: `CONFIG.temporary`, `game`, the
locals `character`, `specialization`, `newspec`, `specCount` and `specTotal`, the
positions in `character.items` that hold the object `specialization` itself (it is
pushed by reference), and what the run sent out: the percentages shown on the progress
bar, log messages with their level, notifications to the user, directory and upload
requests, and storage calls. -/
structure ImportState where
  temporary : JsVal
  game : Game
  character : JsVal
  specialization : JsVal
  newspec : JsVal
  specCount : JsVal
  specTotal : JsVal
  aliases : List Nat
  progress : List JsVal
  log : List (String × String)
  notifications : List String
  directories : List (String × String)
  uploads : List (String × String × String)
  storage : List StorageCall

/-- The state in which `characterImport` is called. -/
def ImportState.initial (game : Game) (temporary : JsVal) : ImportState :=
  { temporary := temporary, game := game, character := .undef, specialization := .undef,
    newspec := .undef, specCount := .num 0, specTotal := .num 1, aliases := [],
    progress := [], log := [], notifications := [], directories := [], uploads := [],
    storage := [] }

/-- The inner function `updateDialog(value, total = 100)` (lines 413-417): the
percentage `Math.trunc((value / total) * 100)` is shown. -/
def updateDialog (value : JsVal) : Eff ImportState Unit :=
  Eff.modify (fun s => { s with progress := s.progress ++ [truncRatio value (.num 100) 100] })

/-- The inner function `updateDialogSpecialization(count, total)` (lines 837-840),
called with the locals `specCount` and `specTotal`. -/
def updateDialogSpecialization : Eff ImportState Unit := do
  let count ← Eff.gets (·.specCount)
  let total ← Eff.gets (·.specTotal)
  let miniValue := truncRatio count total 10
  updateDialog (plus (.num 30) miniValue)

/-- The statement `specCount += 1`. -/
def countSpecialization : Eff ImportState Unit :=
  Eff.modify (fun s => { s with specCount := plus s.specCount (.num 1) })

/-- `CONFIG.logger.error(msg)` and `CONFIG.logger.warn(msg)`. -/
def logMessage (level msg : String) : Eff ImportState Unit := fun s =>
  (.ok (), { s with log := s.log ++ [(level, msg)] })

/-- `this.findCompendiumEntityByImportId("Item", id)` inside `characterImport`. -/
def lookupItem (id : JsVal) : Eff ImportState JsVal := fun s =>
  match findCompendiumEntityByImportId s.game "Item" id .undef s.temporary with
  | (r, t) => (r, { s with temporary := t })

/-- A statement that mutates the object `character`. -/
def modifyCharacter (f : JsVal → Js JsVal) : Eff ImportState Unit := fun s =>
  match f s.character with
  | .ok c => (.ok (), { s with character := c })
  | .error e => (.error e, s)

/-- `character.items.push(item)`. -/
def pushItem (item : JsVal) : Eff ImportState Unit :=
  modifyCharacter (fun character =>
    character.modifyPath ["items"] (fun a => do pure (.arr ((← a.asArray) ++ [item]))))

/-- The callback of `Object.values(species.data.attributes).filter` (line 737). -/
def sameAttribute (speciesSkill attr : JsVal) : Js Bool := do
  let sameMod := strictEq (← attr.get "mod") (speciesSkill.getOpt "mod")
  let sameType := strictEq (← attr.get "modtype") (speciesSkill.getOpt "modtype")
  let sameValue := strictEq (← attr.get "value") (speciesSkill.getOpt "value")
  pure (sameMod && sameType && sameValue)

/-- One round of the loop over `speciesSkills` (lines 734-743). -/
def speciesOverlayStep (species : JsVal) (speciesSkill : JsVal) : Js JsVal := do
  let attributes ← species.getPath ["data", "attributes"]
  let found ← arrayFilter (sameAttribute speciesSkill) (← attributes.values)
  if found.length = 0 then
    let attrId := (← attributes.keys).length + 1
    species.setPath ["data", "attributes"] (toString attrId) speciesSkill
  else
    pure species

/-- The species phase (lines 729-749). -/
def importSpecies (characterData : JsVal) (speciesSkills : List JsVal) :
    Eff ImportState Unit :=
  Eff.tryCatch (do
      let key ← Eff.lift (characterData.getPath ["Character", "Species", "SpeciesKey"])
      let x ← lookupItem key
      let species ← Eff.lift x.jsonCopy
      if species.truthy then
        let species ← Eff.lift (arrayForEach speciesOverlayStep speciesSkills species)
        pushItem species)
    (fun _ => do
      let key ← Eff.lift (characterData.getPath ["Character", "Species", "SpeciesKey"])
      logMessage "error" ("Unable to add species " ++ key.toStr ++ " to character."))

/-- The callback of `Object.keys(career.data.attributes).find` (lines 759 and 791):
the attribute under the key `attr` is a skill rank for `charSkill`. -/
def isSkillRankFor (attributes charSkill attr : JsVal) : Js Bool := do
  let a ← attributes.get attr.toStr
  let isRank := strictEq (← a.get "modtype") (.str "Skill Rank")
  pure (isRank && strictEq (← a.get "mod") charSkill)

/-- The callback of `CareerSkills.Key.forEach` (lines 757-775) and, with `specialization`
in the place of `career`, of `CareerSpecSkills.Key.forEach` (lines 789-807). -/
def grantSkillRank (character : JsVal) (career : JsVal) (key : JsVal) : Js JsVal := do
  let charSkill ← findCharSkill character key
  let attributes ← career.getPath ["data", "attributes"]
  let attrId ← arrayFind (isSkillRankFor attributes charSkill) ((← attributes.keys).map .str)
  let slot := attributes.getOpt attrId.toStr
  if (slot.getOpt "value").truthy then
    let careerValue := parseInt10 (slot.getOpt "value")
    let career ← career.setPath ["data", "attributes", attrId.toStr] "value"
      (numAdd careerValue (.num 1))
    if !(slot.getOpt "key").truthy then
      career.setPath ["data", "attributes", attrId.toStr] "key" charSkill
    else
      pure career
  else
    career.setPath ["data", "attributes"] attrId.toStr
      (attributeLiteral charSkill "Skill Rank" (.num 1))

/-- The career phase (lines 753-781). -/
def importCareer (characterData : JsVal) : Eff ImportState Unit :=
  Eff.tryCatch (do
      let key ← Eff.lift (characterData.getPath ["Character", "Career", "CareerKey"])
      let career ← Eff.lift (← lookupItem key).jsonCopy
      if career.truthy then
        let granted := (← Eff.lift (characterData.getPath
          ["Character", "Career", "CareerSkills"])).getOpt "Key"
        let character ← Eff.gets (·.character)
        let career ←
          if granted.truthy then
            Eff.lift (arrayForEach (grantSkillRank character) (← Eff.lift granted.asArray) career)
          else pure career
        pushItem career)
    (fun _ => do
      let key ← Eff.lift (characterData.getPath ["Character", "Career", "CareerKey"])
      logMessage "error" ("Unable to add career " ++ key.toStr ++ " to character."))

/-- Which of the two locals the talent loop customises: `specialization` (lines
848-879 and 932-963) or `newspec` (lines 889-920). -/
inductive SpecVar where
  | specialization
  | newspec
  deriving DecidableEq

/-- The value of the local. -/
def SpecVar.read (v : SpecVar) (s : ImportState) : JsVal :=
  match v with
  | .specialization => s.specialization
  | .newspec => s.newspec

/-- Assignment to (a property of) the local. -/
def SpecVar.write (v : SpecVar) (x : JsVal) (s : ImportState) : ImportState :=
  match v with
  | .specialization => { s with specialization := x }
  | .newspec => { s with newspec := x }

/-- The `try` block of `funcGetTalent` (lines 820-826); the state is `output`. -/
def fillTalentOutput (game : Game) (itemId : JsVal) : Eff JsVal Unit := do
  let talent ← Eff.lift (findCompendiumEntityById game "Item" itemId)
  if talent.truthy then
    let ranked ← Eff.lift (talent.getPath ["data", "data", "ranks", "ranked"])
    Eff.write (← Eff.lift ((← Eff.read).set "isRanked" ranked))
    let current ← Eff.lift (talent.getPath ["data", "data", "ranks", "current"])
    Eff.write (← Eff.lift ((← Eff.read).set "rank" current))
    let activation ← Eff.lift (talent.getPath ["data", "data", "activation", "value"])
    Eff.write (← Eff.lift ((← Eff.read).set "activation" activation))
  Eff.write (← Eff.lift ((← Eff.read).set "islearned" (.bool true)))

/-- The inner function `funcGetTalent(characterSpecTalent, itemId)` (lines 810-833). -/
def funcGetTalent (characterSpecTalent itemId : JsVal) : Eff ImportState JsVal := do
  if (← Eff.lift (characterSpecTalent.get "Purchased")).truthy then
    let output : JsVal := .obj [("isRanked", .bool false), ("rank", .num 0),
      ("activation", .str "Passive"), ("islearned", .bool false)]
    match fillTalentOutput (← Eff.gets (·.game)) itemId output with
    | (.ok _, output) => pure output
    | (.error _, output) => do
      logMessage "error" ("Unable to add specialization "
        ++ (characterSpecTalent.getOpt "Key").toStr ++ " to character.")
      pure output
  else
    pure JsVal.undef

/-- The body run for one bonus characteristic of talent `i` (lines 856-863, 866-873
and their copies): a new attribute `attr<N>` on the slot. -/
def addBonusChar (v : SpecVar) (i : Nat) (char : JsVal) : Eff ImportState Unit := do
  let item ← Eff.gets v.read
  let slotPath := ["data", "talents", "talent" ++ toString i, "attributes"]
  let attributes ← Eff.lift (item.getPath slotPath)
  let attrId := (← Eff.lift attributes.keys).length + 1
  let bonus : JsVal := .obj [("isCheckbox", .bool false),
    ("mod", convertOGCharacteristic (← Eff.lift (char.get "CharKey"))),
    ("modtype", .str "Characteristic"), ("value", ← Eff.lift (char.get "Bonus"))]
  let item ← Eff.lift (item.setPath slotPath ("attr" ++ toString attrId) bonus)
  Eff.modify (v.write item)

/-- One round of the loop over `spec.Talents.CharTalent` (lines 849-876 and their
copies), for the talent at position `i`. -/
def talentStep (v : SpecVar) (spec : JsVal) (i : Nat) : Eff ImportState Unit := do
  let charTalent ← Eff.lift ((← Eff.lift (spec.getPath ["Talents", "CharTalent"])).get
    (toString i))
  let item ← Eff.gets v.read
  let slotName := "talent" ++ toString i
  let itemId ← Eff.lift (item.getPath ["data", "talents", slotName, "itemId"])
  let talent ← funcGetTalent charTalent itemId
  if talent.truthy then
    let slot ← Eff.lift (item.getPath ["data", "talents", slotName])
    let merged : JsVal := .obj (spreadOnto (spreadOnto [] slot) talent)
    let item ← Eff.lift (item.setPath ["data", "talents"] slotName merged)
    Eff.modify (v.write item)
    let bonusChar := (charTalent.getOpt "BonusChars").getOpt "BonusChar"
    if bonusChar.truthy then
      if bonusChar.isArray then
        Eff.forEach (addBonusChar v i) (← Eff.lift bonusChar.asArray)
      else
        addBonusChar v i bonusChar

/-- The loop `for (let i = ...; i < spec.Talents.CharTalent.length; i += 1)` from
position `i` on, with `n` rounds left. -/
def talentLoop (v : SpecVar) (spec : JsVal) : Nat → Nat → Eff ImportState Unit
  | 0, _ => pure ()
  | n + 1, i => do
    talentStep v spec i
    countSpecialization
    updateDialogSpecialization
    talentLoop v spec n (i + 1)

/-- The statement `specTotal += spec.Talents.CharTalent.length`. -/
def addTalentsToTotal (spec : JsVal) : Eff ImportState Unit := do
  let length ← Eff.lift (spec.getPath ["Talents", "CharTalent", "length"])
  Eff.modify (fun s => { s with specTotal := plus s.specTotal length })

/-- The loop over the talents of `spec`, applied to the local `v`. -/
def applyTalents (v : SpecVar) (spec : JsVal) : Eff ImportState Unit := do
  let length ← Eff.lift (spec.getPath ["Talents", "CharTalent", "length"])
  talentLoop v spec length.loopBound 0

/-- `character.items.push(specialization)`: the array now holds the object
`specialization` itself, at the position recorded in `aliases`. -/
def pushSpecialization : Eff ImportState Unit := do
  let items ← Eff.gets (fun s => s.character.getOpt "items")
  let position := (← Eff.lift items.asArray).length
  pushItem (← Eff.gets (·.specialization))
  Eff.modify (fun s => { s with aliases := s.aliases ++ [position] })

/-- The callback of `asyncForEach(CharSpecialization, ...)` (lines 845-928). -/
def specializationStep (spec : JsVal) : Eff ImportState Unit := do
  let isStartingSpec ← Eff.lift (spec.get "isStartingSpec")
  if isStartingSpec.truthy && strictEq isStartingSpec (.str "true") then
    addTalentsToTotal spec
    applyTalents .specialization spec
    countSpecialization
    updateDialogSpecialization
    pushSpecialization
  else
    Eff.tryCatch (do
        let newspec ← Eff.lift (← lookupItem (← Eff.lift (spec.get "Key"))).jsonCopy
        Eff.modify (fun s => { s with newspec := newspec })
        addTalentsToTotal spec
        updateDialogSpecialization
        applyTalents .newspec spec
        pushItem (← Eff.gets (·.newspec)))
      (fun _ => logMessage "error" ("Unable to add specialization "
        ++ (spec.getOpt "Key").toStr ++ " to character."))
    countSpecialization
    updateDialogSpecialization

/-- The `try` block of the specialization phase (lines 786-968). -/
def importSpecializationsBody (characterData : JsVal) : Eff ImportState Unit := do
  let key ← Eff.lift (characterData.getPath ["Character", "Career", "StartingSpecKey"])
  let specialization ← Eff.lift (← lookupItem key).jsonCopy
  Eff.modify (fun s => { s with specialization := specialization })
  if specialization.truthy then
    let granted := (← Eff.lift (characterData.getPath
      ["Character", "Career", "CareerSpecSkills"])).getOpt "Key"
    if granted.truthy then
      let character ← Eff.gets (·.character)
      let specialization ← Eff.lift (arrayForEach (grantSkillRank character)
        (← Eff.lift granted.asArray) specialization)
      Eff.modify (fun s => { s with specialization := specialization })
    Eff.modify (fun s => { s with specTotal := .num 1, specCount := .num 0 })
    let specs ← Eff.lift (characterData.getPath
      ["Character", "Specializations", "CharSpecialization"])
    if specs.isArray then
      Eff.modify (fun s => { s with specTotal := specs.getOpt "length" })
      updateDialogSpecialization
      Eff.forEach specializationStep (← Eff.lift specs.asArray)
    else
      addTalentsToTotal specs
      updateDialogSpecialization
      applyTalents .specialization specs
      countSpecialization
      updateDialogSpecialization
      pushSpecialization

/-- Every position of `character.items` that holds the object `specialization` shows
its final state. -/
def syncSpecialization (s : ImportState) : ImportState :=
  let items := match s.character.getOpt "items" with
    | .arr xs => JsVal.arr (s.aliases.foldl (fun xs i => xs.set i s.specialization) xs)
    | v => v
  match s.character.set "items" items with
  | .ok c => { s with character := c, aliases := [] }
  | .error _ => { s with aliases := [] }

/-- The specialization phase (lines 785-971). -/
def importSpecializations (characterData : JsVal) : Eff ImportState Unit := fun s =>
  match Eff.tryCatch (importSpecializationsBody characterData)
      (fun _ => logMessage "error" "Unable to add specializations to character.") s with
  | (r, s') => (r, syncSpecialization s')

/-- The loop over the abilities of a force power from position `i` on, with `n` rounds
left (lines 978-982). -/
def upgradeLoop (abilities : JsVal) : Nat → Nat → JsVal → Js JsVal
  | 0, _, force => pure force
  | n + 1, i, force => do
    let ability ← abilities.get (toString i)
    let force ←
      if (← ability.get "Purchased").truthy then
        force.setPath ["data", "upgrades", "upgrade" ++ toString (i - 4)] "islearned"
          (.bool true)
      else pure force
    upgradeLoop abilities n (i + 1) force

/-- The callback of `asyncForEach(forcepowers, ...)` (lines 975-988). -/
def importForcePower (forcepowers : List JsVal) (power : JsVal) : Eff ImportState Unit :=
  Eff.tryCatch (do
      let force ← Eff.lift (← lookupItem (← Eff.lift (power.get "Key"))).jsonCopy
      let abilities ← Eff.lift (power.getPath ["ForceAbilities", "CharForceAbility"])
      let length ← Eff.lift (abilities.get "length")
      let force ← Eff.lift (upgradeLoop abilities (length.loopBound - 4) 4 force)
      pushItem force)
    (fun _ => logMessage "error" ("Unable to add force power "
      ++ ((JsVal.arr forcepowers).getOpt "Key").toStr ++ " to character."))

/-- The `try` block run for one weapon, armor or gear entry `w` (lines 996-1002 and
its copies). -/
def addEquipment (w : JsVal) : Eff ImportState Unit := do
  let item ← Eff.lift (← lookupItem (← Eff.lift (w.get "ItemKey"))).jsonCopy
  let item ←
    if (w.getOpt "Count").truthy then
      Eff.lift (item.setPath ["data"] "quantity"
        (.obj [("value", parseInt10 (w.getOpt "Count"))]))
    else pure item
  pushItem item

/-- The weapons phase (lines 992-1024). -/
def importWeapons (characterData : JsVal) : Eff ImportState Unit := do
  let weapons := ((characterData.getOpt "Character").getOpt "Weapons").getOpt "CharWeapon"
  if weapons.truthy then
    if weapons.isArray then
      Eff.forEach (fun w => Eff.tryCatch (addEquipment w) (fun _ => do
        let itemKey ← Eff.lift (w.get "ItemKey")
        if (itemKey.getOpt "length").truthy then
          logMessage "error" ("Unable to add weapon (" ++ itemKey.toStr ++ ") to character.")))
        (← Eff.lift weapons.asArray)
    else
      Eff.tryCatch (addEquipment weapons) (fun _ => do
        let itemKey := weapons.getOpt "ItemKey"
        if (itemKey.getOpt "length").truthy then
          logMessage "warn" ("Unable to add weapon (" ++ itemKey.toStr ++ ") to character."))

/-- The armor phase (lines 1028-1057) and, with `Gear`, `CharGear` and `gear` for
`Armor`, `CharArmor` and `armor`, the gear phase (lines 1061-1091). -/
def importArmorOrGear (group entry kind : String) (characterData : JsVal) :
    Eff ImportState Unit := do
  let entries := ((characterData.getOpt "Character").getOpt group).getOpt entry
  if entries.truthy then
    if entries.isArray then
      Eff.forEach (fun w => Eff.tryCatch (addEquipment w) (fun _ => do
        let itemKey ← Eff.lift (w.get "ItemKey")
        logMessage "error" ("Unable to add " ++ kind ++ " (" ++ itemKey.toStr
          ++ ") to character.")))
        (← Eff.lift entries.asArray)
    else
      Eff.tryCatch (addEquipment entries) (fun _ => do
        let itemKey ← Eff.lift (entries.get "ItemKey")
        logMessage "error" ("Unable to add " ++ kind ++ " (" ++ itemKey.toStr
          ++ ") to character."))

/-- `path.split("/")` on the characters of the path: the segments between the
separators, of which there is always at least one. -/
def splitChars (sep : Char) : List Char → List (List Char)
  | [] => [[]]
  | c :: cs =>
    if c = sep then [] :: splitChars sep cs
    else
      match splitChars sep cs with
      | [] => [[c]]
      | seg :: segs => (c :: seg) :: segs

/-- The loop of `verifyPath` (lines 16-25), with the local `currentSource` passed
explicitly: each round extends `currentSource` unless it equals the segment, and asks
the host for the directory; a failure of the host is caught inside the loop. The
state is the list of the requests `(source, target)` made to
`FilePicker.createDirectory` so far. -/
def verifyPathLoop (host : Host) (startingSource : String) :
    List String → String → Eff (List (String × String)) Unit
  | [], _ => pure ()
  | segment :: rest, currentSource => do
    let currentSource :=
      if currentSource ≠ segment then currentSource ++ "/" ++ segment else currentSource
    let before ← Eff.read
    Eff.write (before ++ [(startingSource, currentSource)])
    Eff.tryCatch (Eff.lift (host.createDirectory before startingSource currentSource))
      (fun _ => pure ())
    verifyPathLoop host startingSource rest currentSource

/-- `verifyPath(startingSource, path)` (lines 11-31) for a string `path`; the outer
`catch` is never entered, since `split` does not throw on a string. -/
def verifyPath (host : Host) (startingSource path : String) :
    Eff (List (String × String)) Bool := do
  let paths := (splitChars '/' path.toList).map String.mk
  verifyPathLoop host startingSource paths (paths.headD "")
  pure true

/-- `b64toBlob(b64Data)` (lines 1131-1153): the bytes of the blob, which are the
character codes of `atob(b64Data)` slice after slice. -/
def b64toBlob (host : Host) (b64Data : JsVal) : Js (List Nat) := do
  let byteCharacters ← host.atob b64Data.toStr
  pure (byteCharacters.toList.map Char.toNat)

/-- The portrait phase (lines 1095-1108). -/
def importPortrait (host : Host) (characterData : JsVal) : Eff ImportState Unit :=
  Eff.tryCatch (do
      let worldId ← Eff.gets (·.game.worldId)
      let serverPath := "worlds/" ++ worldId.toStr ++ "/images/characters"
      let _ ← Eff.zoom (·.directories) (fun d s => { s with directories := d })
        (verifyPath host "data" serverPath)
      let imge ← Eff.lift (characterData.getPath ["Character", "Portrait"])
      if imge.truthy then
        let img ← Eff.lift (b64toBlob host imge)
        let key ← Eff.lift (characterData.getPath ["Character", "Key"])
        let fileName := key.toStr ++ ".png"
        Eff.modify (fun s =>
          { s with uploads := s.uploads ++ [("data", serverPath, fileName)] })
        Eff.lift (host.uploadFile "data" serverPath fileName img)
        modifyCharacter (fun character =>
          character.set "img" (.str (serverPath ++ "/" ++ fileName))))
    (fun _ => logMessage "error" "Failed to upload character portrait.")

/-- `game.data.actors.find((actor) => actor.flags.ffgimportid === key)` (line 1112). -/
def findActor (data : JsVal) (key : JsVal) : Js JsVal := do
  let actors ← (← data.get "actors").asArray
  arrayFind (hasImportId key) actors

/-- The commit (lines 1112-1120). -/
def commitCharacter (host : Host) (characterData : JsVal) : Eff ImportState Unit := do
  let data ← Eff.gets (·.game.data)
  let key := (characterData.getOpt "Character").getOpt "Key"
  let found ← Eff.lift (findActor data key)
  if found.truthy then
    modifyCharacter (fun character => character.set "_id" (found.getOpt "_id"))
    let updateData ← Eff.gets (·.character)
    Eff.modify (fun s => { s with storage := s.storage ++ [.update updateData] })
    let data ← Eff.lift (host.actorUpdate data updateData)
    Eff.modify (fun s => { s with game := { s.game with data := data } })
  else
    let character ← Eff.gets (·.character)
    Eff.modify (fun s => { s with storage := s.storage ++ [.create character] })
    let data ← Eff.lift (host.actorCreate data character)
    Eff.modify (fun s => { s with game := { s.game with data := data } })

/-- The phases of `characterImport` between the first part and the commit (lines
727-1110). -/
def importPhases (host : Host) (characterData : JsVal)
    (speciesSkills forcepowers : List JsVal) : Eff ImportState Unit := do
  updateDialog (.num 10)
  importSpecies characterData speciesSkills
  updateDialog (.num 20)
  importCareer characterData
  updateDialog (.num 30)
  importSpecializations characterData
  updateDialog (.num 40)
  Eff.forEach (importForcePower forcepowers) forcepowers
  updateDialog (.num 50)
  importWeapons characterData
  updateDialog (.num 60)
  importArmorOrGear "Armor" "CharArmor" "armor" characterData
  updateDialog (.num 70)
  importArmorOrGear "Gear" "CharGear" "gear" characterData
  updateDialog (.num 80)
  importPortrait host characterData
  updateDialog (.num 90)

/-- The `try` block of `characterImport` (lines 411-1122). -/
def characterImportBody (host : Host) (data : String) : Eff ImportState Unit := do
  let characterData ← Eff.lift (host.xmlToJs data)
  Eff.modify (fun s => if !s.temporary.truthy then { s with temporary := .obj [] } else s)
  let (character, speciesSkills, forcepowers) ← Eff.lift (prepareCharacter characterData)
  Eff.modify (fun s => { s with character := character })
  importPhases host characterData speciesSkills forcepowers
  commitCharacter host characterData
  updateDialog (.num 100)

/-- The `catch` block of `characterImport` (lines 1123-1126). -/
def reportFailure : Eff ImportState Unit :=
  Eff.modify (fun s => { s with
    log := s.log ++ [("error", "Error while importing character")],
    notifications := s.notifications ++ ["An error occured while import character!"] })

/-- `characterImport(data)` (lines 409-1129): the state in which the call leaves the
world. -/
def characterImport (host : Host) (data : String) (s : ImportState) : ImportState :=
  { (Eff.tryCatch (characterImportBody host data) (fun _ => reportFailure) s).2 with
    temporary := .obj [] }

/-! ## Notions used in the statements -/

/-- The import id of a catalog entry: the string `data.flags.ffgimportid` of an
`Entity`. -/
def entryId : JsVal → Option String
  | .entity d =>
    match d.getPath ["flags", "ffgimportid"] with
    | .ok (.str s) => some s
    | _ => none
  | _ => none

/-- The last entry of a catalog's content that has the import id. -/
def lastEntry (id : String) : List JsVal → Option JsVal
  | [] => none
  | e :: rest =>
    match lastEntry id rest with
    | some x => some x
    | none => if entryId e = some id then some e else none

/-- The catalog is of the requested type and not locked. -/
def Pack.searched (type : String) (p : Pack) : Bool := p.entity = type && !p.locked

/-- The content of the catalog can be fetched and every entry is an `Entity` with a
string import id other than `__proto__`. -/
def Pack.wellFormed (p : Pack) : Bool :=
  match p.content with
  | .ok c => c.all fun e => (entryId e).isSome && entryId e != some "__proto__"
  | .error _ => false

/-- The entry with the import id in a catalog of the requested type that is not
locked: the last such entry of its content. -/
def Pack.hit (type id : String) (p : Pack) : Option JsVal :=
  if p.searched type then
    match p.content with
    | .ok c => lastEntry id c
    | .error _ => none
  else none

/-- The index of the catalog can be fetched and none of its entries has the internal
identifier `id`. -/
def Pack.indexLacks (id : JsVal) (p : Pack) : Bool :=
  match p.index with
  | .ok index => index.all fun e =>
    match e.get "_id" with
    | .ok v => !strictEq v id
    | .error _ => false
  | .error _ => false

/-- The last catalog of the list, in enumeration order, with an entry for the import
id. -/
def lastHitPack (type id : String) : List Pack → Option Pack
  | [] => none
  | p :: rest =>
    match lastHitPack type id rest with
    | some q => some q
    | none => if (p.hit type id).isSome then some p else none

/-- A leaf of the records the flattener is specified for: a string, a number or a
boolean. -/
def isPrimitive : JsVal → Bool
  | .bool _ => true
  | .num _ => true
  | .nan => true
  | .str _ => true
  | _ => false

mutual
/-- A nested mapping with primitive leaves. -/
def isNestedMapping : JsVal → Bool
  | .obj fs => primitiveLeaves fs
  | _ => false
/-- Every property is a primitive leaf or a nested mapping with primitive leaves. -/
def primitiveLeaves : List (String × JsVal) → Bool
  | [] => true
  | (_, v) :: rest => (isPrimitive v || isNestedMapping v) && primitiveLeaves rest
end

mutual
/-- The leaves below a value with the path of field names that leads to each; `path`
is the path to the value itself. -/
def leafPaths : JsVal → List String → List (List String × JsVal)
  | .obj fs, path => leafPathsFields fs path
  | v, path => [(path, v)]
/-- The leaves below the properties of a mapping. -/
def leafPathsFields : List (String × JsVal) → List String → List (List String × JsVal)
  | [], _ => []
  | (k, v) :: rest, path => leafPaths v (path ++ [k]) ++ leafPathsFields rest path
end

/-- The key of a leaf in the flat mapping: `data.` followed by the dot-joined path. -/
def dottedKey (path : List String) : String := "data." ++ ".".intercalate path

/-- The entry of the flat mapping for a leaf: its dotted key and its value. -/
def entryOf (e : List String × JsVal) : String × JsVal := (dottedKey e.1, e.2)

/-- One entry per leaf of the mapping with the properties `fs`. -/
def flatEntries (fs : List (String × JsVal)) : Fields :=
  (leafPathsFields fs []).map entryOf

/-- The entry for `img`, present when `newItem.img` is truthy. -/
def imgEntry (newItem : JsVal) : Fields :=
  if (newItem.getOpt "img").truthy then [("img", newItem.getOpt "img")] else []

/-- The numbers of the list do not decrease from one to the next. -/
def nonDecreasing : List JsVal → Bool
  | .num a :: .num b :: rest => decide (a ≤ b) && nonDecreasing (.num b :: rest)
  | [_] => true
  | [] => true
  | _ => false

/-- The value reached from `v` by a chain of own properties of objects. -/
def JsVal.at? : JsVal → List String → Option JsVal
  | v, [] => some v
  | .obj fs, k :: ks =>
    match lookupField k fs with
    | some c => JsVal.at? c ks
    | none => none
  | _, _ :: _ => none

/-- The attribute has the mod, the modtype and the value of the deferred skill. -/
def sameTriple (name : String) (n : Int) (attr : JsVal) : Prop :=
  attr.getOpt "mod" = .str name ∧ attr.getOpt "modtype" = .str "Skill Rank"
    ∧ attr.getOpt "value" = .num n

instance (name : String) (n : Int) (attr : JsVal) : Decidable (sameTriple name n attr) := by
  unfold sameTriple; infer_instance

/-- The attribute that `addBonusChar` builds from a bonus characteristic. -/
def bonusAttribute (char : JsVal) : JsVal :=
  .obj [("isCheckbox", .bool false), ("mod", convertOGCharacteristic (char.getOpt "CharKey")),
    ("modtype", .str "Characteristic"), ("value", char.getOpt "Bonus")]

/-- The attribute `af` after a skill rank is granted for the skill `name`: the value
is the old value `v` plus one, and a missing `key` is filled in. -/
def rankGranted (name : String) (v : Int) (af : Fields) : Fields :=
  if ((JsVal.obj af).getOpt "key").truthy then setField "value" (.num (v + 1)) af
  else setField "key" (.str name) (setField "value" (.num (v + 1)) af)

/-- What a descriptor contributes to the mapping of `getBaseModObject`: the canonical
mod name and the attribute, when `getBaseModAttributeObject` resolves the descriptor. -/
def resolved (temporary mod : JsVal) : Option (String × JsVal) :=
  match getBaseModAttributeObject temporary mod with
  | .ok attr =>
    if attr.truthy then some ((attr.getOpt "type").toStr, attr.getOpt "value") else none
  | .error _ => none

/-- The attribute built from the last descriptor of the sequence that resolves to
`name`. -/
def lastResolved (temporary : JsVal) (name : String) : List JsVal → Option JsVal
  | [] => none
  | mod :: rest =>
    match lastResolved temporary name rest with
    | some a => some a
    | none =>
      match resolved temporary mod with
      | some (n, a) => if n = name then some a else none
      | none => none

/-- The item that an equipment entry `w` adds, given what the lookup of its item key
gave: nothing when the lookup failed or found nothing to copy; otherwise the copy of the
item found, in which `data.quantity` is `{value: parseInt(w.Count, 10)}` when the
entry has a `Count` (an item without `data` cannot take one and adds nothing). -/
def equipmentCopy (w : JsVal) (found : Js JsVal) : Option JsVal :=
  match found with
  | .ok template =>
    match template.jsonCopy with
    | .ok item =>
      if (w.getOpt "Count").truthy then
        (item.setPath ["data"] "quantity"
          (.obj [("value", parseInt10 (w.getOpt "Count"))])).toOption
      else some item
    | .error _ => none
  | .error _ => none

/-- The items that a list of equipment entries adds, in the order of the entries;
`temporary` is `CONFIG.temporary` when the first entry is looked up, and each lookup
hands it on to the next. -/
def equipmentItems (game : Game) : List JsVal → JsVal → List JsVal
  | [], _ => []
  | w :: ws, temporary =>
    match findCompendiumEntityByImportId game "Item" (w.getOpt "ItemKey") .undef temporary with
    | (found, temporary') =>
      match equipmentCopy w found with
      | some item => item :: equipmentItems game ws temporary'
      | none => equipmentItems game ws temporary'

/-- The handler of a `catch` block that at most writes to the log. -/
def OnlyLogs (handler : JsErr → Eff ImportState Unit) : Prop :=
  ∀ e s, ∃ l, handler e s = (.ok (), { s with log := l })

/-- What the phases between the first part and the commit leave as it is: the world,
the storage calls, the notifications, and the record `character` apart from its
properties `items` and `img`. -/
def Frame (s s' : ImportState) : Prop :=
  s'.game = s.game ∧ s'.storage = s.storage ∧ s'.notifications = s.notifications
    ∧ ∀ fs, s.character = .obj fs → ∃ fs', s'.character = .obj fs'
      ∧ ∀ k, k ≠ "items" → k ≠ "img" → lookupField k fs' = lookupField k fs

/-- The computation keeps the frame, whether it throws or not. -/
def Preserves {α : Type} (m : Eff ImportState α) : Prop := ∀ s, Frame s (m s).2

/-- The computation does not throw. -/
def NoThrow {α : Type} (m : Eff ImportState α) : Prop := ∀ s, ∃ a, (m s).1 = .ok a

/-- The value is not an array, or it is an array without `undefined` and `null`
elements. -/
def noNullEntries : JsVal → Prop
  | .arr xs => ∀ w ∈ xs, w.nullish = false
  | _ => True

/-- Every result of the computation satisfies `P`. -/
def Ensures {α : Type} (m : Js α) (P : α → Prop) : Prop := ∀ a, m = .ok a → P a

/-- The record is an object whose property `flags` is `F`. -/
def HasFlags (F : JsVal) (c : JsVal) : Prop :=
  ∃ fs, c = .obj fs ∧ lookupField "flags" fs = some F

/-- What the hypotheses on the document say: the species and the career key can be
read, and the weapon, armor and gear entries, where they are arrays, have no
`undefined` or `null` element. -/
structure PhasesReadable (characterData : JsVal) : Prop where
  species : ∃ k, characterData.getPath ["Character", "Species", "SpeciesKey"] = .ok k
  career : ∃ k, characterData.getPath ["Character", "Career", "CareerKey"] = .ok k
  weapons : noNullEntries
    (((characterData.getOpt "Character").getOpt "Weapons").getOpt "CharWeapon")
  armor : noNullEntries
    (((characterData.getOpt "Character").getOpt "Armor").getOpt "CharArmor")
  gear : noNullEntries
    (((characterData.getOpt "Character").getOpt "Gear").getOpt "CharGear")

/-- The six characteristic codes of line 250. -/
def characteristicCodes : List String := ["BR", "AG", "INT", "CUN", "WIL", "PR"]

/-- The display name of a characteristic code. -/
def characteristicName (code : String) : String :=
  if code = "BR" then "Brawn"
  else if code = "AG" then "Agility"
  else if code = "INT" then "Intellect"
  else if code = "CUN" then "Cunning"
  else if code = "WIL" then "Willpower"
  else "Presence"

/-- The count of a descriptor: `mod?.Count ? parseInt(mod.Count, 10) : 0`. -/
def countOf (mod : JsVal) : JsVal :=
  if (mod.getOpt "Count").truthy then parseInt10 (mod.getOpt "Count") else .num 0

/-- The result `{ type, value: { mod: type, modtype, value } }` for a string `type`. -/
def modResult (type modtype : String) (value : JsVal) : JsVal :=
  .obj [("type", .str type),
    ("value", .obj [("mod", .str type), ("modtype", .str modtype), ("value", value)])]

/-- The key is one that `getBaseModAttributeObject` knows: a characteristic code, a key
of the skill name table `table`, or the encumbrance code. -/
def recognised (table : Fields) (key : JsVal) : Prop :=
  key.includedIn characteristicCodes = true ∨ key.includedIn (table.map Prod.fst) = true
    ∨ key = .str "ENCTADD"

/-- A flat mapping: no value is an object (or an array, or `null`), and no key occurs
twice. -/
def FlatAcc (acc : Fields) : Prop :=
  (∀ p ∈ acc, p.2.typeOf ≠ "object") ∧ (acc.map Prod.fst).Nodup

/-- The entry with its key prefixed by `data.`. -/
def prefixed (p : String × JsVal) : String × JsVal := ("data." ++ p.1, p.2)

/-! ## `importImage` (lines 41-69) -/

/-- What `importImage` calls outside this file: `zip.file(path).async("uint8array")` of
its argument `zip`, and `Helpers.getMimeType(header)` and `Helpers.UploadFile(source,
path, file)` of `helpers/common.js`, the latter for a file with a name, a type and
bytes. Each may fail. -/
structure ImageHost where
  zipFile : String → Js (List Nat)
  getMimeType : String → Js JsVal
  uploadFile : String → String → String → JsVal → List Nat → Js Unit

/-- A line terminator, which `.` in a regular expression does not match. -/
def isLineTerminator (c : Char) : Bool :=
  c = '\n' || c = '\r' || c.toNat = 8232 || c.toNat = 8233

/-- What follows the last `/` or `\` of the first line, when the first line has one. -/
def afterLastSeparator : List Char → Option (List Char)
  | [] => none
  | c :: cs =>
    if isLineTerminator c then none
    else
      match afterLastSeparator cs with
      | some rest => some rest
      | none => if c = '/' || c = '\\' then some cs else none

/-- `path.replace(/^.*[\\\/]/, "")` (line 44): the greedy match from the start of the
string up to the last separator of the first line is removed. -/
def fileName (path : String) : String :=
  String.mk ((afterLastSeparator path.toList).getD path.toList)

/-- The digits of `Number.prototype.toString(16)`, most significant first, for a
number below `16 ^ fuel`. -/
def hexChars : Nat → Nat → List Char
  | 0, _ => []
  | fuel + 1, n =>
    if n < 16 then ["0123456789abcdef".toList.getD n '0']
    else hexChars fuel (n / 16) ++ ["0123456789abcdef".toList.getD (n % 16) '0']

/-- `n.toString(16)`. -/
def toHex (n : Nat) : String := String.mk (hexChars (n + 1) n)

/-- The local `header` (lines 53-57): the elements of `img.subarray(0, 4)`, each
converted by `toString(16)` and appended. -/
def imageHeader (img : List Nat) : String :=
  (img.take 4).foldl (fun header b => header ++ toHex b) ""

/-- The string `needle` occurs in the string (`String.prototype.includes`). -/
def containsChars (needle : List Char) : List Char → Bool
  | [] => needle.isEmpty
  | c :: cs => needle.isPrefixOf (c :: cs) || containsChars needle cs

/-- `images.includes(dest)` for a string `dest` (line 49): the method of arrays
compares the elements with `dest`, the method of strings looks for `dest` inside the
string, and other values have no such method. -/
def includesString (images : JsVal) (dest : String) : Js Bool :=
  match images with
  | .arr xs => pure (xs.any fun e => strictEq e (.str dest))
  | .str s => pure (containsChars dest.toList s.toList)
  | _ => throw JsErr.typeError

/-- `images.push(x)` (line 50): only arrays have the method. -/
def pushElement (images : JsVal) (x : JsVal) : Js JsVal :=
  match images with
  | .arr xs => pure (.arr (xs ++ [x]))
  | _ => throw JsErr.typeError

/-- The upload of lines 51-61, for a destination that was not in the list. -/
def uploadImage (host : Host) (images : ImageHost) (path serverPath filename : String) :
    Eff ImportState Unit := do
  let _ ← Eff.zoom (·.directories) (fun d s => { s with directories := d })
    (verifyPath host "data" serverPath)
  let img ← Eff.lift (images.zipFile path)
  let header := imageHeader img
  let type ← Eff.lift (images.getMimeType header)
  Eff.modify (fun s => { s with uploads := s.uploads ++ [("data", serverPath, filename)] })
  Eff.lift (images.uploadFile "data" serverPath filename type img)

/-- The `try` block of `importImage` (lines 49-64). -/
def importImageBody (host : Host) (images : ImageHost) (path serverPath filename : String) :
    Eff ImportState JsVal := do
  let dest := serverPath ++ "/" ++ filename
  let temporary ← Eff.gets (·.temporary)
  let list ← Eff.lift (temporary.get "images")
  if !(← Eff.lift (includesString list dest)) then
    let list ← Eff.lift (pushElement list (.str dest))
    let temporary ← Eff.lift (temporary.set "images" list)
    Eff.modify (fun s => { s with temporary := temporary })
    uploadImage host images path serverPath filename
  pure (.str dest)

/-- `importImage(path, zip, pack)` (lines 41-69), with `images` for what `zip` and
`Helpers` do. The result is the path of the file on the server, or `undefined`. -/
def importImage (host : Host) (images : ImageHost) (path pack : JsVal) :
    Eff ImportState JsVal := do
  if path.truthy then
    let worldId ← Eff.gets (·.game.worldId)
    let packName ← Eff.lift (pack.getPath ["metadata", "name"])
    let serverPath := "worlds/" ++ worldId.toStr ++ "/images/packs/" ++ packName.toStr
    match path with
    | .str p =>
      let filename := fileName p
      let temporary ← Eff.gets (·.temporary)
      if !(← Eff.lift (temporary.get "images")).truthy then
        let temporary ← Eff.lift (temporary.set "images" (.arr []))
        Eff.modify (fun s => { s with temporary := temporary })
      Eff.tryCatch (importImageBody host images p serverPath filename)
        (fun _ => do
          logMessage "error" ("Error Uploading File: " ++ p ++ " to " ++ serverPath)
          pure JsVal.undef)
    | _ => Eff.raise JsErr.typeError
  else
    pure JsVal.undef

/-- The destination of an upload request `(source, path, name)`: the server path and
the file name, joined by `/`. -/
def uploadDest (u : String × String × String) : String := u.2.1 ++ "/" ++ u.2.2

/-- No two upload requests made so far have the same destination, and the destination
of each is in the list `CONFIG.temporary.images`. -/
def Deduped (s : ImportState) : Prop :=
  (s.uploads.map uploadDest).Nodup
    ∧ ∀ u ∈ s.uploads, ∃ xs, s.temporary.getOpt "images" = .arr xs ∧ .str (uploadDest u) ∈ xs

/-- One call of `importImage` in a batch: what `zip` and `Helpers` do in it, and the
arguments `path` and `pack`. -/
structure ImageCall where
  images : ImageHost
  path : JsVal
  pack : JsVal

/-- The state after a sequence of calls of `importImage`, whatever each returned. -/
def importImages (host : Host) : List ImageCall → ImportState → ImportState
  | [], s => s
  | c :: cs, s => importImages host cs (importImage host c.images c.path c.pack s).2

/-- The world is as before, and the items of the character are the items before
followed by what was added. -/
def ItemsKept (s s' : ImportState) : Prop :=
  s'.game = s.game ∧ ∀ items, s.character.at? ["items"] = some (.arr items) →
    ∃ added, s'.character.at? ["items"] = some (.arr (items ++ added))

/-- The computation keeps the world and the items added so far, whether it throws or
not. -/
def KeepsItems {α : Type} (m : Eff ImportState α) : Prop := ∀ s, ItemsKept s (m s).2

/-! ## `stringToXml` (lines 1155-1161) -/

/-- The byte-order marker, U+FEFF. -/
def byteOrderMark : Char := Char.ofNat 0xFEFF

/-- A match of the regular expression `/^\uFEFF/` at position `i` of the input, of which
`rest` is what stands from this position on: the number of characters matched. Without
the flag `m` the assertion `^` holds at position 0 only. -/
def matchMarker (i : Nat) (rest : List Char) : Option Nat :=
  match rest with
  | c :: _ => if i = 0 ∧ c = byteOrderMark then some 1 else none
  | [] => none

/-- `String.prototype.replace` with a regular expression without the flag `g`: the
positions are tried in order from `i` on, and the first match is replaced. -/
def replaceFirst (matchAt : Nat → List Char → Option Nat) (replacement : List Char) :
    Nat → List Char → List Char
  | i, [] => if (matchAt i []).isSome then replacement else []
  | i, c :: cs =>
    match matchAt i (c :: cs) with
    | some n => replacement ++ (c :: cs).drop n
    | none => c :: replaceFirst matchAt replacement (i + 1) cs

/-- `stringToXml(s)` (lines 1155-1161), with `parseFromString` for the method of the
browser class `DOMParser`. -/
def stringToXml {α : Type} (parseFromString : String → String → α) (s : String) : α :=
  let data := String.mk (replaceFirst matchMarker [] 0 s.toList)
  parseFromString data "text/xml"

/-- The text without a byte-order marker at its start: one marker is taken away, and a
text that does not start with one is left as it is. -/
def withoutMarker (s : String) : String :=
  match s.toList with
  | c :: cs => if c = byteOrderMark then String.mk cs else s
  | [] => s

/-! ## Notions for the experience of the record -/

/-- The counter `k` of the experience block `ranks` holds the integer `n`: the block
has the number `n` or the decimal text of `n` under `k`, or it has no `k` and `n` is
0. -/
def counts (ranks : Fields) (k : String) (n : Int) : Prop :=
  match lookupField k ranks with
  | some v => v = .num n ∨ v = .str (toString n)
  | none => n = 0

/-- The record of a storage call. -/
def StorageCall.record : StorageCall → JsVal
  | .create record => record
  | .update record => record

/-! ## Concrete inputs

The worlds, catalogs and documents on which the theorems below evaluate the code. -/

namespace Examples

/-- Modelled from the spec: a catalog of §6 given by its content. `getCatalogIndex`
lists the internal identifier `_id` of every entry and `getCatalogEntity` returns the
entry with the identifier asked for. -/
def pack (id type : String) (locked : Bool) (content : List JsVal) : Pack :=
  { id := id, entity := type, locked := locked, content := .ok content
    index := .ok (content.map fun e => .obj [("_id", (e.getOpt "data").getOpt "_id")])
    getEntity := fun id =>
      arrayFind (fun e => pure (strictEq ((e.getOpt "data").getOpt "_id") id)) content }

/-- A catalog entry: an `Entity` with its internal identifier, its import id and its
system data. -/
def entry (id importId : String) (data : List (String × JsVal)) : JsVal :=
  .entity (.obj [("_id", .str id), ("name", .str id),
    ("flags", .obj [("ffgimportid", .str importId)]), ("data", .obj data)])

/-- The record an entry is serialised to. -/
def record (id importId : String) (data : List (String × JsVal)) : JsVal :=
  .obj [("_id", .str id), ("name", .str id),
    ("flags", .obj [("ffgimportid", .str importId)]), ("data", .obj data)]

/-- A world without items and actors, with the given catalogs. -/
def game (packs : List Pack) : Game :=
  { data := .obj [("items", .arr []), ("actors", .arr [])], packs := packs,
    worldId := .str "w" }

/-- Modelled from the spec: `createEntity` of the storage collaborator of §6 as the
"faithful in-memory fake" of §8. The record is stored under a new identifier. -/
def fakeCreate (data : JsVal) (record : JsVal) : Js JsVal := do
  let actors ← (← data.get "actors").asArray
  let stored ← record.set "_id" (.str ("actor" ++ toString actors.length))
  data.set "actors" (.arr (actors ++ [stored]))

/-- Modelled from the spec: `updateEntity` of the same fake. The record replaces the
stored record that has its identifier. -/
def fakeUpdate (data : JsVal) (record : JsVal) : Js JsVal := do
  let actors ← (← data.get "actors").asArray
  let id ← record.get "_id"
  data.set "actors"
    (.arr (actors.map fun a => if strictEq (a.getOpt "_id") id then record else a))

/-- A host whose parser returns `characterData` for every text, whose file services
succeed, and whose storage is the fake. -/
def host (characterData : JsVal) : Host :=
  { xmlToJs := fun _ => .ok characterData
    atob := fun s => .ok s
    createDirectory := fun _ _ _ => .ok ()
    uploadFile := fun _ _ _ _ => .ok ()
    actorCreate := fakeCreate
    actorUpdate := fakeUpdate }

/-- A parsed document with the root key `abc`, no characteristic and skill entries, and
the given further children of `Character`. -/
def document (fields : List (String × JsVal)) : JsVal :=
  .obj [("Character", .obj ([
    ("Key", .str "abc"),
    ("Description", .obj [("CharName", .str "Han")]),
    ("Credits", .str "500"),
    ("Experience", .obj [("ExperienceRanks", .obj [("StartingRanks", .str "100")])]),
    ("Characteristics", .obj [("CharCharacteristic", .arr [])]),
    ("Skills", .obj [("CharSkill", .arr [])]),
    ("Species", .obj [("SpeciesKey", .str "HUMAN")]),
    ("Career", .obj [("CareerKey", .str "SMUG"), ("StartingSpecKey", .str "PILOT")])]
    ++ fields))]

/-- One run of `characterImport` in a fresh world with the given catalogs. -/
def run (packs : List Pack) (characterData : JsVal) : ImportState :=
  characterImport (host characterData) "" (ImportState.initial (game packs) .undef)

/-- `CONFIG.temporary` with a skill name table of two skills. -/
def temporary : JsVal :=
  .obj [("skills", .obj [("ATHL", .str "Athletics"), ("BRAWL", .str "Brawl")])]

/-- A character as far as the overlays read it: its skill table. -/
def character : JsVal := .obj [("data", .obj [("skills", initialSkills)])]

/-- A career template without attributes. -/
def career : JsVal := record "c1" "SMUG" [("attributes", .obj [])]

/-- A document whose only force power has no purchased ability. -/
def onePower : JsVal :=
  document [("ForcePowers", .obj [("CharForcePower",
    .obj [("Key", .str "SENSE"), ("ForceAbilities", .obj [("CharForceAbility",
      .arr [.obj [("Key", .str "SENSEBASIC"), ("Purchased", .str "false")]])])])])]

/-- Two unlocked item catalogs that both hold an entry with the import id `HUMAN`. -/
def twoCatalogs : Game :=
  game [pack "world.first" "Item" false [entry "a1" "HUMAN" []],
    pack "world.second" "Item" false [entry "b1" "HUMAN" []]]

/-- A world whose only catalog is locked and holds the import id `HUMAN`. -/
def lockedCatalog : Game :=
  game [pack "world.locked" "Item" true [entry "a1" "HUMAN" []]]

/-- A world with a locked catalog that holds the import id `HUMAN` and an unlocked
catalog that holds `TWILEK` only. -/
def lockedAndOpen : Game :=
  game [pack "world.locked" "Item" true [entry "a1" "HUMAN" []],
    pack "world.open" "Item" false [entry "b1" "TWILEK" []]]

/-- A record whose data is `{"a.b": 1, a: {b: 2}}`: two leaves with one dotted path. -/
def dottedName : JsVal :=
  .obj [("name", .str "x"),
    ("data", .obj [("a.b", .num 1), ("a", .obj [("b", .num 2)])])]

/-- A record whose data is `{a: {b: 1, c: {d: 2}}}`. -/
def nested : JsVal :=
  .obj [("name", .str "x"),
    ("data", .obj [("a", .obj [("b", .num 1), ("c", .obj [("d", .num 2)])])])]

/-- A host whose directory service always fails. -/
def noDirectories : Host :=
  { host .undef with createDirectory := fun _ _ _ => .error JsErr.hostError }

/-- A specialization template with two talent slots. -/
def specialization (id importId : String) : JsVal :=
  entry id importId [("attributes", .obj []), ("talents", .obj [
    ("talent0", .obj [("itemId", .str "t0"), ("attributes", .obj [])]),
    ("talent1", .obj [("itemId", .str "t1"), ("attributes", .obj [])])])]

/-- A specialization of a document with two talents that were not purchased. -/
def charSpecialization (key : String) : JsVal :=
  .obj [("Key", .str key), ("Talents", .obj [("CharTalent",
    .arr [.obj [("Key", .str "T0")], .obj [("Key", .str "T1")]])])]

/-- A document with two specializations besides the starting one. -/
def twoSpecializations : JsVal :=
  document [("Specializations", .obj [("CharSpecialization",
    .arr [charSpecialization "SCOUT", charSpecialization "TRADER"])])]

/-- The catalog of the specializations. -/
def specializations : Pack :=
  pack "world.specializations" "Item" false
    [specialization "p1" "PILOT", specialization "p2" "SCOUT", specialization "p3" "TRADER"]

/-- The attributes of `species`: one rank in Athletics, under the key `1`. -/
def speciesAttributes : Fields :=
  [("1", attributeLiteral (.str "Athletics") "Skill Rank" (.num 1))]

/-- A species item of the catalog, as `JSON.parse(JSON.stringify(...))` returns it. -/
def species : JsVal := record "s1" "HUMAN" [("attributes", .obj speciesAttributes)]

/-- A species item whose only attribute is under the key `2`. -/
def speciesKeyTwo : JsVal :=
  record "s2" "TWILEK"
    [("attributes", .obj [("2", attributeLiteral (.str "Athletics") "Skill Rank" (.num 1))])]

/-- A specialization item whose first talent slot has the given attributes. -/
def slotItem (attrs : Fields) : JsVal :=
  record "sp1" "SMUGGLER" [("talents", .obj [("talent0", .obj [("itemId", .str "t0"),
    ("attributes", .obj attrs)])])]

/-- The bonus characteristic `{CharKey: "BR", Bonus: "1"}` of a talent. -/
def bonusBrawn : JsVal := .obj [("CharKey", .str "BR"), ("Bonus", .str "1")]

/-- A state of the import in which the local `specialization` is `item`. -/
def withSpecialization (item : JsVal) : ImportState :=
  { ImportState.initial (game []) (.obj []) with specialization := item }

/-- A career item with an attribute for one rank in Athletics that has no `key`. -/
def careerAthletics (value : JsVal) : JsVal :=
  record "c2" "SOLDIER" [("attributes", .obj [
    ("attr1", .obj [("mod", .str "Cool"), ("modtype", .str "Skill Rank"), ("value", .num 1)]),
    ("attr2", .obj [("isCheckbox", .bool false), ("mod", .str "Athletics"),
      ("modtype", .str "Skill Rank"), ("value", value)])])]

/-- The modifiers `<Mod><Key>ATHL</Key><Count>1</Count></Mod>`, one for an unknown key,
and `<Mod><Key>ATHL</Key><Count>2</Count></Mod>`, as `JXON.xmlToJs` returns them. -/
def baseMods : List JsVal :=
  [.obj [("Key", .str "ATHL"), ("Count", .str "1")],
   .obj [("Key", .str "NOPE"), ("Count", .str "5")],
   .obj [("Key", .str "ATHL"), ("Count", .str "2")]]

/-- A catalog of items with one blaster, of quantity 1. -/
def armory : Pack :=
  pack "world.weapons" "Item" false
    [entry "w1" "BLASTER" [("quantity", .obj [("value", .num 1)])]]

/-- The weapon entries of a document: two blasters counted as one entry, a weapon that
no catalog has, and a blaster without a count. -/
def weaponEntries : List JsVal :=
  [.obj [("ItemKey", .str "BLASTER"), ("Count", .str "2")],
   .obj [("ItemKey", .str "NOPE"), ("Count", .str "1")],
   .obj [("ItemKey", .str "BLASTER")]]

/-- A document with the weapon entries `weaponEntries`. -/
def armed : JsVal := document [("Weapons", .obj [("CharWeapon", .arr weaponEntries)])]

/-- The state of an import in the world of `armory` whose character has no items yet. -/
def unarmed : ImportState :=
  { ImportState.initial (game [armory]) (.obj []) with character := .obj [("items", .arr [])] }

/-- A parsed document whose only skill entry has a key that the skill table of the
character does not have, with one purchased rank. -/
def unknownSkill : JsVal :=
  .obj [("Character", .obj [
    ("Key", .str "abc"),
    ("Description", .obj [("CharName", .str "Han")]),
    ("Credits", .str "500"),
    ("Experience", .obj [("ExperienceRanks", .obj [("StartingRanks", .str "100")])]),
    ("Characteristics", .obj [("CharCharacteristic", .arr [])]),
    ("Skills", .obj [("CharSkill", .arr [.obj [("Key", .str "NOPE"),
      ("Rank", .obj [("PurchasedRanks", .str "1")])]])]),
    ("Species", .obj [("SpeciesKey", .str "HUMAN")]),
    ("Career", .obj [("CareerKey", .str "SMUG"), ("StartingSpecKey", .str "PILOT")])])]

/-- A world without catalogs whose items are three records; the last two have the id
`HUMAN`. -/
def localItems : Game :=
  { data := .obj [("items", .arr [record "i1" "TWILEK" [], record "i2" "HUMAN" [],
      record "i3" "HUMAN" []]), ("actors", .arr [])], packs := [], worldId := .str "w" }

/-- A force power of a document: the basic ability is purchased, the fifth ability
(position 4) is not. -/
def sensePower : JsVal :=
  .obj [("Key", .str "SENSE"), ("ForceAbilities", .obj [("CharForceAbility", .arr [
    .obj [("Key", .str "SENSEBASIC"), ("Purchased", .str "true")],
    .obj [("Key", .str "SENSE1"), ("Purchased", .str "false")],
    .obj [("Key", .str "SENSE2"), ("Purchased", .str "false")],
    .obj [("Key", .str "SENSE3"), ("Purchased", .str "false")],
    .obj [("Key", .str "SENSE4"), ("Purchased", .str "false")]])])]

/-- The catalog entry of the force power, whose first upgrade is not learned. -/
def senseItem : JsVal :=
  entry "f1" "SENSE" [("upgrades", .obj [("upgrade0", .obj [("islearned", .bool false)])])]

/-- A zip file in which every path holds a PNG file, with services that accept every
file. -/
def imageHost : ImageHost :=
  { zipFile := fun _ => .ok [0x89, 0x50, 0x4e, 0x47, 0x0d, 0x0a]
    getMimeType := fun _ => .ok (.str "image/png")
    uploadFile := fun _ _ _ _ _ => .ok () }

/-- The call `importImage("Images/a.png", zip, pack)` for the pack named `p`. -/
def imageCall : ImageCall :=
  { images := imageHost, path := .str "Images/a.png"
    pack := .obj [("metadata", .obj [("name", .str "p")])] }

/-- A parser that does not accept a byte-order marker before the document, and reads
the document `characterData` from every other text. -/
def strictParser (characterData : JsVal) (text : String) : Js JsVal :=
  if text.toList.head? = some byteOrderMark then .error JsErr.syntaxError
  else .ok characterData

/-- The host of `host`, with the parser that does not accept a byte-order marker. -/
def strictHost (characterData : JsVal) : Host :=
  { host characterData with xmlToJs := strictParser characterData }

/-- A text that starts with a byte-order marker. -/
def marked : String := String.mk [byteOrderMark, '<', 'C', '/', '>']

/-- A parsed document like `document []` whose experience block has three of the four
counters: 100 starting ranks and 120 used, both as text, 45 purchased ranks as a
number, and no species ranks. -/
def experienced : JsVal :=
  .obj [("Character", .obj [
    ("Key", .str "abc"),
    ("Description", .obj [("CharName", .str "Han")]),
    ("Credits", .str "500"),
    ("Experience", .obj [("ExperienceRanks", .obj [("StartingRanks", .str "100"),
      ("PurchasedRanks", .num 45), ("UsedExperience", .str "120")])]),
    ("Characteristics", .obj [("CharCharacteristic", .arr [])]),
    ("Skills", .obj [("CharSkill", .arr [])]),
    ("Species", .obj [("SpeciesKey", .str "HUMAN")]),
    ("Career", .obj [("CareerKey", .str "SMUG"), ("StartingSpecKey", .str "PILOT")])])]

/-- The zip file and the services of `imageHost`, with an upload service that refuses
every file. -/
def failingUpload : ImageHost :=
  { imageHost with uploadFile := fun _ _ _ _ _ => .error JsErr.hostError }

/-- A zip file that has no file at any path. -/
def emptyZip : ImageHost :=
  { imageHost with zipFile := fun _ => .error JsErr.typeError }

/-- The pack named `p`. -/
def imagePack : JsVal := .obj [("metadata", .obj [("name", .str "p")])]

/-- The start of a batch: no image is stored, and no request was made. -/
def batchStart : ImportState := ImportState.initial (game []) (.obj [])

/-- A parsed document like `document []` whose experience block has only the starting
ranks, `2^53 + 1` as text. -/
def hugeExperience : JsVal :=
  .obj [("Character", .obj [
    ("Key", .str "abc"),
    ("Description", .obj [("CharName", .str "Han")]),
    ("Credits", .str "500"),
    ("Experience", .obj [("ExperienceRanks",
      .obj [("StartingRanks", .str "9007199254740993")])]),
    ("Characteristics", .obj [("CharCharacteristic", .arr [])]),
    ("Skills", .obj [("CharSkill", .arr [])]),
    ("Species", .obj [("SpeciesKey", .str "HUMAN")]),
    ("Career", .obj [("CareerKey", .str "SMUG"), ("StartingSpecKey", .str "PILOT")])])]

end Examples

/-! # Theorems -/

/-! ## Properties of the JavaScript layer -/

theorem lookupField_replaceField (k l : String) (x : JsVal) (fs : Fields) :
    lookupField k (replaceField l x fs)
      = if l = k ∧ (lookupField l fs).isSome then some x else lookupField k fs := by
  induction fs with
  | nil => simp [replaceField, lookupField]
  | cons p fs ih =>
    obtain ⟨m, v⟩ := p
    by_cases hml : m = l
    · subst hml
      by_cases hk : m = k
      · simp [replaceField, lookupField, hk]
      · simp [replaceField, lookupField, hk]
    · by_cases hmk : m = k
      · subst hmk
        have : ¬ l = m := fun h => hml h.symm
        simp [replaceField, lookupField, hml, this]
      · simp [replaceField, lookupField, hml, hmk, ih]

theorem lookupField_insertIndexField (k l : String) (i : Nat) (x : JsVal) (fs : Fields)
    (hl : index? l = some i) :
    lookupField k (insertIndexField i l x fs)
      = if l = k then some x else lookupField k fs := by
  induction fs with
  | nil => simp [insertIndexField, lookupField]
  | cons p fs ih =>
    obtain ⟨m, v⟩ := p
    simp only [insertIndexField]
    cases hm : index? m with
    | none => simp [lookupField]
    | some j =>
      simp only
      by_cases hji : j < i
      · simp only [hji, if_true, lookupField, ih]
        by_cases hmk : m = k
        · subst hmk
          have : l ≠ m := by
            intro h; subst h; rw [hl] at hm; cases hm; exact Nat.lt_irrefl _ hji
          simp [this]
        · simp [hmk]
      · simp [hji, lookupField]

theorem lookupField_append_single (k l : String) (x : JsVal) (fs : Fields) :
    lookupField k (fs ++ [(l, x)])
      = match lookupField k fs with
        | some v => some v
        | none => if l = k then some x else none := by
  induction fs with
  | nil => simp [lookupField]
  | cons p fs ih =>
    obtain ⟨m, v⟩ := p
    by_cases hmk : m = k
    · simp [lookupField, hmk]
    · simp [lookupField, hmk, ih]

theorem lookupField_setField (k l : String) (x : JsVal) (fs : Fields) :
    lookupField k (setField l x fs) = if l = k then some x else lookupField k fs := by
  unfold setField
  cases h : lookupField l fs with
  | some v => simp [lookupField_replaceField, h]
  | none =>
    simp only
    cases hi : index? l with
    | some i => simp [lookupField_insertIndexField _ _ _ _ _ hi]
    | none =>
      simp only [lookupField_append_single]
      by_cases hlk : l = k
      · subst hlk; simp [h]
      · simp [hlk]; cases lookupField k fs <;> rfl

/-! ## The catalog cache -/

theorem Eff.bind_apply {σ α β : Type} (m : Eff σ α) (f : α → Eff σ β) (s : σ) :
    (m >>= f) s = match m s with
      | (.ok a, s') => f a s'
      | (.error e, s') => (.error e, s') := rfl

theorem Eff.pure_apply {σ α : Type} (a : α) (s : σ) : (pure a : Eff σ α) s = (.ok a, s) := rfl

theorem entryId_eq_some {e : JsVal} {s : String} (h : entryId e = some s) :
    ∃ d, e = .entity d ∧ d.getPath ["flags", "ffgimportid"] = .ok (.str s) := by
  cases e <;> simp [entryId] at h
  rename_i d
  refine ⟨d, rfl, ?_⟩
  split at h <;> simp_all

theorem cacheContent_spec (pid : String) (c : List JsVal) :
    ∀ (fs slot : Fields), lookupField pid fs = some (.obj slot) →
      (∀ e ∈ c, (entryId e).isSome) →
      ∃ fs' slot', cacheContent pid c (.obj fs) = (.ok (), .obj fs')
        ∧ lookupField pid fs' = some (.obj slot')
        ∧ (∀ k, k ≠ pid → lookupField k fs' = lookupField k fs)
        ∧ (∀ key, lookupField key slot' =
            match lastEntry key c with
            | some e => some e
            | none => lookupField key slot) := by
  induction c with
  | nil =>
    intro fs slot h _
    exact ⟨fs, slot, rfl, h, fun _ _ => rfl, fun _ => rfl⟩
  | cons e rest ih =>
    intro fs slot h hwf
    obtain ⟨s, hs⟩ := Option.isSome_iff_exists.mp (hwf e (List.mem_cons_self _ _))
    obtain ⟨d, rfl, hd⟩ := entryId_eq_some hs
    have hstep : lookupField pid (setField pid (.obj (setField s (.entity d) slot)) fs)
        = some (.obj (setField s (.entity d) slot)) := by
      simp [lookupField_setField]
    obtain ⟨fs', slot', hrun, hpid, hother, hslot⟩ :=
      ih _ _ hstep (fun x hx => hwf x (List.mem_cons_of_mem _ hx))
    refine ⟨fs', slot', ?_, hpid, ?_, ?_⟩
    · have hkey : (JsVal.entity d).getPath ["data", "flags", "ffgimportid"] = .ok (.str s) := by
        simpa [getPath, JsVal.get, bind, Except.bind, pure, Except.pure] using hd
      simp only [cacheContent, Eff.bind_apply, Eff.read, Eff.lift, Eff.write, JsVal.member, h,
        hkey, JsVal.set, toStr, pure, Except.pure]
      exact hrun
    · intro k hk
      rw [hother k hk, lookupField_setField]
      simp [Ne.symm hk]
    · intro key
      rw [hslot key]
      simp only [lastEntry]
      cases lastEntry key rest with
      | some x => rfl
      | none =>
        simp only [lookupField_setField, hs, Option.some.injEq]
        by_cases hk : s = key <;> simp [hk]


theorem truthy_undef : JsVal.undef.truthy = false := rfl

theorem truthy_str (s : String) : (JsVal.str s).truthy = (s != "") := rfl

theorem lastEntry_truthy {id : String} {c : List JsVal} {e : JsVal}
    (h : lastEntry id c = some e) : e.truthy = true := by
  induction c with
  | nil => simp [lastEntry] at h
  | cons x rest ih =>
    simp only [lastEntry] at h
    cases hr : lastEntry id rest with
    | some y => rw [hr] at h; cases h; exact ih hr
    | none =>
      rw [hr] at h
      by_cases hx : entryId x = some id
      · simp only [hx, if_true, Option.some.injEq] at h
        subst h
        obtain ⟨d, rfl, _⟩ := entryId_eq_some hx
        rfl
      · simp [hx] at h

/-- What `cachePack` leaves for a pack it visits for the first time. -/
theorem cachePack_first_visit (game : Game) (type id pid : String) (p : Pack) (fs : Fields)
    (hget : game.getPack (.str pid) = some p)
    (hfresh : lookupField pid fs = none)
    (hown : inherited pid = none) (hid : inherited id = none)
    (hwf : p.searched type = true → p.wellFormed = true) :
    ∃ fs', cachePack game type (.str id) (.str pid) (.obj fs)
        = (.ok (if (p.hit type id).isSome then .str pid else .undef), .obj fs')
      ∧ (∀ k, k ≠ pid → lookupField k fs' = lookupField k fs)
      ∧ (p.searched type = false → lookupField pid fs' = none)
      ∧ (p.searched type = true → ∀ c, p.content = .ok c →
          ∃ slot, lookupField pid fs' = some (.obj slot)
            ∧ ∀ key, lookupField key slot = lastEntry key c) := by
  by_cases hs : p.searched type = true
  · have hw := hwf hs
    unfold Pack.wellFormed at hw
    cases hc : p.content with
    | error e => rw [hc] at hw; simp at hw
    | ok c =>
      rw [hc] at hw
      have hall : ∀ e ∈ c, (entryId e).isSome := fun e he =>
        (Bool.and_eq_true _ _ ▸ List.all_eq_true.mp hw e he).1
      have h0 : lookupField pid (setField pid (.obj []) fs) = some (.obj []) := by
        simp [lookupField_setField]
      obtain ⟨fs', slot', hrun, hpid, hother, hslot⟩ := cacheContent_spec pid c _ _ h0 hall
      have hs' : (p.entity = type && !p.locked) = true := hs
      refine ⟨fs', ?_, ?_, ?_, ?_⟩
      · simp only [cachePack, Eff.bind_apply, Eff.read, Eff.lift, JsVal.member, hfresh, hown,
          Option.getD, toStr, truthy_undef, hget, hs', Eff.write, JsVal.set, hc, pure,
          Except.pure, hrun, Bool.not_false, if_true, memberOpt, hpid]
        have hl : lookupField id slot' = lastEntry id c := by
          rw [hslot id]; cases lastEntry id c <;> rfl
        simp only [Pack.hit, hs, if_true, hc, hl]
        cases hle : lastEntry id c with
        | none => simp [truthy_undef, Eff.ret, hid]
        | some e => simp [lastEntry_truthy hle, Eff.ret]
      · intro k hk
        rw [hother k hk, lookupField_setField]
        simp [Ne.symm hk]
      · intro h; rw [hs] at h; cases h
      · intro _ c' hc'
        cases hc'
        refine ⟨slot', hpid, fun key => ?_⟩
        rw [hslot key]; cases lastEntry key c <;> rfl
  · have hs0 : p.searched type = false := by simpa using hs
    have hs' : (p.entity = type && !p.locked) = false := hs0
    refine ⟨fs, ?_, fun _ _ => rfl, fun _ => hfresh, fun h => by rw [hs0] at h; cases h⟩
    simp [cachePack, Eff.bind_apply, Eff.read, Eff.lift, JsVal.member, JsVal.get, hfresh,
      hown, toStr, truthy_undef, hget, hs', pure, Except.pure, memberOpt, Pack.hit, hs0,
      Eff.ret]


theorem find?_of_nodup {α β : Type} [DecidableEq β] (f : α → β) :
    ∀ (l : List α) (p : α), (l.map f).Nodup → p ∈ l →
      l.find? (fun q => decide (f q = f p)) = some p := by
  intro l
  induction l with
  | nil => intro p _ hp; cases hp
  | cons x xs ih =>
    intro p hnd hp
    simp only [List.map_cons, List.nodup_cons] at hnd
    by_cases hx : f x = f p
    · have : p = x := by
        rcases List.mem_cons.mp hp with h | h
        · exact h
        · exact absurd (hx ▸ List.mem_map_of_mem f h) hnd.1
      subst this
      simp [List.find?]
    · have hp' : p ∈ xs := by
        rcases List.mem_cons.mp hp with h | h
        · subst h; exact absurd rfl hx
        · exact h
      simp [List.find?, hx, ih p hnd.2 hp']

theorem getPack_of_mem (game : Game) (hnodup : (game.packs.map Pack.id).Nodup) {p : Pack}
    (hp : p ∈ game.packs) : game.getPack (.str p.id) = some p := by
  simpa [Game.getPack] using find?_of_nodup Pack.id game.packs p hnodup hp

/-- The name `scanPacks` ends with: the id of the last pack that holds the import id,
or the name it started with. -/
theorem scanPacks_spec (game : Game) (type id : String) :
    ∀ (ps : List Pack) (packname : JsVal) (fs : Fields),
      (∀ p ∈ ps, game.getPack (.str p.id) = some p) →
      (ps.map Pack.id).Nodup →
      (∀ p ∈ ps, p.id ≠ "") →
      (∀ p ∈ ps, inherited p.id = none) → inherited id = none →
      (∀ p ∈ ps, p.searched type = true → p.wellFormed = true) →
      (∀ p ∈ ps, lookupField p.id fs = none) →
      ∃ fs', scanPacks game type (.str id) (ps.map Pack.id) packname (.obj fs)
          = (.ok (match lastHitPack type id ps with
              | some q => .str q.id
              | none => packname), .obj fs')
        ∧ (∀ k, k ∉ ps.map Pack.id → lookupField k fs' = lookupField k fs)
        ∧ (∀ p ∈ ps, p.searched type = false → lookupField p.id fs' = none)
        ∧ (∀ p ∈ ps, p.searched type = true → ∀ c, p.content = .ok c →
            ∃ slot, lookupField p.id fs' = some (.obj slot)
              ∧ ∀ key, lookupField key slot = lastEntry key c) := by
  intro ps
  induction ps with
  | nil =>
    intro packname fs _ _ _ _ _ _ _
    exact ⟨fs, rfl, fun _ _ => rfl, fun _ h => absurd h (List.not_mem_nil _),
      fun _ h => absurd h (List.not_mem_nil _)⟩
  | cons p rest ih =>
    intro packname fs hget hnd hne hown hid hwf hfresh
    simp only [List.map_cons, List.nodup_cons] at hnd
    obtain ⟨fs1, hrun1, hother1, hskip1, hhit1⟩ :=
      cachePack_first_visit game type id p.id p fs (hget p (List.mem_cons_self _ _))
        (hfresh p (List.mem_cons_self _ _)) (hown p (List.mem_cons_self _ _)) hid
        (hwf p (List.mem_cons_self _ _))
    have hrest_ne : ∀ q ∈ rest, q.id ≠ p.id := fun q hq h =>
      hnd.1 (h ▸ List.mem_map_of_mem Pack.id hq)
    obtain ⟨fs', hrun, hother, hskip, hhit⟩ :=
      ih (if (JsVal.truthy (if (p.hit type id).isSome then .str p.id else .undef)) = true
            then (if (p.hit type id).isSome then .str p.id else .undef) else packname) fs1
        (fun q hq => hget q (List.mem_cons_of_mem _ hq)) hnd.2
        (fun q hq => hne q (List.mem_cons_of_mem _ hq))
        (fun q hq => hown q (List.mem_cons_of_mem _ hq)) hid
        (fun q hq => hwf q (List.mem_cons_of_mem _ hq))
        (fun q hq => by
          rw [hother1 _ (hrest_ne q hq)]; exact hfresh q (List.mem_cons_of_mem _ hq))
    have hpid : p.id ∉ rest.map Pack.id := hnd.1
    refine ⟨fs', ?_, ?_, ?_, ?_⟩
    · simp only [List.map_cons, scanPacks, Eff.bind_apply, hrun1, hrun, lastHitPack]
      cases lastHitPack type id rest with
      | some q => rfl
      | none =>
        by_cases hh : (p.hit type id).isSome = true
        · have : p.id ≠ "" := hne p (List.mem_cons_self _ _)
          simp [hh, truthy_str, this]
        · simp [hh, truthy_undef]
    · intro k hk
      simp only [List.map_cons, List.mem_cons, not_or] at hk
      rw [hother k hk.2, hother1 k hk.1]
    · intro q hq hs
      rcases List.mem_cons.mp hq with h | h
      · subst h
        rw [hother _ hpid]; exact hskip1 hs
      · exact hskip q h hs
    · intro q hq hs c hc
      rcases List.mem_cons.mp hq with h | h
      · subst h
        rw [hother _ hpid]; exact hhit1 hs c hc
      · exact hhit q h hs c hc


theorem lastHitPack_hit {type id : String} :
    ∀ {ps : List Pack} {q : Pack}, lastHitPack type id ps = some q →
      q ∈ ps ∧ (q.hit type id).isSome = true := by
  intro ps
  induction ps with
  | nil => intro q h; simp [lastHitPack] at h
  | cons p rest ih =>
    intro q h
    simp only [lastHitPack] at h
    cases hr : lastHitPack type id rest with
    | some x =>
      rw [hr] at h; cases h
      exact ⟨List.mem_cons_of_mem _ (ih hr).1, (ih hr).2⟩
    | none =>
      rw [hr] at h
      by_cases hp : (p.hit type id).isSome = true
      · simp only [hp, if_true, Option.some.injEq] at h
        subst h; exact ⟨List.mem_cons_self _ _, hp⟩
      · simp [hp] at h

theorem lastHitPack_none {type id : String} :
    ∀ {ps : List Pack}, (∀ p ∈ ps, p.hit type id = none) → lastHitPack type id ps = none := by
  intro ps
  induction ps with
  | nil => intro _; rfl
  | cons p rest ih =>
    intro h
    simp [lastHitPack, ih (fun q hq => h q (List.mem_cons_of_mem _ hq)),
      h p (List.mem_cons_self _ _)]

theorem lastHitPack_append {type id : String} (p : Pack) (post : List Pack)
    (hp : (p.hit type id).isSome = true) (hpost : ∀ q ∈ post, q.hit type id = none) :
    ∀ pre : List Pack, lastHitPack type id (pre ++ p :: post) = some p := by
  intro pre
  induction pre with
  | nil => simp [lastHitPack, lastHitPack_none hpost, hp]
  | cons x xs ih => simp [lastHitPack, ih]

theorem hit_eq_lastEntry {type id : String} {p : Pack} {c : List JsVal}
    (hs : p.searched type = true) (hc : p.content = .ok c) :
    p.hit type id = lastEntry id c := by
  simp [Pack.hit, hs, hc]

theorem hit_searched {type id : String} {p : Pack} (h : (p.hit type id).isSome = true) :
    p.searched type = true ∧ ∃ c, p.content = .ok c := by
  unfold Pack.hit at h
  by_cases hs : p.searched type = true
  · refine ⟨hs, ?_⟩
    cases hc : p.content with
    | ok c => exact ⟨c, rfl⟩
    | error e => simp [hs, hc] at h
  · simp [hs] at h

/-- Without a local match and without a hint, the lookup returns what the last pack
that holds the import id has cached for it, and caches nothing for the packs it does
not search. -/
theorem findCompendiumEntityByImportId_scan (game : Game) (type id : String) (fs : Fields)
    (hlocal : findEntityByImportId game "items" (.str id) = .ok .undef)
    (hnodup : (game.packs.map Pack.id).Nodup)
    (hne : ∀ p ∈ game.packs, p.id ≠ "")
    (hown : ∀ p ∈ game.packs, inherited p.id = none) (hid : inherited id = none)
    (hwf : ∀ p ∈ game.packs, p.searched type = true → p.wellFormed = true)
    (hfresh : ∀ p ∈ game.packs, lookupField p.id fs = none) :
    ∃ fs', findCompendiumEntityByImportId game type (.str id) .undef (.obj fs)
        = (.ok (match lastHitPack type id game.packs with
            | some q => (q.hit type id).getD .undef
            | none => .undef), .obj fs')
      ∧ (∀ p ∈ game.packs, p.searched type = false → lookupField p.id fs' = none) := by
  obtain ⟨fs', hrun, _, hskip, hhit⟩ :=
    scanPacks_spec game type id game.packs .undef fs
      (fun p hp => getPack_of_mem game hnodup hp) hnodup hne hown hid hwf hfresh
  refine ⟨fs', ?_, hskip⟩
  simp only [findCompendiumEntityByImportId, Eff.bind_apply, Eff.lift, hlocal, truthy_undef,
    Bool.false_eq_true, if_false, Bool.not_false, if_true, Game.packKeys, hrun]
  cases hl : lastHitPack type id game.packs with
  | none => simp [truthy_undef, Eff.pure_apply]
  | some q =>
    obtain ⟨hq, hqhit⟩ := lastHitPack_hit hl
    obtain ⟨hs, c, hc⟩ := hit_searched hqhit
    obtain ⟨slot, hslot, hkeys⟩ := hhit q hq hs c hc
    have hqne : q.id ≠ "" := hne q hq
    obtain ⟨e, he⟩ := Option.isSome_iff_exists.mp hqhit
    have hle : lastEntry id c = some e := by rw [← hit_eq_lastEntry hs hc, he]
    simp [truthy_str, hqne, Eff.read, Eff.pure_apply, JsVal.member, toStr, hslot,
      hkeys, he, hle, bind, Except.bind, pure, Except.pure, Eff.andThen, Eff.lift]


/-! ## C1: which catalog wins -/

/-- C1 (as amended): without a local match and without a catalog hint, when catalogs of
the requested type that are not locked hold an entry with the import id, the lookup
returns the entry of the catalog enumerated last among them (the last such entry of
its content), whatever the catalogs enumerated before it hold. The import id and the
ids of the catalogs are not names of members that every object inherits (such as
`toString`). -/
theorem findCompendiumEntityByImportId_last_catalog (game : Game) (type id : String)
    (pre post : List Pack) (p : Pack) (c : List JsVal) (e : JsVal)
    (hpacks : game.packs = pre ++ p :: post)
    (hlocal : findEntityByImportId game "items" (.str id) = .ok .undef)
    (hnodup : (game.packs.map Pack.id).Nodup)
    (hne : ∀ q ∈ game.packs, q.id ≠ "")
    (hown : ∀ q ∈ game.packs, inherited q.id = none) (hid : inherited id = none)
    (hwf : ∀ q ∈ game.packs, q.searched type = true → q.wellFormed = true)
    (hp : p.searched type = true) (hc : p.content = .ok c) (he : lastEntry id c = some e)
    (hpost : ∀ q ∈ post, q.hit type id = none) :
    (findCompendiumEntityByImportId game type (.str id) .undef (.obj [])).1 = .ok e := by
  obtain ⟨fs', hrun, _⟩ := findCompendiumEntityByImportId_scan game type id [] hlocal hnodup
    hne hown hid hwf (fun _ _ => rfl)
  have hhit : p.hit type id = some e := by rw [hit_eq_lastEntry hp hc, he]
  have hlast : lastHitPack type id game.packs = some p := by
    rw [hpacks]; exact lastHitPack_append p post (by simp [hhit]) hpost pre
  rw [hrun, hlast]
  simp [hhit]

/-- C1, witness: two catalogs with the import id `HUMAN`; the second one wins. -/
theorem findCompendiumEntityByImportId_last_catalog_witness :
    (findCompendiumEntityByImportId Examples.twoCatalogs "Item" (.str "HUMAN") .undef
      (.obj [])).1 = .ok (Examples.entry "b1" "HUMAN" []) :=
  findCompendiumEntityByImportId_last_catalog Examples.twoCatalogs "Item" "HUMAN"
    [Examples.pack "world.first" "Item" false [Examples.entry "a1" "HUMAN" []]] []
    (Examples.pack "world.second" "Item" false [Examples.entry "b1" "HUMAN" []])
    [Examples.entry "b1" "HUMAN" []] (Examples.entry "b1" "HUMAN" [])
    rfl (by decide) (by decide) (by decide) (by decide) (by decide) (by decide) (by decide)
    rfl (by decide) (by decide)

/-- C1, counterexample: of two catalogs that hold the import id `HUMAN`, the lookup
does not return the entry of the catalog enumerated first. -/
theorem findCompendiumEntityByImportId_not_first_catalog :
    (findCompendiumEntityByImportId Examples.twoCatalogs "Item" (.str "HUMAN") .undef
      (.obj [])).1 ≠ .ok (Examples.entry "a1" "HUMAN" []) := by
  decide

/-! ## C2: die modifiers of `getBaseModAttributeObject` -/

/-- C2 (code bug): a skill descriptor with `BoostCount` 2 and `AddSetbackCount` 1 and
no later field yields the modtype "Skill Setback" with the value 2, the boost count:
the modtype is taken from one field and the value from another. -/
theorem getBaseModAttributeObject_boost_and_setback :
    getBaseModAttributeObject Examples.temporary
      (.obj [("Key", .str "ATHL"), ("BoostCount", .str "2"), ("AddSetbackCount", .str "1")])
    = .ok (.obj [("type", .str "Athletics"), ("value", .obj [("mod", .str "Athletics"),
        ("modtype", .str "Skill Setback"), ("value", .num 2)])]) := by
  decide

/-! ## C3: granted skills that the template lacks -/

/-- C3 (code bug): on a career template without attributes, the two granted skills
`ATHL` and `BRAWL` leave one new attribute, filed under the key `undefined`, for
Athletics with the value 2; Brawl gets no attribute. -/
theorem grantSkillRank_two_absent_skills :
    arrayForEach (grantSkillRank Examples.character) [.str "ATHL", .str "BRAWL"]
      Examples.career
    = .ok (Examples.record "c1" "SMUG" [("attributes", .obj [("undefined",
        attributeLiteral (.str "Athletics") "Skill Rank" (.num 2))])]) := by
  decide!

/-! ## C5: leaves that `buildUpdateData` keeps -/

/-- C5 (code bug): leaves `false` and `0` produce an entry, and so do the leaves whose
value is `undefined`, nested (`a.b`) and at the top level (`c`). -/
theorem buildUpdateData_undefined_leaves :
    buildUpdateData (.obj [("name", .str "x"), ("data", .obj [
      ("a", .obj [("b", .undef)]), ("c", .undef), ("d", .bool false), ("e", .num 0)])])
    = .ok (.obj [("data.a.b", .undef), ("data.c", .undef), ("data.d", .bool false),
        ("data.e", .num 0)]) := by
  decide

/-! ## C6: locked catalogs -/

/-- C6 (as amended): without a local match and without a hint, an import id that no
catalog of the requested type holds, save locked ones, is not found: the lookup
returns `undefined`, and the cache has no entry for any locked catalog. The import id
and the ids of the catalogs are not names of members that every object inherits (such
as `toString`). -/
theorem findCompendiumEntityByImportId_locked_not_searched (game : Game) (type id : String)
    (hlocal : findEntityByImportId game "items" (.str id) = .ok .undef)
    (hnodup : (game.packs.map Pack.id).Nodup)
    (hne : ∀ q ∈ game.packs, q.id ≠ "")
    (hown : ∀ q ∈ game.packs, inherited q.id = none) (hid : inherited id = none)
    (hwf : ∀ q ∈ game.packs, q.searched type = true → q.wellFormed = true)
    (honly : ∀ q ∈ game.packs, q.locked = false → q.hit type id = none) :
    ∃ fs', findCompendiumEntityByImportId game type (.str id) .undef (.obj [])
        = (.ok .undef, .obj fs')
      ∧ ∀ q ∈ game.packs, q.locked = true → lookupField q.id fs' = none := by
  obtain ⟨fs', hrun, hskip⟩ := findCompendiumEntityByImportId_scan game type id [] hlocal
    hnodup hne hown hid hwf (fun _ _ => rfl)
  have hnone : ∀ q ∈ game.packs, q.hit type id = none := by
    intro q hq
    cases hl : q.locked with
    | false => exact honly q hq hl
    | true => simp [Pack.hit, Pack.searched, hl]
  refine ⟨fs', ?_, fun q hq hl => hskip q hq (by simp [Pack.searched, hl])⟩
  rw [hrun, lastHitPack_none hnone]

/-- C6, witness: the import id `HUMAN` is held by a locked catalog only, beside a
catalog that is searched and does not hold it. -/
theorem findCompendiumEntityByImportId_locked_not_searched_witness :
    ∃ fs', findCompendiumEntityByImportId Examples.lockedAndOpen "Item" (.str "HUMAN")
        .undef (.obj []) = (.ok .undef, .obj fs')
      ∧ ∀ q ∈ Examples.lockedAndOpen.packs, q.locked = true → lookupField q.id fs' = none :=
  findCompendiumEntityByImportId_locked_not_searched Examples.lockedAndOpen "Item" "HUMAN"
    (by decide) (by decide) (by decide) (by decide) (by decide) (by decide) (by decide)

/-- C6, counterexample: an entry that exists only in a locked catalog of the requested
type is not returned. -/
theorem findCompendiumEntityByImportId_locked_counterexample :
    (findCompendiumEntityByImportId Examples.lockedCatalog "Item" (.str "HUMAN") .undef
      (.obj [])).1 ≠ .ok (Examples.entry "a1" "HUMAN" []) := by
  decide

/-! ## C10: force powers without a purchased ability -/

/-- C10 (code bug): a document whose only force power has no purchased ability gets
that power selected and added to the character. -/
theorem characterImport_single_force_power_unfiltered :
    hasPurchasedAbility (.obj [("Key", .str "SENSE"), ("ForceAbilities",
        .obj [("CharForceAbility",
          .arr [.obj [("Key", .str "SENSEBASIC"), ("Purchased", .str "false")]])])])
      = .ok false
    ∧ (Examples.run [Examples.pack "world.force" "Item" false
          [Examples.entry "f1" "SENSE" []]] Examples.onePower).character.getOpt "items"
      = .arr [Examples.record "f1" "SENSE" []] := by
  constructor
  · decide
  · decide!

/-! ## Lookups that find nothing -/

theorem arrayFind_none (p : JsVal → Js Bool) :
    ∀ xs : List JsVal, (∀ x ∈ xs, p x = .ok false) → arrayFind p xs = .ok .undef := by
  intro xs
  induction xs with
  | nil => intro _; rfl
  | cons x rest ih =>
    intro h
    simp [arrayFind, h x (List.mem_cons_self _ _), bind, Except.bind,
      ih (fun y hy => h y (List.mem_cons_of_mem _ hy))]

theorem getPack_id_of_mem (game : Game) :
    ∀ {p : Pack}, p ∈ game.packs → ∃ q ∈ game.packs, game.getPack (.str p.id) = some q := by
  intro p hp
  simp only [Game.getPack]
  cases h : game.packs.find? (fun q => decide (q.id = p.id)) with
  | some q => exact ⟨q, List.mem_of_find?_eq_some h, rfl⟩
  | none =>
    have := List.find?_eq_none.mp h p hp
    simp at this

theorem findCompendiumEntityByIdLoop_absent (game : Game) (type : String) (id : JsVal)
    (hindex : ∀ q ∈ game.packs, q.entity = type → q.indexLacks id = true) :
    ∀ ps : List Pack, (∀ p ∈ ps, p ∈ game.packs) →
      findCompendiumEntityByIdLoop game type id (ps.map Pack.id) = .ok .undef := by
  intro ps
  induction ps with
  | nil => intro _; rfl
  | cons p rest ih =>
    intro hmem
    obtain ⟨q, hq, hget⟩ := getPack_id_of_mem game (hmem p (List.mem_cons_self _ _))
    have ihr := ih (fun x hx => hmem x (List.mem_cons_of_mem _ hx))
    simp only [List.map_cons, findCompendiumEntityByIdLoop, hget]
    by_cases ht : q.entity = type
    · have hl := hindex q hq ht
      unfold Pack.indexLacks at hl
      cases hi : q.index with
      | error e => rw [hi] at hl; simp at hl
      | ok index =>
        rw [hi] at hl
        have hall : ∀ e ∈ index,
            (do pure (strictEq (← e.get "_id") id) : Js Bool) = .ok false := by
          intro e he
          have := (List.all_eq_true.mp hl) e he
          cases hg : e.get "_id" with
          | error x => simp [hg] at this
          | ok v =>
            simp only [hg] at this
            simp [bind, Except.bind, pure, Except.pure] at this ⊢
            exact this
        have hfind := arrayFind_none _ index hall
        simp only [bind, Except.bind] at hfind
        simp [ht, bind, Except.bind, hfind, truthy_undef, ihr]
    · simp [ht, ihr]


/-- With a hint that names a catalog, only that catalog is consulted. -/
theorem findCompendiumEntityByImportId_hint_absent (game : Game) (type id : String)
    (p : Pack) (hp : p ∈ game.packs) (hpid : p.id ≠ "")
    (hlocal : findEntityByImportId game "items" (.str id) = .ok .undef)
    (hnodup : (game.packs.map Pack.id).Nodup)
    (hown : inherited p.id = none) (hid : inherited id = none)
    (hwf : p.searched type = true → p.wellFormed = true)
    (hnone : p.hit type id = none) :
    (findCompendiumEntityByImportId game type (.str id) (.str p.id) (.obj [])).1
      = .ok .undef := by
  obtain ⟨fs', hrun, _⟩ := cachePack_first_visit game type id p.id p []
    (getPack_of_mem game hnodup hp) rfl hown hid hwf
  simp [findCompendiumEntityByImportId, Eff.bind_apply, Eff.lift, hlocal, truthy_undef,
    truthy_str, hpid, hrun, hnone, Eff.pure_apply]

/-! ## C16: the type of the catalog an entry comes from -/

/-- C16 (code bug): after a lookup of type `Item` has cached an item catalog, a lookup
of type `JournalEntry` for the same import id returns the entry of that catalog,
although no catalog of the world has the type `JournalEntry`. -/
theorem findCompendiumEntityByImportId_cached_other_type :
    (findCompendiumEntityByImportId Examples.twoCatalogs "JournalEntry" (.str "HUMAN") .undef
      (findCompendiumEntityByImportId Examples.twoCatalogs "Item" (.str "HUMAN") .undef
        (.obj [])).2).1 = .ok (Examples.entry "b1" "HUMAN" [])
    ∧ ∀ p ∈ Examples.twoCatalogs.packs, p.entity ≠ "JournalEntry" := by
  decide

/-! ## C17: lookups that find nothing -/

/-- C17 (as amended): when no local item and no catalog entry matches, both lookups
return `undefined` without failing, provided the catalogs that are searched are well
formed, the hint, if one is given, names a catalog of the world, and the import id and
the ids of the catalogs are not names of members that every object inherits (such as
`toString`). -/
theorem lookups_absent (game : Game) (type id : String) (target hint : JsVal)
    (hhint : hint = .undef ∨ ∃ p ∈ game.packs, hint = .str p.id)
    (hlocal : findEntityByImportId game "items" (.str id) = .ok .undef)
    (hnodup : (game.packs.map Pack.id).Nodup)
    (hne : ∀ q ∈ game.packs, q.id ≠ "")
    (hown : ∀ q ∈ game.packs, inherited q.id = none) (hid : inherited id = none)
    (hwf : ∀ q ∈ game.packs, q.searched type = true → q.wellFormed = true)
    (hnone : ∀ q ∈ game.packs, q.hit type id = none)
    (hindex : ∀ q ∈ game.packs, q.entity = type → q.indexLacks target = true) :
    (findCompendiumEntityByImportId game type (.str id) hint (.obj [])).1 = .ok .undef
    ∧ findCompendiumEntityById game type target = .ok .undef := by
  constructor
  · rcases hhint with rfl | ⟨p, hp, rfl⟩
    · obtain ⟨fs', hrun, _⟩ := findCompendiumEntityByImportId_scan game type id [] hlocal
        hnodup hne hown hid hwf (fun _ _ => rfl)
      rw [hrun, lastHitPack_none hnone]
    · exact findCompendiumEntityByImportId_hint_absent game type id p hp (hne p hp) hlocal
        hnodup (hown p hp) hid (hwf p hp) (hnone p hp)
  · exact findCompendiumEntityByIdLoop_absent game type target hindex game.packs
      (fun _ h => h)

/-- C17, witness: a world with two catalogs that are searched, neither of which has
an entry with the import id `WOOKIEE` or the identifier `zz`. -/
theorem lookups_absent_witness :
    (findCompendiumEntityByImportId Examples.twoCatalogs "Item" (.str "WOOKIEE") .undef
      (.obj [])).1 = .ok .undef
    ∧ findCompendiumEntityById Examples.twoCatalogs "Item" (.str "zz") = .ok .undef :=
  lookups_absent Examples.twoCatalogs "Item" "WOOKIEE" (.str "zz") .undef (Or.inl rfl)
    (by decide) (by decide) (by decide) (by decide) (by decide) (by decide) (by decide)
    (by decide)

/-- C17, counterexample: with a hint that names no catalog of the world the lookup
fails with a `TypeError`. -/
theorem findCompendiumEntityByImportId_unknown_hint_fails :
    (findCompendiumEntityByImportId Examples.lockedCatalog "Item" (.str "HUMAN")
      (.str "world.missing") (.obj [])).1 = .error JsErr.typeError := by
  decide

/-- The slot of a catalog in the cache is a plain object, so an import id that is the
name of a member every object inherits is found in every catalog that is searched:
with two catalogs that hold only `HUMAN`, the lookup of `toString` returns the
function `Object.prototype.toString`, and the lookup of `constructor` the function
`Object`. -/
theorem findCompendiumEntityByImportId_inherited_member :
    (findCompendiumEntityByImportId Examples.twoCatalogs "Item" (.str "toString") .undef
      (.obj [])).1 = .ok (.fn "toString")
    ∧ (findCompendiumEntityByImportId Examples.twoCatalogs "Item" (.str "constructor") .undef
      (.obj [])).1 = .ok (.fn "Object") := by
  decide

/-! ## Flattening -/

theorem intercalate_go_append (s k : String) :
    ∀ (l : List String) (acc : String),
      String.intercalate.go acc s (l ++ [k]) = String.intercalate.go acc s l ++ s ++ k := by
  intro l
  induction l with
  | nil => intro acc; simp [String.intercalate.go]
  | cons a as ih => intro acc; simp [String.intercalate.go, ih]

theorem intercalate_append_single (s k : String) (l : List String) (hl : l ≠ []) :
    s.intercalate (l ++ [k]) = s.intercalate l ++ s ++ k := by
  cases l with
  | nil => exact absurd rfl hl
  | cons a as => simp [String.intercalate, intercalate_go_append]

theorem dottedKey_snoc (path : List String) (k : String) (hp : path ≠ []) :
    dottedKey (path ++ [k]) = "data." ++ ".".intercalate path ++ "." ++ k := by
  simp [dottedKey, intercalate_append_single _ _ _ hp, String.append_assoc]

theorem dottedKey_single (k : String) : dottedKey [k] = "data." ++ k := by
  simp [dottedKey, String.intercalate, String.intercalate.go]

theorem index?_data (t : String) : index? ("data." ++ t) = none := by
  have : ("data." ++ t).toList = 'd' :: ("ata." ++ t).toList := by
    simp [String.toList, String.data_append]
  simp [index?, this, readDigits, digit?]


theorem img_ne_data (t : String) : "data." ++ t ≠ "img" := by
  intro h
  have := congrArg String.toList h
  simp [String.toList, String.data_append] at this

theorem lookupField_none_of_not_mem (k : String) :
    ∀ fs : Fields, k ∉ fs.map Prod.fst → lookupField k fs = none := by
  intro fs
  induction fs with
  | nil => intro _; rfl
  | cons p rest ih =>
    intro h
    obtain ⟨l, v⟩ := p
    simp only [List.map_cons, List.mem_cons, not_or] at h
    simp [lookupField, Ne.symm h.1, ih h.2]

theorem setField_data_append (t : String) (v : JsVal) (acc : Fields)
    (h : ("data." ++ t) ∉ acc.map Prod.fst) :
    setField ("data." ++ t) v acc = acc ++ [("data." ++ t, v)] := by
  simp [setField, lookupField_none_of_not_mem _ _ h, index?_data]

theorem typeOf_primitive {v : JsVal} (h : isPrimitive v = true) :
    v.typeOf ≠ "object" ∧ strictEq (.str v.typeOf) .undef = false := by
  cases v <;> simp [isPrimitive] at h <;> simp [typeOf, strictEq]

mutual
theorem recursiveFields_flat : (fs : List (String × JsVal)) → (path : List String) →
    (acc : Fields) → path ≠ [] → primitiveLeaves fs = true →
    (acc.map Prod.fst ++ ((leafPathsFields fs path).map entryOf).map Prod.fst).Nodup →
    recursiveFields fs (".".intercalate path) acc
      = acc ++ (leafPathsFields fs path).map entryOf
  | [], path, acc, _, _, _ => by simp [recursiveFields, leafPathsFields]
  | (k, v) :: rest, path, acc, hp, hl, hnd => by
    simp only [primitiveLeaves, Bool.and_eq_true, Bool.or_eq_true] at hl
    simp only [leafPathsFields, List.map_append] at hnd ⊢
    have hrest := recursiveFields_flat rest path
    rcases hl.1 with hprim | hmap
    · have hleaf : leafPaths v (path ++ [k]) = [(path ++ [k], v)] := by
        cases v <;> simp [isPrimitive] at hprim <;> simp [leafPaths]
      obtain ⟨hne, hse⟩ := typeOf_primitive hprim
      rw [hleaf] at hnd ⊢
      simp only [List.map_cons, List.map_nil, entryOf, dottedKey_snoc path k hp] at hnd ⊢
      have hnot : ("data." ++ (".".intercalate path ++ "." ++ k)) ∉ acc.map Prod.fst := by
        intro hmem
        have := (List.nodup_append.mp hnd).2.2
        exact this hmem (by simp [String.append_assoc])
      have hset := setField_data_append (".".intercalate path ++ "." ++ k) v acc hnot
      simp only [← String.append_assoc] at hset
      simp only [recursiveFields, hne, if_false, hse, Bool.not_false, if_true, hset]
      rw [hrest _ hp hl.2 (by simpa [List.append_assoc] using hnd)]
      simp [List.append_assoc]
    · cases v with
      | obj fs' =>
        simp only [isNestedMapping] at hmap
        simp only [leafPaths] at hnd ⊢
        have hinner := recursiveFields_flat fs' (path ++ [k]) acc (by simp) hmap
          (by
            rw [← List.append_assoc] at hnd
            exact (List.nodup_append.mp hnd).1)
        rw [intercalate_append_single _ _ _ hp] at hinner
        simp only [recursiveFields, typeOf, if_true, recursiveObject, hinner]
        rw [hrest _ hp hl.2 (by simpa [List.append_assoc] using hnd)]
        simp [List.append_assoc]
      | _ => simp [isNestedMapping] at hmap
end


theorem get_total (v : JsVal) (k : String) (h : v.nullish = false) :
    ∃ x, v.get k = .ok x := by
  cases v <;> simp [nullish] at h <;> simp only [JsVal.get]
  all_goals first
    | exact ⟨_, rfl⟩
    | (split <;> first | exact ⟨_, rfl⟩ | (split <;> exact ⟨_, rfl⟩))

theorem not_nullish_of_get {v x : JsVal} {k : String} (h : v.get k = .ok x) :
    v.nullish = false := by
  cases v <;> first | rfl | (simp [JsVal.get, throw, throwThe, MonadExceptOf.throw] at h)

theorem buildUpdateDataLoop_flat : ∀ (fs : List (String × JsVal)) (acc : Fields),
    primitiveLeaves fs = true →
    (acc.map Prod.fst ++ ((leafPathsFields fs []).map entryOf).map Prod.fst).Nodup →
    buildUpdateDataLoop fs acc = acc ++ (leafPathsFields fs []).map entryOf := by
  intro fs
  induction fs with
  | nil => intro acc _ _; simp [buildUpdateDataLoop, leafPathsFields]
  | cons p rest ih =>
    intro acc hl hnd
    obtain ⟨k, v⟩ := p
    simp only [primitiveLeaves, Bool.and_eq_true, Bool.or_eq_true] at hl
    simp only [leafPathsFields, List.map_append, List.nil_append] at hnd ⊢
    rcases hl.1 with hprim | hmap
    · have hleaf : leafPaths v [k] = [([k], v)] := by
        cases v <;> simp [isPrimitive] at hprim <;> simp [leafPaths]
      obtain ⟨hne, _⟩ := typeOf_primitive hprim
      rw [hleaf] at hnd ⊢
      simp only [List.map_cons, List.map_nil, entryOf, dottedKey_single] at hnd ⊢
      have hnot : ("data." ++ k) ∉ acc.map Prod.fst := by
        intro hmem
        exact (List.nodup_append.mp hnd).2.2 hmem (by simp)
      simp only [buildUpdateDataLoop, hne, if_false, setField_data_append k v acc hnot]
      rw [ih _ hl.2 (by simpa [List.append_assoc] using hnd)]
      simp [List.append_assoc]
    · cases v with
      | obj fs' =>
        simp only [isNestedMapping] at hmap
        simp only [leafPaths] at hnd ⊢
        have hinner := recursiveFields_flat fs' [k] acc (by simp) hmap
          (by
            rw [← List.append_assoc] at hnd
            exact (List.nodup_append.mp hnd).1)
        have hk : ".".intercalate [k] = k := by
          simp [String.intercalate, String.intercalate.go]
        rw [hk] at hinner
        simp only [buildUpdateDataLoop, typeOf, if_true, recursiveObject, hinner]
        rw [ih _ hl.2 (by simpa [List.append_assoc] using hnd)]
        simp [List.append_assoc]
      | _ => simp [isNestedMapping] at hmap

theorem flatEntries_keys (fs : List (String × JsVal)) :
    ∀ k ∈ (flatEntries fs).map Prod.fst, ∃ t, k = "data." ++ t := by
  intro k hk
  simp only [flatEntries, List.map_map, List.mem_map] at hk
  obtain ⟨e, _, rfl⟩ := hk
  exact ⟨_, rfl⟩

/-! ## C4: the flat mapping of `buildUpdateData` -/

/-- C4 (as amended): for a record whose data is a nested mapping with primitive leaves
(strings, numbers, booleans) whose dotted paths are pairwise distinct, `buildUpdateData`
returns the flat mapping with exactly one entry per leaf, under the key `data.`
followed by the dot-joined path of field names to the leaf and with the value of the
leaf; apart from an entry for `img`, present when `newItem.img` is truthy, it has no
other entries. -/
theorem buildUpdateData_flat (newItem : JsVal) (fs : List (String × JsVal))
    (hdata : newItem.get "data" = .ok (.obj fs))
    (hleaves : primitiveLeaves fs = true)
    (hdistinct : ((flatEntries fs).map Prod.fst).Nodup) :
    buildUpdateData newItem = .ok (.obj (imgEntry newItem ++ flatEntries fs)) := by
  have hnn : ∀ k, ∃ x, newItem.get k = .ok x :=
    fun k => get_total newItem k (not_nullish_of_get hdata)
  obtain ⟨n, hn⟩ := hnn "name"
  obtain ⟨img, himg⟩ := hnn "img"
  have hopt : newItem.getOpt "img" = img := by simp [getOpt, himg]
  have hacc : (if img.truthy = true then setField "img" img [] else [])
      = imgEntry newItem := by
    simp only [imgEntry, hopt]
    split
    · have hi : index? "img" = none := by decide
      simp [setField, lookupField, hi]
    · rfl
  have hnd : ((imgEntry newItem).map Prod.fst
      ++ ((leafPathsFields fs []).map entryOf).map Prod.fst).Nodup := by
    have hd : (((leafPathsFields fs []).map entryOf).map Prod.fst).Nodup := hdistinct
    unfold imgEntry
    split
    · simp only [List.map_cons, List.map_nil, List.singleton_append, List.nodup_cons]
      refine ⟨?_, hd⟩
      intro hmem
      obtain ⟨t, ht⟩ := flatEntries_keys fs _ hmem
      exact img_ne_data t ht.symm
    · simpa using hd
  have hloop := buildUpdateDataLoop_flat fs (imgEntry newItem) hleaves hnd
  simp only [buildUpdateData, hn, himg, hdata, bind, Except.bind, pure, Except.pure,
    ownFields, hacc, hloop]
  rfl

/-- C4, witness: `{a: {b: 1, c: {d: 2}}}` gives `{"data.a.b": 1, "data.a.c.d": 2}`. -/
theorem buildUpdateData_flat_witness :
    buildUpdateData Examples.nested
      = .ok (.obj [("data.a.b", .num 1), ("data.a.c.d", .num 2)]) :=
  buildUpdateData_flat Examples.nested
    [("a", .obj [("b", .num 1), ("c", .obj [("d", .num 2)])])] rfl (by decide) (by decide)

/-- C4, counterexample: the data `{"a.b": 1, a: {b: 2}}` has two leaves, and the flat
mapping has one entry. -/
theorem buildUpdateData_dotted_names :
    (leafPathsFields [("a.b", .num 1), ("a", .obj [("b", .num 2)])] []).length = 2
    ∧ buildUpdateData Examples.dottedName = .ok (.obj [("data.a.b", .num 2)]) := by
  decide

/-! ## Progress and directories -/

theorem updateDialogSpecialization_progress (s : ImportState) (c t : Int)
    (ht : 0 < t) (hc : s.specCount = .num c) (hs : s.specTotal = .num t) :
    (updateDialogSpecialization s).2.progress
      = s.progress ++ [.num (30 + Int.tdiv (c * 10) t)] := by
  have ht' : t ≠ 0 := Int.ne_of_gt ht
  simp [updateDialogSpecialization, Eff.bind_apply, Eff.gets, hc, hs, updateDialog,
    Eff.modify, truncRatio, toNumber, ht', plus, numAdd]

/-! ## C18: the progress bar -/

/-- C18 (as amended): while the total stays the same, the percentage that
`updateDialogSpecialization` shows does not decrease when the count grows. -/
theorem updateDialogSpecialization_mono (s s' : ImportState) (c c' t : Int)
    (ht : 0 < t) (h0 : 0 ≤ c) (hcc : c ≤ c')
    (hc : s.specCount = .num c) (hs : s.specTotal = .num t)
    (hc' : s'.specCount = .num c') (hs' : s'.specTotal = .num t) :
    ∃ a b : Int, (updateDialogSpecialization s).2.progress = s.progress ++ [.num a]
      ∧ (updateDialogSpecialization s').2.progress = s'.progress ++ [.num b]
      ∧ a ≤ b := by
  refine ⟨_, _, updateDialogSpecialization_progress s c t ht hc hs,
    updateDialogSpecialization_progress s' c' t ht hc' hs', ?_⟩
  have h1 : 0 ≤ c * 10 := by omega
  have h2 : 0 ≤ c' * 10 := by omega
  rw [Int.tdiv_eq_ediv h1 (Int.le_of_lt ht), Int.tdiv_eq_ediv h2 (Int.le_of_lt ht)]
  have := Int.ediv_le_ediv ht (show c * 10 ≤ c' * 10 by omega)
  omega

/-- C18, witness: with a total of 4, the counts 1 and 2 show 32 and 35 percent. -/
theorem updateDialogSpecialization_mono_witness :
    ∃ a b : Int,
      (updateDialogSpecialization { ImportState.initial (Examples.game []) .undef with
        specCount := .num 1, specTotal := .num 4 }).2.progress = [] ++ [.num a]
      ∧ (updateDialogSpecialization { ImportState.initial (Examples.game []) .undef with
        specCount := .num 2, specTotal := .num 4 }).2.progress = [] ++ [.num b]
      ∧ a ≤ b :=
  updateDialogSpecialization_mono _ _ 1 2 4 (by decide) (by decide) (by decide) rfl rfl rfl rfl

/-- C18, counterexample: for a document with two specializations besides the starting
one, each with two talents, the bar shows 37 percent and then 35 percent. -/
theorem characterImport_progress_decreases :
    (Examples.run [Examples.specializations] Examples.twoSpecializations).progress
      = [.num 10, .num 20, .num 30, .num 30, .num 30, .num 32, .num 35, .num 37, .num 35,
          .num 36, .num 38, .num 40, .num 40, .num 50, .num 60, .num 70, .num 80, .num 90,
          .num 100]
    ∧ nonDecreasing
        (Examples.run [Examples.specializations] Examples.twoSpecializations).progress
      = false := by
  decide!

/-! ## C19 and C20: `verifyPath` -/

/-- C19 (code bug): for the path `a/a` the second request is again for `a`, not for
`a/a`. -/
theorem verifyPath_repeated_segment :
    (verifyPath (Examples.host .undef) "data" "a/a" []).2
      = [("data", "a"), ("data", "a")] := by
  decide

theorem verifyPathLoop_ok (host : Host) (startingSource : String) :
    ∀ (paths : List String) (currentSource : String) (s : List (String × String)),
      (verifyPathLoop host startingSource paths currentSource s).1 = .ok () := by
  intro paths
  induction paths with
  | nil => intro _ _; rfl
  | cons p rest ih =>
    intro cur s
    simp only [verifyPathLoop, Eff.bind_apply, Eff.read, Eff.write, Eff.tryCatch, Eff.lift]
    cases host.createDirectory s startingSource (if cur ≠ p then cur ++ "/" ++ p else cur)
      <;> exact ih _ _

/-- C20 (code bug): `verifyPath` returns `true` for every path, whatever the host
answers to the directory requests, also when every one of them fails. -/
theorem verifyPath_returns_true (host : Host) (startingSource path : String)
    (s : List (String × String)) :
    (verifyPath host startingSource path s).1 = .ok true := by
  have h := verifyPathLoop_ok host startingSource
    ((splitChars '/' path.toList).map String.mk)
    (((splitChars '/' path.toList).map String.mk).headD "") s
  simp only [verifyPath, Eff.bind_apply]
  cases hr : verifyPathLoop host startingSource ((splitChars '/' path.toList).map String.mk)
    (((splitChars '/' path.toList).map String.mk).headD "") s with
  | mk r s' =>
    rw [hr] at h
    simp only at h
    subst h
    rfl

/-! ## Paths into objects -/

theorem at?_getPath : ∀ (p : List String) (v c : JsVal), v.at? p = some c →
    v.getPath p = .ok c := by
  intro p
  induction p with
  | nil => intro v c h; simp [JsVal.at?] at h; simp [getPath, h, pure, Except.pure]
  | cons k ks ih =>
    intro v c h
    cases v <;> simp [JsVal.at?] at h
    rename_i fs
    cases hl : lookupField k fs with
    | none => simp [hl] at h
    | some x =>
      simp only [hl] at h
      simp [getPath, JsVal.get, hl, bind, Except.bind, pure, Except.pure, ih x c h]

theorem at?_modifyPath (f : JsVal → Js JsVal) : ∀ (p : List String) (v c c' : JsVal),
    v.at? p = some c → f c = .ok c' →
    ∃ v', v.modifyPath p f = .ok v' ∧ v'.at? p = some c' := by
  intro p
  induction p with
  | nil =>
    intro v c c' h hf
    simp [JsVal.at?] at h
    subst h
    exact ⟨c', by simp [modifyPath, hf], by simp [JsVal.at?]⟩
  | cons k ks ih =>
    intro v c c' h hf
    cases v <;> simp [JsVal.at?] at h
    rename_i fs
    cases hl : lookupField k fs with
    | none => simp [hl] at h
    | some x =>
      simp only [hl] at h
      obtain ⟨x', hx, hx'⟩ := ih x c c' h hf
      refine ⟨.obj (setField k x' fs), ?_, ?_⟩
      · simp [modifyPath, JsVal.get, hl, bind, Except.bind, pure, Except.pure, hx, JsVal.set]
      · simp [JsVal.at?, lookupField_setField, hx']

theorem at?_setPath (p : List String) (v : JsVal) (fs : Fields) (k : String) (x : JsVal)
    (h : v.at? p = some (.obj fs)) :
    ∃ v', v.setPath p k x = .ok v' ∧ v'.at? p = some (.obj (setField k x fs)) :=
  at?_modifyPath _ p v _ _ h rfl

theorem strictEq_str {x : JsVal} {s : String} : strictEq x (.str s) = true ↔ x = .str s := by
  cases x <;> simp [strictEq]

theorem strictEq_num {x : JsVal} {n : Int} : strictEq x (.num n) = true ↔ x = .num n := by
  cases x <;> simp [strictEq]

theorem arrayFilter_eq (p : JsVal → Js Bool) (q : JsVal → Bool) :
    ∀ xs : List JsVal, (∀ x ∈ xs, p x = .ok (q x)) → arrayFilter p xs = .ok (xs.filter q) := by
  intro xs
  induction xs with
  | nil => intro _; rfl
  | cons x rest ih =>
    intro h
    simp only [arrayFilter, h x (List.mem_cons_self _ _),
      ih (fun y hy => h y (List.mem_cons_of_mem _ hy)), bind, Except.bind, pure, Except.pure,
      List.filter]
    cases q x <;> rfl

theorem get_eq_getOpt {v : JsVal} (h : v.nullish = false) (k : String) :
    v.get k = .ok (v.getOpt k) := by
  obtain ⟨x, hx⟩ := get_total v k h
  simp [getOpt, hx]

theorem sameAttribute_eq (name : String) (n : Int) (attr : JsVal)
    (h : attr.nullish = false) :
    sameAttribute (attributeLiteral (.str name) "Skill Rank" (.num n)) attr
      = .ok (decide (sameTriple name n attr)) := by
  simp only [sameAttribute, get_eq_getOpt h, bind, Except.bind, pure, Except.pure,
    Except.ok.injEq]
  have h1 : (attributeLiteral (.str name) "Skill Rank" (.num n)).getOpt "mod" = .str name := rfl
  have h2 : (attributeLiteral (.str name) "Skill Rank" (.num n)).getOpt "modtype"
      = .str "Skill Rank" := rfl
  have h3 : (attributeLiteral (.str name) "Skill Rank" (.num n)).getOpt "value" = .num n := rfl
  rw [h1, h2, h3]
  by_cases hs : sameTriple name n attr
  · obtain ⟨a, b, c⟩ := hs
    simp [sameTriple, a, b, c, strictEq]
  · simp only [hs, decide_False, Bool.and_eq_false_imp, Bool.and_eq_true]
    intro ⟨a, b⟩ 
    by_contra hc
    exact hs ⟨strictEq_str.mp a, strictEq_str.mp b, strictEq_num.mp (by simpa using hc)⟩


theorem speciesOverlayStep_dup (species : JsVal) (attrs : Fields) (name : String) (n : Int)
    (hattrs : species.at? ["data", "attributes"] = some (.obj attrs))
    (hobj : ∀ p ∈ attrs, p.2.nullish = false)
    (hdup : ∃ p ∈ attrs, sameTriple name n p.2) :
    speciesOverlayStep species (attributeLiteral (.str name) "Skill Rank" (.num n))
      = .ok species := by
  have hget := at?_getPath _ _ _ hattrs
  have hfilter := arrayFilter_eq
    (sameAttribute (attributeLiteral (.str name) "Skill Rank" (.num n)))
    (fun attr => decide (sameTriple name n attr)) (attrs.map Prod.snd) (by
      intro x hx
      obtain ⟨p, hp, rfl⟩ := List.mem_map.mp hx
      exact sameAttribute_eq name n p.2 (hobj p hp))
  have hne : ((attrs.map Prod.snd).filter
      (fun attr => decide (sameTriple name n attr))).length ≠ 0 := by
    obtain ⟨p, hp, hs⟩ := hdup
    intro h
    have : p.2 ∈ (attrs.map Prod.snd).filter (fun attr => decide (sameTriple name n attr)) :=
      List.mem_filter.mpr ⟨List.mem_map_of_mem _ hp, by simpa using hs⟩
    rw [List.length_eq_zero.mp h] at this; cases this
  simp only [speciesOverlayStep, hget, bind, Except.bind, JsVal.values, nullish, ownFields,
    pure, Except.pure, hfilter, Bool.false_eq_true, if_false, hne]

theorem speciesOverlayStep_new (species : JsVal) (attrs : Fields) (name : String) (n : Int)
    (hattrs : species.at? ["data", "attributes"] = some (.obj attrs))
    (hobj : ∀ p ∈ attrs, p.2.nullish = false)
    (hno : ¬ ∃ p ∈ attrs, sameTriple name n p.2) :
    ∃ species', speciesOverlayStep species
        (attributeLiteral (.str name) "Skill Rank" (.num n)) = .ok species'
      ∧ species'.at? ["data", "attributes"] = some (.obj (setField
          (toString (attrs.length + 1))
          (attributeLiteral (.str name) "Skill Rank" (.num n)) attrs)) := by
  have hget := at?_getPath _ _ _ hattrs
  have hfilter := arrayFilter_eq
    (sameAttribute (attributeLiteral (.str name) "Skill Rank" (.num n)))
    (fun attr => decide (sameTriple name n attr)) (attrs.map Prod.snd) (by
      intro x hx
      obtain ⟨p, hp, rfl⟩ := List.mem_map.mp hx
      exact sameAttribute_eq name n p.2 (hobj p hp))
  have he : (attrs.map Prod.snd).filter (fun attr => decide (sameTriple name n attr)) = [] := by
    apply List.filter_eq_nil_iff.mpr
    intro x hx
    obtain ⟨p, hp, rfl⟩ := List.mem_map.mp hx
    simpa using fun h => hno ⟨p, hp, h⟩
  obtain ⟨v', hv, hv'⟩ := at?_setPath ["data", "attributes"] species attrs
    (toString (attrs.length + 1)) (attributeLiteral (.str name) "Skill Rank" (.num n)) hattrs
  refine ⟨v', ?_, hv'⟩
  simp only [speciesOverlayStep, hget, bind, Except.bind, JsVal.values, nullish, ownFields,
    pure, Except.pure, hfilter, Bool.false_eq_true, if_false, he, List.length_nil,
    if_true, JsVal.keys, List.length_map, hv]

/-! ## C9: merging a deferred species skill -/

/-- C9: for a species item whose `data.attributes` is a mapping of attributes, and a
deferred species skill `{key, mod, modtype: "Skill Rank", value}`, one round of the
overlay leaves the item as it is when an attribute of the item has the same mod,
modtype and value, and otherwise adds the skill to the attributes, under the key
count + 1. -/
theorem speciesOverlayStep_iff (species : JsVal) (attrs : Fields) (name : String) (n : Int)
    (hattrs : species.at? ["data", "attributes"] = some (.obj attrs))
    (hobj : ∀ p ∈ attrs, p.2.nullish = false) :
    ((∃ p ∈ attrs, sameTriple name n p.2) →
      speciesOverlayStep species (attributeLiteral (.str name) "Skill Rank" (.num n))
        = .ok species)
    ∧ ((¬ ∃ p ∈ attrs, sameTriple name n p.2) →
      ∃ species', speciesOverlayStep species
          (attributeLiteral (.str name) "Skill Rank" (.num n)) = .ok species'
        ∧ species'.at? ["data", "attributes"] = some (.obj (setField
            (toString (attrs.length + 1))
            (attributeLiteral (.str name) "Skill Rank" (.num n)) attrs))) :=
  ⟨speciesOverlayStep_dup species attrs name n hattrs hobj,
    speciesOverlayStep_new species attrs name n hattrs hobj⟩

/-- C9 at a species with one attribute, for the skill that attribute grants. -/
theorem speciesOverlayStep_iff_witness :
    ((∃ p ∈ Examples.speciesAttributes, sameTriple "Athletics" 1 p.2) →
      speciesOverlayStep Examples.species
          (attributeLiteral (.str "Athletics") "Skill Rank" (.num 1)) = .ok Examples.species)
    ∧ ((¬ ∃ p ∈ Examples.speciesAttributes, sameTriple "Athletics" 1 p.2) →
      ∃ species', speciesOverlayStep Examples.species
          (attributeLiteral (.str "Athletics") "Skill Rank" (.num 1)) = .ok species'
        ∧ species'.at? ["data", "attributes"] = some (.obj (setField
            (toString (Examples.speciesAttributes.length + 1))
            (attributeLiteral (.str "Athletics") "Skill Rank" (.num 1))
            Examples.speciesAttributes))) :=
  speciesOverlayStep_iff Examples.species Examples.speciesAttributes "Athletics" 1 rfl
    (by decide)

/-! ## C15: the key of a merged species skill -/

/-- C15, as amended: for a species item whose `data.attributes` is a mapping of
attributes in which count + 1 is not a key, one round of the overlay keeps every
attribute key of the item on its attribute. -/
theorem speciesOverlayStep_keeps (species : JsVal) (attrs : Fields) (name : String) (n : Int)
    (hattrs : species.at? ["data", "attributes"] = some (.obj attrs))
    (hobj : ∀ p ∈ attrs, p.2.nullish = false)
    (hfree : lookupField (toString (attrs.length + 1)) attrs = none) :
    ∃ species' attrs', speciesOverlayStep species
        (attributeLiteral (.str name) "Skill Rank" (.num n)) = .ok species'
      ∧ species'.at? ["data", "attributes"] = some (.obj attrs')
      ∧ ∀ k a, lookupField k attrs = some a → lookupField k attrs' = some a := by
  by_cases hdup : ∃ p ∈ attrs, sameTriple name n p.2
  · exact ⟨species, attrs, speciesOverlayStep_dup species attrs name n hattrs hobj hdup,
      hattrs, fun _ _ h => h⟩
  · obtain ⟨species', h, h'⟩ := speciesOverlayStep_new species attrs name n hattrs hobj hdup
    refine ⟨species', _, h, h', ?_⟩
    intro k a hk
    rw [lookupField_setField]
    split
    · next heq => rw [← heq, hfree] at hk; cases hk
    · exact hk

/-- C15, as amended, at a species with one attribute under the key `1`. -/
theorem speciesOverlayStep_keeps_witness :
    ∃ species' attrs', speciesOverlayStep Examples.species
        (attributeLiteral (.str "Cool") "Skill Rank" (.num 1)) = .ok species'
      ∧ species'.at? ["data", "attributes"] = some (.obj attrs')
      ∧ ∀ k a, lookupField k Examples.speciesAttributes = some a
          → lookupField k attrs' = some a :=
  speciesOverlayStep_keeps Examples.species Examples.speciesAttributes "Cool" 1 rfl
    (by decide) (by decide)

/-- C15 as stated fails: the only attribute of the species is under the key `2`, which
is count + 1, and the merged skill replaces it. -/
theorem speciesOverlayStep_overwrites :
    (Examples.speciesKeyTwo.at? ["data", "attributes"]).bind (·.at? ["2", "mod"])
      = some (.str "Athletics")
    ∧ ((speciesOverlayStep Examples.speciesKeyTwo
        (attributeLiteral (.str "Cool") "Skill Rank" (.num 1))).toOption.bind
          (·.at? ["data", "attributes"]))
      = some (.obj [("2", attributeLiteral (.str "Cool") "Skill Rank" (.num 1))]) := by
  decide

theorem index?_attr (t : String) : index? ("attr" ++ t) = none := by
  have : ("attr" ++ t).toList = 'a' :: ("ttr" ++ t).toList := by
    simp [String.toList, String.data_append]
  simp [index?, this, readDigits, digit?]

theorem SpecVar.read_write (v : SpecVar) (x : JsVal) (s : ImportState) :
    v.read (v.write x s) = x := by
  cases v <;> rfl

/-! ## C14: the key of a bonus characteristic -/

/-- C14, as amended: when the slot `talent<i>` of the item has the attribute mapping
`attrs`, and `attr<N>` for N = count + 1 is not a key of it, storing one bonus
characteristic appends the attribute of the bonus under that key: the attributes the
slot had stay as they were and their number grows by one. -/
theorem addBonusChar_fresh (v : SpecVar) (i : Nat) (char : JsVal) (s : ImportState)
    (attrs : Fields)
    (hslot : (v.read s).at? ["data", "talents", "talent" ++ toString i, "attributes"]
      = some (.obj attrs))
    (hchar : char.nullish = false)
    (hfree : lookupField ("attr" ++ toString (attrs.length + 1)) attrs = none) :
    ∃ s', addBonusChar v i char s = (.ok (), s')
      ∧ (v.read s').at? ["data", "talents", "talent" ++ toString i, "attributes"]
        = some (.obj (attrs ++ [("attr" ++ toString (attrs.length + 1), bonusAttribute char)])) := by
  have hget := at?_getPath _ _ _ hslot
  obtain ⟨item', hitem, hitem'⟩ := at?_setPath _ (v.read s) attrs
    ("attr" ++ toString (attrs.length + 1)) (bonusAttribute char) hslot
  have hset : setField ("attr" ++ toString (attrs.length + 1)) (bonusAttribute char) attrs
      = attrs ++ [("attr" ++ toString (attrs.length + 1), bonusAttribute char)] := by
    simp [setField, hfree, index?_attr]
  rw [hset] at hitem'
  refine ⟨v.write item' s, ?_, by rw [SpecVar.read_write]; exact hitem'⟩
  simp only [addBonusChar, Eff.bind_apply, Eff.gets, Eff.lift, hget, JsVal.keys, nullish,
    ownFields, pure, Except.pure, List.length_map, get_eq_getOpt hchar, Eff.modify,
    Bool.false_eq_true, if_false]
  simp only [bonusAttribute] at hitem
  rw [hitem]

/-- C14, as amended, at a slot without attributes. -/
theorem addBonusChar_fresh_witness :
    ∃ s', addBonusChar .specialization 0 Examples.bonusBrawn
        (Examples.withSpecialization (Examples.slotItem [])) = (.ok (), s')
      ∧ (SpecVar.specialization.read s').at?
          ["data", "talents", "talent" ++ toString 0, "attributes"]
        = some (.obj ([] ++ [("attr" ++ toString (([] : Fields).length + 1),
            bonusAttribute Examples.bonusBrawn)])) :=
  addBonusChar_fresh .specialization 0 Examples.bonusBrawn
    (Examples.withSpecialization (Examples.slotItem [])) [] (by decide) (by decide) (by decide)

/-- C14 as stated fails: the only attribute of the slot is under the key `attr2`, and
the bonus is stored under `attr2`, in its place. -/
theorem addBonusChar_overwrites :
    (SpecVar.specialization.read (addBonusChar .specialization 0 Examples.bonusBrawn
        (Examples.withSpecialization (Examples.slotItem
          [("attr2", attributeLiteral (.str "Cool") "Skill Rank" (.num 1))]))).2).at?
      ["data", "talents", "talent0", "attributes"]
      = some (.obj [("attr2", bonusAttribute Examples.bonusBrawn)]) := by
  decide

theorem at?_append : ∀ (p q : List String) (v : JsVal),
    v.at? (p ++ q) = (v.at? p).bind (fun c => c.at? q) := by
  intro p
  induction p with
  | nil => intro q v; simp [JsVal.at?]
  | cons k ks ih =>
    intro q v
    cases v <;> simp [JsVal.at?]
    rename_i fs
    cases lookupField k fs with
    | none => rfl
    | some c => exact ih q c

theorem at?_modifyPath_parent (f : JsVal → Js JsVal) (k : String) :
    ∀ (p : List String) (v : JsVal) (fs : Fields) (c c' : JsVal),
    v.at? p = some (.obj fs) → lookupField k fs = some c → f c = .ok c' →
    ∃ v', v.modifyPath (p ++ [k]) f = .ok v' ∧ v'.at? p = some (.obj (setField k c' fs)) := by
  intro p
  induction p with
  | nil =>
    intro v fs c c' h hk hf
    simp [JsVal.at?] at h
    subst h
    exact ⟨.obj (setField k c' fs), by
      simp [modifyPath, JsVal.get, hk, hf, bind, Except.bind, pure, Except.pure, JsVal.set],
      by simp [JsVal.at?]⟩
  | cons l ls ih =>
    intro v fs c c' h hk hf
    cases v <;> simp [JsVal.at?] at h
    rename_i gs
    cases hl : lookupField l gs with
    | none => simp [hl] at h
    | some x =>
      simp only [hl] at h
      obtain ⟨x', hx, hx'⟩ := ih x fs c c' h hk hf
      refine ⟨.obj (setField l x' gs), ?_, ?_⟩
      · have hx2 : x.modifyPath (ls.append [k]) f = .ok x' := hx
        simp only [List.cons_append, modifyPath, JsVal.get, hl, Option.getD_some, bind,
          Except.bind, pure, Except.pure, hx2, JsVal.set]
      · simp [JsVal.at?, lookupField_setField, hx']

theorem lookupField_mid (k : String) (x : JsVal) : ∀ (pre post : Fields),
    (∀ p ∈ pre, p.1 ≠ k) → lookupField k (pre ++ (k, x) :: post) = some x := by
  intro pre
  induction pre with
  | nil => intro post _; simp [lookupField]
  | cons p rest ih =>
    intro post h
    obtain ⟨l, y⟩ := p
    have hl : l ≠ k := h (l, y) (List.mem_cons_self _ _)
    simp only [List.cons_append, lookupField, hl, if_false]
    exact ih post (fun q hq => h q (List.mem_cons_of_mem _ hq))

theorem replaceField_mid (k : String) (x y : JsVal) : ∀ (pre post : Fields),
    (∀ p ∈ pre, p.1 ≠ k) →
    replaceField k y (pre ++ (k, x) :: post) = pre ++ (k, y) :: post := by
  intro pre
  induction pre with
  | nil => intro post _; simp [replaceField]
  | cons p rest ih =>
    intro post h
    obtain ⟨l, z⟩ := p
    have hl : l ≠ k := h (l, z) (List.mem_cons_self _ _)
    simp only [List.cons_append, replaceField, hl, if_false]
    exact congrArg _ (ih post (fun q hq => h q (List.mem_cons_of_mem _ hq)))

theorem setField_mid (k : String) (x y : JsVal) (pre post : Fields)
    (h : ∀ p ∈ pre, p.1 ≠ k) :
    setField k y (pre ++ (k, x) :: post) = pre ++ (k, y) :: post := by
  simp [setField, lookupField_mid k x pre post h, replaceField_mid k x y pre post h]

theorem lookupField_prefix (l : String) : ∀ (pre rest : Fields), l ∈ pre.map Prod.fst →
    ∃ a, (l, a) ∈ pre ∧ lookupField l (pre ++ rest) = some a := by
  intro pre
  induction pre with
  | nil => intro _ h; simp at h
  | cons p tl ih =>
    intro rest h
    obtain ⟨m, y⟩ := p
    by_cases hm : m = l
    · subst hm
      exact ⟨y, List.mem_cons_self _ _, by simp [lookupField]⟩
    · have h' : l ∈ tl.map Prod.fst := by
        simp only [List.map_cons, List.mem_cons] at h
        rcases h with h | h
        · exact absurd h.symm hm
        · exact h
      obtain ⟨a, ha, hla⟩ := ih rest h'
      exact ⟨a, List.mem_cons_of_mem _ ha, by simp [lookupField, hm, hla]⟩

theorem arrayFind_first (p : JsVal → Js Bool) (x : JsVal) : ∀ (pre post : List JsVal),
    (∀ y ∈ pre, p y = .ok false) → p x = .ok true →
    arrayFind p (pre ++ x :: post) = .ok x := by
  intro pre
  induction pre with
  | nil => intro post _ hx; simp [arrayFind, hx, bind, Except.bind, pure, Except.pure]
  | cons y rest ih =>
    intro post h hx
    simp only [List.cons_append, arrayFind, h y (List.mem_cons_self _ _), bind, Except.bind,
      Bool.false_eq_true, if_false]
    exact ih post (fun z hz => h z (List.mem_cons_of_mem _ hz)) hx

theorem isSkillRankFor_eq (attrs : Fields) (name l : String) (a : JsVal)
    (hl : lookupField l attrs = some a) (ha : a.nullish = false) :
    isSkillRankFor (.obj attrs) (.str name) (.str l)
      = .ok (strictEq (a.getOpt "modtype") (.str "Skill Rank")
          && strictEq (a.getOpt "mod") (.str name)) := by
  have hs : (JsVal.str l).toStr = l := by simp [toStr]
  have hg : (JsVal.obj attrs).get l = .ok a := by simp [JsVal.get, hl, pure, Except.pure]
  simp only [isSkillRankFor, hs, hg, bind, Except.bind, pure, Except.pure, get_eq_getOpt ha]

/-! ## C13: a granted skill that the template has -/

/-- C13, as amended: when the template has attributes `pre`, then under the key `k` an
attribute with modtype "Skill Rank", the name of the granted skill as its mod and a
number `v` other than 0 as its value, then attributes `post`, and no attribute of
`pre` is a skill rank for that skill, then the overlay of the granted skill leaves the
attributes `pre` and `post` as they are, and the attribute under `k` in its place with
the value `v + 1` and, when it had no `key`, with the name of the skill as `key`. -/
theorem grantSkillRank_existing (character career key : JsVal) (name k : String) (v : Int)
    (pre post af : Fields)
    (hskill : findCharSkill character key = .ok (.str name))
    (hattrs : career.at? ["data", "attributes"] = some (.obj (pre ++ (k, .obj af) :: post)))
    (hpre : ∀ p ∈ pre, p.1 ≠ k ∧ p.2.nullish = false
      ∧ ¬ (p.2.getOpt "modtype" = .str "Skill Rank" ∧ p.2.getOpt "mod" = .str name))
    (hmodtype : (JsVal.obj af).getOpt "modtype" = .str "Skill Rank")
    (hmod : (JsVal.obj af).getOpt "mod" = .str name)
    (hvalue : (JsVal.obj af).getOpt "value" = .num v) (hv : v ≠ 0) :
    ∃ career', grantSkillRank character career key = .ok career'
      ∧ career'.at? ["data", "attributes"]
        = some (.obj (pre ++ (k, .obj (rankGranted name v af)) :: post)) := by
  have hk : ∀ p ∈ pre, p.1 ≠ k := fun p hp => (hpre p hp).1
  have hget := at?_getPath _ _ _ hattrs
  have hlook : lookupField k (pre ++ (k, .obj af) :: post) = some (.obj af) :=
    lookupField_mid k _ pre post hk
  have hfind : arrayFind (isSkillRankFor (.obj (pre ++ (k, .obj af) :: post)) (.str name))
      (((pre ++ (k, .obj af) :: post).map Prod.fst).map .str) = .ok (.str k) := by
    have hm : ((pre ++ (k, .obj af) :: post).map Prod.fst).map JsVal.str
        = (pre.map Prod.fst).map JsVal.str ++ .str k :: (post.map Prod.fst).map JsVal.str := by
      simp
    rw [hm]
    apply arrayFind_first
    · intro y hy
      obtain ⟨l, hl, rfl⟩ := List.mem_map.mp hy
      obtain ⟨a, ha, hla⟩ := lookupField_prefix l pre ((k, .obj af) :: post) hl
      obtain ⟨_, hn, hno⟩ := hpre (l, a) ha
      rw [isSkillRankFor_eq _ name l a hla hn]
      congr 1
      by_contra hc
      simp only [Bool.not_eq_false, Bool.and_eq_true] at hc
      exact hno ⟨strictEq_str.mp hc.1, strictEq_str.mp hc.2⟩
    · rw [isSkillRankFor_eq _ name k _ hlook rfl, hmodtype, hmod]
      simp [strictEq]
  have hs : (JsVal.str k).toStr = k := by simp [toStr]
  have hslot : (JsVal.obj (pre ++ (k, .obj af) :: post)).getOpt k = .obj af := by
    simp [getOpt, JsVal.get, hlook, pure, Except.pure]
  have htruthy : (JsVal.num v).truthy = true := by simp [truthy, hv]
  obtain ⟨career1, hc1, hc1'⟩ := at?_modifyPath_parent
    (fun o => o.set "value" (numAdd (parseInt10 (.num v)) (.num 1))) k
    ["data", "attributes"] career _ (.obj af) (.obj (setField "value" (.num (v + 1)) af))
    hattrs hlook (by simp [JsVal.set, parseInt10, numAdd, pure, Except.pure])
  rw [setField_mid k _ _ pre post hk] at hc1'
  have hlook1 : lookupField k (pre ++ (k, .obj (setField "value" (.num (v + 1)) af)) :: post)
      = some (.obj (setField "value" (.num (v + 1)) af)) := lookupField_mid k _ pre post hk
  obtain ⟨career2, hc2, hc2'⟩ := at?_modifyPath_parent
    (fun o => o.set "key" (.str name)) k
    ["data", "attributes"] career1 _ _
    (.obj (setField "key" (.str name) (setField "value" (.num (v + 1)) af)))
    hc1' hlook1 (by simp [JsVal.set, pure, Except.pure])
  rw [setField_mid k _ _ pre post hk] at hc2'
  have hc1s : career.setPath ["data", "attributes", k] "value"
      (numAdd (parseInt10 (.num v)) (.num 1)) = .ok career1 := hc1
  have hc2s : career1.setPath ["data", "attributes", k] "key" (.str name) = .ok career2 := hc2
  by_cases hkey : ((JsVal.obj af).getOpt "key").truthy = true
  · refine ⟨career1, ?_, by simpa [rankGranted, hkey] using hc1'⟩
    simp only [grantSkillRank, hskill, hget, bind, Except.bind, JsVal.keys, nullish, ownFields,
      pure, Except.pure, hfind, hs, hslot, hvalue, htruthy, if_true, hc1s, hkey,
      Bool.false_eq_true, if_false, Bool.not_true]
  · refine ⟨career2, ?_, by simpa [rankGranted, hkey] using hc2'⟩
    simp only [Bool.not_eq_true] at hkey
    simp only [grantSkillRank, hskill, hget, bind, Except.bind, JsVal.keys, nullish, ownFields,
      pure, Except.pure, hfind, hs, hslot, hvalue, htruthy, if_true, hc1s, hkey,
      Bool.false_eq_true, if_false, Bool.not_false, hc2s]

/-- C13, as amended, at a career with the attributes `attr1` for Cool and `attr2` for
three ranks in Athletics: the overlay of the granted skill `ATHL` makes them four. -/
theorem grantSkillRank_existing_witness :
    ∃ career', grantSkillRank Examples.character (Examples.careerAthletics (.num 3))
        (.str "ATHL") = .ok career'
      ∧ career'.at? ["data", "attributes"]
        = some (.obj ([("attr1", .obj [("mod", .str "Cool"), ("modtype", .str "Skill Rank"),
              ("value", .num 1)])]
            ++ ("attr2", .obj (rankGranted "Athletics" 3 [("isCheckbox", .bool false),
              ("mod", .str "Athletics"), ("modtype", .str "Skill Rank"), ("value", .num 3)]))
            :: [])) :=
  grantSkillRank_existing Examples.character (Examples.careerAthletics (.num 3)) (.str "ATHL")
    "Athletics" "attr2" 3 _ [] _ (by decide) rfl (by decide) rfl rfl rfl (by decide)

/-- C13 as stated fails: an attribute for Athletics with the value 0 is not left in
place with the value 1, it is replaced by a new attribute, without its field
`isCheckbox`. -/
theorem grantSkillRank_zero_replaced :
    ((grantSkillRank Examples.character (Examples.careerAthletics (.num 0))
        (.str "ATHL")).toOption.bind (fun career => career.at? ["data", "attributes", "attr2"]))
      = some (attributeLiteral (.str "Athletics") "Skill Rank" (.num 1))
    ∧ (Examples.careerAthletics (.num 0)).at? ["data", "attributes", "attr2", "isCheckbox"]
      = some (.bool false) := by
  decide

theorem nullish_of_getOpt {v : JsVal} {k : String} (h : (v.getOpt k).nullish = false) :
    v.nullish = false := by
  cases v <;> first | rfl | simp [getOpt, JsVal.get, throw, throwThe, MonadExceptOf.throw, nullish] at h

theorem nullish_of_truthy {v : JsVal} (h : v.truthy = true) : v.nullish = false := by
  cases v <;> first | rfl | simp [truthy] at h

theorem getBaseModAttributeObject_total (temporary mod : JsVal)
    (hskills : (temporary.getOpt "skills").nullish = false) (hmod : mod.nullish = false) :
    ∃ r, getBaseModAttributeObject temporary mod = .ok r := by
  have ht := get_eq_getOpt (nullish_of_getOpt hskills) "skills"
  have hk := get_eq_getOpt hmod "Key"
  have hs : ∀ k, (temporary.getOpt "skills").get k = .ok ((temporary.getOpt "skills").getOpt k) :=
    fun k => get_eq_getOpt hskills k
  simp only [getBaseModAttributeObject, ht, hk, hs, JsVal.keys, hskills, bind, Except.bind, pure,
    Except.pure, Bool.false_eq_true, if_false]
  split_ifs <;> exact ⟨_, rfl⟩

theorem lookupField_eq_none_iff (k : String) : ∀ fs : Fields,
    lookupField k fs = none ↔ k ∉ fs.map Prod.fst := by
  intro fs
  induction fs with
  | nil => simp [lookupField]
  | cons p rest ih =>
    obtain ⟨l, v⟩ := p
    by_cases h : l = k
    · simp [lookupField, h]
    · simp [lookupField, h, ih, Ne.symm h]

theorem keys_replaceField (k : String) (x : JsVal) : ∀ fs : Fields,
    (replaceField k x fs).map Prod.fst = fs.map Prod.fst := by
  intro fs
  induction fs with
  | nil => rfl
  | cons p rest ih =>
    obtain ⟨l, v⟩ := p
    by_cases h : l = k
    · simp [replaceField, h]
    · simp [replaceField, h, ih]

theorem keys_insertIndexField (i : Nat) (k : String) (x : JsVal) : ∀ fs : Fields,
    ((insertIndexField i k x fs).map Prod.fst).Perm (k :: fs.map Prod.fst) := by
  intro fs
  induction fs with
  | nil => simp [insertIndexField]
  | cons p rest ih =>
    obtain ⟨l, v⟩ := p
    simp only [insertIndexField]
    split
    · split
      · simp only [List.map_cons]
        exact (List.Perm.cons l ih).trans (List.Perm.swap k l _)
      · simp
    · simp

theorem nodup_setField (k : String) (x : JsVal) (fs : Fields)
    (h : (fs.map Prod.fst).Nodup) : ((setField k x fs).map Prod.fst).Nodup := by
  unfold setField
  cases hl : lookupField k fs with
  | some y => simpa [keys_replaceField] using h
  | none =>
    have hk : k ∉ fs.map Prod.fst := (lookupField_eq_none_iff k fs).mp hl
    simp only
    split
    · exact (keys_insertIndexField _ k x fs).nodup_iff.mpr (List.nodup_cons.mpr ⟨hk, h⟩)
    · rw [List.map_append, List.nodup_append]
      refine ⟨h, by simp, ?_⟩
      intro a ha hb
      simp only [List.map_cons, List.map_nil, List.mem_singleton] at hb
      exact hk (hb ▸ ha)

theorem applyBaseMod_eq (temporary mod : JsVal) (acc : Fields)
    (hskills : (temporary.getOpt "skills").nullish = false) (hmod : mod.nullish = false) :
    applyBaseMod temporary acc mod = .ok (match resolved temporary mod with
      | some (n, a) => setField n a acc
      | none => acc) := by
  obtain ⟨r, hr⟩ := getBaseModAttributeObject_total temporary mod hskills hmod
  simp only [applyBaseMod, resolved, hr, bind, Except.bind, pure, Except.pure]
  split <;> rfl

theorem baseModStep_keyed (temporary mod : JsVal) (acc : Fields)
    (hkey : (mod.getOpt "Key").truthy = true) :
    baseModStep temporary acc mod = applyBaseMod temporary acc mod := by
  have hn : mod.nullish = false := nullish_of_getOpt (nullish_of_truthy hkey)
  simp only [baseModStep, get_eq_getOpt hn, bind, Except.bind, hkey, if_true]

theorem baseModLoop_spec (temporary : JsVal)
    (hskills : (temporary.getOpt "skills").nullish = false) :
    ∀ (mods : List JsVal) (acc : Fields),
      (∀ mod ∈ mods, (mod.getOpt "Key").truthy = true) →
      ∃ fs, arrayForEach (baseModStep temporary) mods acc = .ok fs
        ∧ ((acc.map Prod.fst).Nodup → (fs.map Prod.fst).Nodup)
        ∧ ∀ name, lookupField name fs
            = (lastResolved temporary name mods).orElse (fun _ => lookupField name acc) := by
  intro mods
  induction mods with
  | nil =>
    intro acc _
    exact ⟨acc, rfl, id, fun name => by simp [lastResolved]⟩
  | cons mod rest ih =>
    intro acc hkeyed
    have hkey := hkeyed mod (List.mem_cons_self _ _)
    have hn : mod.nullish = false := nullish_of_getOpt (nullish_of_truthy hkey)
    obtain ⟨fs, hfs, hnd, hlook⟩ := ih (match resolved temporary mod with
      | some (n, a) => setField n a acc
      | none => acc) (fun m hm => hkeyed m (List.mem_cons_of_mem _ hm))
    refine ⟨fs, ?_, ?_, ?_⟩
    · simp only [arrayForEach, baseModStep_keyed temporary mod acc hkey,
        applyBaseMod_eq temporary mod acc hskills hn, bind, Except.bind]
      exact hfs
    · intro hacc
      apply hnd
      split
      · exact nodup_setField _ _ _ hacc
      · exact hacc
    · intro name
      rw [hlook name]
      simp only [lastResolved]
      cases lastResolved temporary name rest with
      | some a => rfl
      | none =>
        simp only [Option.orElse]
        cases hres : resolved temporary mod with
        | none => rfl
        | some p =>
          obtain ⟨n, a⟩ := p
          simp only [lookupField_setField]
          by_cases hna : n = name
          · simp [hna]
          · simp [hna]

theorem lastResolved_eq_none_iff (temporary : JsVal) (name : String) :
    ∀ mods : List JsVal, lastResolved temporary name mods = none
      ↔ ¬ ∃ mod ∈ mods, ∃ a, resolved temporary mod = some (name, a) := by
  intro mods
  induction mods with
  | nil => simp [lastResolved]
  | cons mod rest ih =>
    simp only [lastResolved]
    cases hrest : lastResolved temporary name rest with
    | some a =>
      have := (not_iff_not.mpr ih).mp (by simp [hrest])
      simp only [not_not] at this
      obtain ⟨m, hm, b, hb⟩ := this
      simp only [reduceCtorEq, false_iff, not_not]
      exact ⟨m, List.mem_cons_of_mem _ hm, b, hb⟩
    | none =>
      have hno := ih.mp hrest
      simp only
      cases hres : resolved temporary mod with
      | none =>
        simp only [true_iff]
        rintro ⟨m, hm, b, hb⟩
        rcases List.mem_cons.mp hm with rfl | hm
        · rw [hres] at hb; cases hb
        · exact hno ⟨m, hm, b, hb⟩
      | some p =>
        obtain ⟨n, a⟩ := p
        by_cases hna : n = name
        · subst hna
          simp only [if_true, reduceCtorEq, false_iff, not_not]
          exact ⟨mod, List.mem_cons_self _ _, a, hres⟩
        · simp only [hna, if_false, true_iff]
          rintro ⟨m, hm, b, hb⟩
          rcases List.mem_cons.mp hm with rfl | hm
          · rw [hres] at hb
            simp only [Option.some.injEq, Prod.mk.injEq] at hb
            exact hna hb.1
          · exact hno ⟨m, hm, b, hb⟩

/-! ## C12: the mapping of `getBaseModObject` -/

/-- C12: when `CONFIG.temporary.skills` is there, for every sequence `Mod` of keyed
modifier descriptors `getBaseModObject` returns a mapping, without a key twice, whose
keys are exactly the canonical mod names of the descriptors that
`getBaseModAttributeObject` resolves, and in which each name has the attribute built
from the last descriptor of the sequence that resolves to it. -/
theorem getBaseModObject_keyed (temporary attrs : JsVal) (mods : List JsVal)
    (hskills : (temporary.getOpt "skills").nullish = false)
    (hmods : attrs.get "Mod" = .ok (.arr mods))
    (hkeyed : ∀ mod ∈ mods, (mod.getOpt "Key").truthy = true) :
    ∃ fs, getBaseModObject temporary attrs = .ok (.obj fs)
      ∧ (fs.map Prod.fst).Nodup
      ∧ (∀ name, name ∈ fs.map Prod.fst
          ↔ ∃ mod ∈ mods, ∃ a, resolved temporary mod = some (name, a))
      ∧ ∀ name, lookupField name fs = lastResolved temporary name mods := by
  obtain ⟨fs, hfs, hnd, hlook⟩ := baseModLoop_spec temporary hskills mods [] hkeyed
  have hlook' : ∀ name, lookupField name fs = lastResolved temporary name mods := by
    intro name
    rw [hlook name]
    cases lastResolved temporary name mods <;> rfl
  refine ⟨fs, ?_, hnd (by simp), ?_, hlook'⟩
  · have h1 : (JsVal.arr mods).getOpt "Key" = .undef := by
      have hi : index? "Key" = none := by decide
      simp [getOpt, JsVal.get, hi, pure, Except.pure]
    have h2 : ((JsVal.arr mods).getOpt "DieModifiers").getOpt "DieModifier" = .undef := by
      have hi : index? "DieModifiers" = none := by decide
      simp [getOpt, JsVal.get, hi, pure, Except.pure, throw, throwThe, MonadExceptOf.throw]
    simp only [getBaseModObject, hmods, bind, Except.bind, isArray, if_true, asArray, pure,
      Except.pure, hfs, h1, h2, truthy_undef, Bool.false_eq_true, if_false]
  · intro name
    rw [← not_iff_not, ← lookupField_eq_none_iff, hlook', lastResolved_eq_none_iff]

/-- C12 at three descriptors: two for Athletics and one under an unknown key. -/
theorem getBaseModObject_keyed_witness :
    ∃ fs, getBaseModObject Examples.temporary (.obj [("Mod", .arr Examples.baseMods)])
        = .ok (.obj fs)
      ∧ (fs.map Prod.fst).Nodup
      ∧ (∀ name, name ∈ fs.map Prod.fst
          ↔ ∃ mod ∈ Examples.baseMods, ∃ a, resolved Examples.temporary mod = some (name, a))
      ∧ ∀ name, lookupField name fs = lastResolved Examples.temporary name Examples.baseMods :=
  getBaseModObject_keyed Examples.temporary (.obj [("Mod", .arr Examples.baseMods)])
    Examples.baseMods (by decide) rfl (by decide)

theorem onlyLogs_logMessage (level msg : String) : OnlyLogs (fun _ => logMessage level msg) :=
  fun _ s => ⟨s.log ++ [(level, msg)], rfl⟩

theorem pushItem_items (item : JsVal) (s : ImportState) (items : List JsVal)
    (hitems : s.character.at? ["items"] = some (.arr items)) :
    ∃ c, pushItem item s = (.ok (), { s with character := c })
      ∧ c.at? ["items"] = some (.arr (items ++ [item])) := by
  obtain ⟨c, hc, hc'⟩ := at?_modifyPath
    (fun a => do pure (.arr ((← a.asArray) ++ [item]))) ["items"] s.character _
    (.arr (items ++ [item])) hitems (by simp [asArray, bind, Except.bind, pure, Except.pure])
  exact ⟨c, by simp only [pushItem, modifyCharacter, hc], hc'⟩

theorem equipmentStep (w : JsVal) (handler : JsErr → Eff ImportState Unit)
    (hhandler : OnlyLogs handler) (s : ImportState) (items : List JsVal)
    (hw : w.nullish = false) (hitems : s.character.at? ["items"] = some (.arr items)) :
    ∃ s', Eff.tryCatch (addEquipment w) handler s = (.ok (), s')
      ∧ s'.game = s.game
      ∧ s'.temporary = (findCompendiumEntityByImportId s.game "Item" (w.getOpt "ItemKey")
          .undef s.temporary).2
      ∧ s'.character.at? ["items"] = some (.arr (items ++ (equipmentCopy w
          (findCompendiumEntityByImportId s.game "Item" (w.getOpt "ItemKey")
            .undef s.temporary).1).toList)) := by
  have hk := get_eq_getOpt hw "ItemKey"
  cases hf : findCompendiumEntityByImportId s.game "Item" (w.getOpt "ItemKey") .undef
    s.temporary with
  | mk found t =>
    have hlook : lookupItem (w.getOpt "ItemKey") s = (found, { s with temporary := t }) := by
      simp only [lookupItem, hf]
    have fail : ∀ e, (addEquipment w s = (.error e, { s with temporary := t })) →
        equipmentCopy w found = none →
        ∃ s', Eff.tryCatch (addEquipment w) handler s = (.ok (), s')
          ∧ s'.game = s.game ∧ s'.temporary = t
          ∧ s'.character.at? ["items"] = some (.arr (items ++
              (equipmentCopy w found).toList)) := by
      intro e he hnone
      obtain ⟨l, hl⟩ := hhandler e { s with temporary := t }
      refine ⟨{ s with temporary := t, log := l }, ?_, rfl, rfl, ?_⟩
      · simp only [Eff.tryCatch, he, hl]
      · simpa [hnone] using hitems
    cases found with
    | error e =>
      exact fail e (by
        simp only [addEquipment, Eff.bind_apply, Eff.lift, hk, hlook]) rfl
    | ok template =>
      cases hcopy : template.jsonCopy with
      | error e =>
        exact fail e (by
          simp only [addEquipment, Eff.bind_apply, Eff.lift, hk, hlook, hcopy])
          (by simp only [equipmentCopy, hcopy])
      | ok item =>
        by_cases hcount : (w.getOpt "Count").truthy = true
        · cases hset : item.setPath ["data"] "quantity"
            (.obj [("value", parseInt10 (w.getOpt "Count"))]) with
          | error e =>
            exact fail e (by
              simp only [addEquipment, Eff.bind_apply, Eff.lift, hk, hlook, hcopy, hcount,
                if_true, hset])
              (by simp only [equipmentCopy, hcopy, hcount, if_true, hset, Except.toOption])
          | ok item' =>
            obtain ⟨c, hc, hc'⟩ := pushItem_items item' { s with temporary := t } items hitems
            refine ⟨{ s with temporary := t, character := c }, ?_, rfl, rfl, ?_⟩
            · simp only [Eff.tryCatch, addEquipment, Eff.bind_apply, Eff.lift, hk, hlook,
                hcopy, hcount, if_true, hset, hc]
            · simpa only [equipmentCopy, hcopy, hcount, if_true, hset, Except.toOption,
                Option.toList] using hc'
        · obtain ⟨c, hc, hc'⟩ := pushItem_items item { s with temporary := t } items hitems
          refine ⟨{ s with temporary := t, character := c }, ?_, rfl, rfl, ?_⟩
          · simp only [Eff.tryCatch, addEquipment, Eff.bind_apply, Eff.lift, hk, hlook,
              hcopy, hcount, Bool.false_eq_true, if_false, Eff.pure_apply, hc]
          · simpa only [equipmentCopy, hcopy, hcount, Bool.false_eq_true, if_false,
              Option.toList] using hc'

theorem equipmentLoop (handler : JsVal → JsErr → Eff ImportState Unit)
    (hhandler : ∀ w, w.nullish = false → OnlyLogs (handler w)) :
    ∀ (entries : List JsVal) (s : ImportState) (items : List JsVal),
      (∀ w ∈ entries, w.nullish = false) →
      s.character.at? ["items"] = some (.arr items) →
      ∃ s', Eff.forEach (fun w => Eff.tryCatch (addEquipment w) (handler w)) entries s
          = (.ok (), s')
        ∧ s'.character.at? ["items"]
          = some (.arr (items ++ equipmentItems s.game entries s.temporary)) := by
  intro entries
  induction entries with
  | nil =>
    intro s items _ hitems
    exact ⟨s, rfl, by simpa [equipmentItems] using hitems⟩
  | cons w ws ih =>
    intro s items hnn hitems
    have hw := hnn w (List.mem_cons_self _ _)
    obtain ⟨s1, h1, hgame, htemp, hitems1⟩ :=
      equipmentStep w (handler w) (hhandler w hw) s items hw hitems
    obtain ⟨s2, h2, hitems2⟩ := ih s1 _ (fun x hx => hnn x (List.mem_cons_of_mem _ hx)) hitems1
    refine ⟨s2, ?_, ?_⟩
    · simp only [Eff.forEach, Eff.andThen, h1, h2]
    · rw [hitems2, hgame, htemp]
      simp only [equipmentItems]
      cases equipmentCopy w (findCompendiumEntityByImportId s.game "Item" (w.getOpt "ItemKey")
        .undef s.temporary).1 <;> simp

theorem onlyLogs_weapon (w : JsVal) (hw : w.nullish = false) :
    OnlyLogs (fun _ => do
      let itemKey ← Eff.lift (w.get "ItemKey")
      if (itemKey.getOpt "length").truthy then
        logMessage "error" ("Unable to add weapon (" ++ itemKey.toStr ++ ") to character.")) := by
  intro e s
  simp only [Eff.bind_apply, Eff.lift, get_eq_getOpt hw]
  split
  · exact ⟨_, rfl⟩
  · exact ⟨s.log, rfl⟩

theorem onlyLogs_armorOrGear (kind : String) (w : JsVal) (hw : w.nullish = false) :
    OnlyLogs (fun _ => do
      let itemKey ← Eff.lift (w.get "ItemKey")
      logMessage "error" ("Unable to add " ++ kind ++ " (" ++ itemKey.toStr
        ++ ") to character.")) := by
  intro e s
  simp only [Eff.bind_apply, Eff.lift, get_eq_getOpt hw]
  exact ⟨_, rfl⟩

theorem importWeapons_items (characterData : JsVal) (entries items : List JsVal)
    (s : ImportState)
    (hentries : ((characterData.getOpt "Character").getOpt "Weapons").getOpt "CharWeapon"
      = .arr entries)
    (hnn : ∀ w ∈ entries, w.nullish = false)
    (hitems : s.character.at? ["items"] = some (.arr items)) :
    ∃ s', importWeapons characterData s = (.ok (), s')
      ∧ s'.character.at? ["items"]
        = some (.arr (items ++ equipmentItems s.game entries s.temporary)) := by
  obtain ⟨s', h, h'⟩ := equipmentLoop _ onlyLogs_weapon entries s items hnn hitems
  refine ⟨s', ?_, h'⟩
  simp only [importWeapons, hentries, truthy, isArray, if_true, asArray, Eff.lift,
    Eff.bind_apply, pure, Except.pure]
  exact h

theorem importArmorOrGear_items (group entry kind : String) (characterData : JsVal)
    (entries items : List JsVal) (s : ImportState)
    (hentries : ((characterData.getOpt "Character").getOpt group).getOpt entry = .arr entries)
    (hnn : ∀ w ∈ entries, w.nullish = false)
    (hitems : s.character.at? ["items"] = some (.arr items)) :
    ∃ s', importArmorOrGear group entry kind characterData s = (.ok (), s')
      ∧ s'.character.at? ["items"]
        = some (.arr (items ++ equipmentItems s.game entries s.temporary)) := by
  obtain ⟨s', h, h'⟩ := equipmentLoop _ (onlyLogs_armorOrGear kind) entries s items hnn hitems
  refine ⟨s', ?_, h'⟩
  simp only [importArmorOrGear, hentries, truthy, isArray, if_true, asArray, Eff.lift,
    Eff.bind_apply, pure, Except.pure]
  exact h

theorem equipmentCopy_count (w template item : JsVal) (ds : Fields)
    (hcount : (w.getOpt "Count").truthy = true) (hcopy : template.jsonCopy = .ok item)
    (hdata : item.at? ["data"] = some (.obj ds)) :
    ∃ item', equipmentCopy w (.ok template) = some item'
      ∧ item'.at? ["data"] = some (.obj (setField "quantity"
          (.obj [("value", parseInt10 (w.getOpt "Count"))]) ds)) := by
  obtain ⟨item', h, h'⟩ := at?_setPath ["data"] item ds "quantity"
    (.obj [("value", parseInt10 (w.getOpt "Count"))]) hdata
  exact ⟨item', by simp only [equipmentCopy, hcopy, hcount, if_true, h, Except.toOption], h'⟩

theorem equipmentCopy_plain (w template : JsVal) (hcount : (w.getOpt "Count").truthy = false) :
    equipmentCopy w (.ok template) = template.jsonCopy.toOption := by
  simp only [equipmentCopy, hcount, Bool.false_eq_true, if_false]
  cases template.jsonCopy <;> rfl

/-! ## C11: weapons, armor and gear -/

/-- C11: for a list of weapon, armor or gear entries, the phase does not fail, and the
items of the character afterwards are the items before followed by the copies of the
entries whose item key resolves, in the order of the entries (`equipmentItems`): an
entry that adds nothing leaves the others as they are. The copy for an entry with a
`Count` has `data.quantity = {value: parseInt(Count, 10)}`, and the copy for an entry
without one is the plain copy of the item found, which keeps its quantity. -/
theorem equipment_items (characterData : JsVal) (entries items : List JsVal)
    (s : ImportState)
    (hnn : ∀ w ∈ entries, w.nullish = false)
    (hitems : s.character.at? ["items"] = some (.arr items)) :
    (((characterData.getOpt "Character").getOpt "Weapons").getOpt "CharWeapon" = .arr entries →
      ∃ s', importWeapons characterData s = (.ok (), s')
        ∧ s'.character.at? ["items"]
          = some (.arr (items ++ equipmentItems s.game entries s.temporary)))
    ∧ (((characterData.getOpt "Character").getOpt "Armor").getOpt "CharArmor" = .arr entries →
      ∃ s', importArmorOrGear "Armor" "CharArmor" "armor" characterData s = (.ok (), s')
        ∧ s'.character.at? ["items"]
          = some (.arr (items ++ equipmentItems s.game entries s.temporary)))
    ∧ (((characterData.getOpt "Character").getOpt "Gear").getOpt "CharGear" = .arr entries →
      ∃ s', importArmorOrGear "Gear" "CharGear" "gear" characterData s = (.ok (), s')
        ∧ s'.character.at? ["items"]
          = some (.arr (items ++ equipmentItems s.game entries s.temporary)))
    ∧ (∀ w template item ds, (w.getOpt "Count").truthy = true →
        template.jsonCopy = .ok item → item.at? ["data"] = some (.obj ds) →
        ∃ item', equipmentCopy w (.ok template) = some item'
          ∧ item'.at? ["data"] = some (.obj (setField "quantity"
              (.obj [("value", parseInt10 (w.getOpt "Count"))]) ds)))
    ∧ (∀ w template, (w.getOpt "Count").truthy = false →
        equipmentCopy w (.ok template) = template.jsonCopy.toOption) :=
  ⟨fun h => importWeapons_items characterData entries items s h hnn hitems,
    fun h => importArmorOrGear_items _ _ _ characterData entries items s h hnn hitems,
    fun h => importArmorOrGear_items _ _ _ characterData entries items s h hnn hitems,
    equipmentCopy_count, equipmentCopy_plain⟩

/-- C11 at three weapon entries, of which the second does not resolve: two items are
added, the first with the quantity 2 and the other with the quantity 1 of the
catalog. -/
theorem equipment_items_witness :
    (∃ s', importWeapons Examples.armed Examples.unarmed = (.ok (), s')
      ∧ s'.character.at? ["items"] = some (.arr ([] ++ equipmentItems
          Examples.unarmed.game Examples.weaponEntries Examples.unarmed.temporary)))
    ∧ equipmentItems Examples.unarmed.game Examples.weaponEntries Examples.unarmed.temporary
      = [Examples.record "w1" "BLASTER" [("quantity", .obj [("value", .num 2)])],
         Examples.record "w1" "BLASTER" [("quantity", .obj [("value", .num 1)])]] :=
  ⟨(equipment_items Examples.armed Examples.weaponEntries [] Examples.unarmed
      (by decide) rfl).1 rfl, by decide⟩

/-! ## What the phases leave as it is -/

theorem Frame.refl (s : ImportState) : Frame s s :=
  ⟨rfl, rfl, rfl, fun fs h => ⟨fs, h, fun _ _ _ => rfl⟩⟩

theorem Frame.trans {s s' s'' : ImportState} (h : Frame s s') (h' : Frame s' s'') :
    Frame s s'' := by
  obtain ⟨g, st, n, c⟩ := h
  obtain ⟨g', st', n', c'⟩ := h'
  refine ⟨g'.trans g, st'.trans st, n'.trans n, ?_⟩
  intro fs hfs
  obtain ⟨fs', hfs', hk⟩ := c fs hfs
  obtain ⟨fs'', hfs'', hk'⟩ := c' fs' hfs'
  exact ⟨fs'', hfs'', fun k h1 h2 => (hk' k h1 h2).trans (hk k h1 h2)⟩

/-- A change of the state that touches neither the world, the storage calls, the
notifications nor `character`. -/
theorem Frame.of_eq {s s' : ImportState} (hg : s'.game = s.game)
    (hst : s'.storage = s.storage) (hn : s'.notifications = s.notifications)
    (hc : s'.character = s.character) : Frame s s' :=
  ⟨hg, hst, hn, fun fs h => ⟨fs, hc.trans h, fun _ _ _ => rfl⟩⟩

theorem preserves_pure {α : Type} (a : α) : Preserves (pure a : Eff ImportState α) :=
  fun s => Frame.refl s

theorem preserves_lift {α : Type} (x : Js α) : Preserves (Eff.lift x : Eff ImportState α) :=
  fun s => Frame.refl s

theorem preserves_gets {α : Type} (f : ImportState → α) : Preserves (Eff.gets f) :=
  fun s => Frame.refl s

theorem preserves_bind {α β : Type} {m : Eff ImportState α} {f : α → Eff ImportState β}
    (hm : Preserves m) (hf : ∀ a, Preserves (f a)) : Preserves (m >>= f) := by
  intro s
  have h := hm s
  simp only [Eff.bind_apply]
  cases hr : m s with
  | mk r s' =>
    rw [hr] at h
    cases r with
    | error e => exact h
    | ok a => exact h.trans (hf a s')

theorem preserves_andThen {α β : Type} {m : Eff ImportState α} {f : α → Eff ImportState β}
    (hm : Preserves m) (hf : ∀ a, Preserves (f a)) : Preserves (Eff.andThen m f) :=
  preserves_bind hm hf

theorem preserves_tryCatch {α : Type} {m : Eff ImportState α}
    {handler : JsErr → Eff ImportState α}
    (hm : Preserves m) (hh : ∀ e, Preserves (handler e)) : Preserves (Eff.tryCatch m handler) := by
  intro s
  have h := hm s
  simp only [Eff.tryCatch]
  cases hr : m s with
  | mk r s' =>
    rw [hr] at h
    cases r with
    | error e => exact h.trans (hh e s')
    | ok a => exact h

theorem preserves_forEach {α : Type} {f : α → Eff ImportState Unit}
    (hf : ∀ a, Preserves (f a)) : ∀ xs : List α, Preserves (Eff.forEach f xs) := by
  intro xs
  induction xs with
  | nil => exact fun s => Frame.refl s
  | cons x rest ih => exact preserves_andThen (hf x) (fun _ => ih)

theorem preserves_ite {α : Type} {c : Prop} [Decidable c] {a b : Eff ImportState α}
    (ha : Preserves a) (hb : Preserves b) : Preserves (if c then a else b) := by
  split
  · exact ha
  · exact hb

theorem preserves_modify {f : ImportState → ImportState} (h : ∀ s, Frame s (f s)) :
    Preserves (Eff.modify f) := h

theorem preserves_updateDialog (value : JsVal) : Preserves (updateDialog value) :=
  fun _ => Frame.of_eq rfl rfl rfl rfl

theorem preserves_logMessage (level msg : String) : Preserves (logMessage level msg) :=
  fun _ => Frame.of_eq rfl rfl rfl rfl

theorem preserves_countSpecialization : Preserves countSpecialization :=
  fun _ => Frame.of_eq rfl rfl rfl rfl

theorem preserves_updateDialogSpecialization : Preserves updateDialogSpecialization :=
  preserves_bind (preserves_gets _) fun _ =>
    preserves_bind (preserves_gets _) fun _ => preserves_updateDialog _

theorem preserves_lookupItem (id : JsVal) : Preserves (lookupItem id) := by
  intro s
  simp only [lookupItem]
  exact Frame.of_eq rfl rfl rfl rfl

theorem preserves_modifyCharacter (f : JsVal → Js JsVal)
    (hf : ∀ fs c, f (.obj fs) = .ok c → ∃ fs', c = .obj fs'
      ∧ ∀ k, k ≠ "items" → k ≠ "img" → lookupField k fs' = lookupField k fs) :
    Preserves (modifyCharacter f) := by
  intro s
  simp only [modifyCharacter]
  cases hc : f s.character with
  | error e => exact Frame.refl s
  | ok c =>
    refine ⟨rfl, rfl, rfl, ?_⟩
    intro fs hfs
    rw [hfs] at hc
    exact hf fs c hc

theorem set_obj (fs : Fields) (k : String) (x c : JsVal) (h : (JsVal.obj fs).set k x = .ok c) :
    c = .obj (setField k x fs) := by
  simp only [JsVal.set, pure, Except.pure, Except.ok.injEq] at h
  exact h.symm

theorem modifyPath_obj (fs : Fields) (k : String) (ks : List String) (f : JsVal → Js JsVal)
    (c : JsVal) (h : (JsVal.obj fs).modifyPath (k :: ks) f = .ok c) :
    ∃ x, c = .obj (setField k x fs) := by
  simp only [modifyPath, bind, Except.bind] at h
  split at h
  · cases h
  · split at h
    · cases h
    · exact ⟨_, set_obj _ _ _ _ h⟩

theorem preserves_pushItem (item : JsVal) : Preserves (pushItem item) := by
  apply preserves_modifyCharacter
  intro fs c h
  obtain ⟨x, rfl⟩ := modifyPath_obj fs "items" [] _ c h
  exact ⟨_, rfl, fun k h1 _ => by rw [lookupField_setField]; simp [Ne.symm h1]⟩

theorem preserves_importSpecies (characterData : JsVal) (speciesSkills : List JsVal) :
    Preserves (importSpecies characterData speciesSkills) := by
  unfold importSpecies
  repeat' first
    | with_reducible exact preserves_pure _
    | with_reducible exact preserves_lift _
    | with_reducible exact preserves_gets _
    | with_reducible exact preserves_lookupItem _
    | with_reducible exact preserves_pushItem _
    | with_reducible exact preserves_logMessage _ _
    | with_reducible apply preserves_bind
    | with_reducible apply preserves_tryCatch
    | with_reducible apply preserves_ite
    | intro _

theorem preserves_importCareer (characterData : JsVal) :
    Preserves (importCareer characterData) := by
  unfold importCareer
  repeat' first
    | with_reducible exact preserves_pure _
    | with_reducible exact preserves_lift _
    | with_reducible exact preserves_gets _
    | with_reducible exact preserves_lookupItem _
    | with_reducible exact preserves_pushItem _
    | with_reducible exact preserves_logMessage _ _
    | with_reducible apply preserves_bind
    | with_reducible apply preserves_tryCatch
    | with_reducible apply preserves_ite
    | intro _

theorem preserves_write (v : SpecVar) (item : JsVal) : Preserves (Eff.modify (v.write item)) := by
  intro s
  cases v <;> exact Frame.of_eq rfl rfl rfl rfl

theorem preserves_funcGetTalent (characterSpecTalent itemId : JsVal) :
    Preserves (funcGetTalent characterSpecTalent itemId) := by
  unfold funcGetTalent
  apply preserves_bind (preserves_lift _)
  intro purchased
  apply preserves_ite
  · apply preserves_bind (preserves_gets _)
    intro game
    split
    · exact preserves_pure _
    · exact preserves_bind (preserves_logMessage _ _) (fun _ => preserves_pure _)
  · exact preserves_pure _

theorem preserves_addBonusChar (v : SpecVar) (i : Nat) (char : JsVal) :
    Preserves (addBonusChar v i char) := by
  unfold addBonusChar
  repeat' first
    | with_reducible exact preserves_pure _
    | with_reducible exact preserves_lift _
    | with_reducible exact preserves_gets _
    | with_reducible exact preserves_lookupItem _
    | with_reducible exact preserves_pushItem _
    | with_reducible exact preserves_logMessage _ _
    | with_reducible exact preserves_updateDialog _
    | with_reducible exact preserves_updateDialogSpecialization
    | with_reducible exact preserves_countSpecialization
    | with_reducible exact preserves_modify (fun _ => Frame.of_eq rfl rfl rfl rfl)
    | with_reducible exact preserves_write _ _
    | with_reducible apply preserves_forEach
    | with_reducible apply preserves_bind
    | with_reducible apply preserves_tryCatch
    | with_reducible apply preserves_ite
    | intro _

theorem preserves_talentStep (v : SpecVar) (spec : JsVal) (i : Nat) :
    Preserves (talentStep v spec i) := by
  unfold talentStep
  repeat' first
    | with_reducible exact preserves_funcGetTalent _ _
    | with_reducible exact preserves_addBonusChar _ _ _
    | with_reducible exact preserves_pure _
    | with_reducible exact preserves_lift _
    | with_reducible exact preserves_gets _
    | with_reducible exact preserves_write _ _
    | with_reducible apply preserves_forEach
    | with_reducible apply preserves_bind
    | with_reducible apply preserves_ite
    | intro _

theorem preserves_talentLoop (v : SpecVar) (spec : JsVal) :
    ∀ n i, Preserves (talentLoop v spec n i) := by
  intro n
  induction n with
  | zero => intro i; exact preserves_pure _
  | succ n ih =>
    intro i
    unfold talentLoop
    exact preserves_bind (preserves_talentStep v spec i) fun _ =>
      preserves_bind preserves_countSpecialization fun _ =>
        preserves_bind preserves_updateDialogSpecialization fun _ => ih (i + 1)

theorem preserves_addTalentsToTotal (spec : JsVal) : Preserves (addTalentsToTotal spec) := by
  unfold addTalentsToTotal
  repeat' first
    | with_reducible exact preserves_pure _
    | with_reducible exact preserves_lift _
    | with_reducible exact preserves_gets _
    | with_reducible exact preserves_lookupItem _
    | with_reducible exact preserves_pushItem _
    | with_reducible exact preserves_logMessage _ _
    | with_reducible exact preserves_updateDialog _
    | with_reducible exact preserves_updateDialogSpecialization
    | with_reducible exact preserves_countSpecialization
    | with_reducible exact preserves_modify (fun _ => Frame.of_eq rfl rfl rfl rfl)
    | with_reducible exact preserves_write _ _
    | with_reducible apply preserves_forEach
    | with_reducible apply preserves_bind
    | with_reducible apply preserves_tryCatch
    | with_reducible apply preserves_ite
    | intro _

theorem preserves_applyTalents (v : SpecVar) (spec : JsVal) :
    Preserves (applyTalents v spec) := by
  unfold applyTalents
  exact preserves_bind (preserves_lift _) fun _ => preserves_talentLoop v spec _ _

theorem preserves_pushSpecialization : Preserves pushSpecialization := by
  unfold pushSpecialization
  repeat' first
    | with_reducible exact preserves_pure _
    | with_reducible exact preserves_lift _
    | with_reducible exact preserves_gets _
    | with_reducible exact preserves_lookupItem _
    | with_reducible exact preserves_pushItem _
    | with_reducible exact preserves_logMessage _ _
    | with_reducible exact preserves_updateDialog _
    | with_reducible exact preserves_updateDialogSpecialization
    | with_reducible exact preserves_countSpecialization
    | with_reducible exact preserves_modify (fun _ => Frame.of_eq rfl rfl rfl rfl)
    | with_reducible exact preserves_write _ _
    | with_reducible apply preserves_forEach
    | with_reducible apply preserves_bind
    | with_reducible apply preserves_tryCatch
    | with_reducible apply preserves_ite
    | intro _

theorem preserves_specializationStep (spec : JsVal) : Preserves (specializationStep spec) := by
  unfold specializationStep
  repeat' first
    | with_reducible exact preserves_addTalentsToTotal _
    | with_reducible exact preserves_applyTalents _ _
    | with_reducible exact preserves_pushSpecialization
    | with_reducible exact preserves_pure _
    | with_reducible exact preserves_lift _
    | with_reducible exact preserves_gets _
    | with_reducible exact preserves_lookupItem _
    | with_reducible exact preserves_pushItem _
    | with_reducible exact preserves_logMessage _ _
    | with_reducible exact preserves_updateDialogSpecialization
    | with_reducible exact preserves_countSpecialization
    | with_reducible exact preserves_modify (fun _ => Frame.of_eq rfl rfl rfl rfl)
    | with_reducible apply preserves_bind
    | with_reducible apply preserves_tryCatch
    | with_reducible apply preserves_ite
    | intro _

theorem preserves_importSpecializationsBody (characterData : JsVal) :
    Preserves (importSpecializationsBody characterData) := by
  unfold importSpecializationsBody
  repeat' first
    | with_reducible exact preserves_addTalentsToTotal _
    | with_reducible exact preserves_applyTalents _ _
    | with_reducible exact preserves_pushSpecialization
    | with_reducible exact preserves_forEach preserves_specializationStep _
    | with_reducible exact preserves_pure _
    | with_reducible exact preserves_lift _
    | with_reducible exact preserves_gets _
    | with_reducible exact preserves_lookupItem _
    | with_reducible exact preserves_updateDialogSpecialization
    | with_reducible exact preserves_countSpecialization
    | with_reducible exact preserves_modify (fun _ => Frame.of_eq rfl rfl rfl rfl)
    | with_reducible apply preserves_bind
    | with_reducible apply preserves_ite
    | intro _

theorem frame_syncSpecialization (s : ImportState) : Frame s (syncSpecialization s) := by
  unfold syncSpecialization
  simp only
  split
  · next c hc =>
    refine ⟨rfl, rfl, rfl, ?_⟩
    intro fs hfs
    rw [hfs] at hc
    refine ⟨_, set_obj _ _ _ _ hc, ?_⟩
    intro k h1 _
    rw [lookupField_setField]; simp [Ne.symm h1]
  · exact Frame.of_eq rfl rfl rfl rfl

theorem preserves_importSpecializations (characterData : JsVal) :
    Preserves (importSpecializations characterData) := by
  intro s
  have h := preserves_tryCatch (preserves_importSpecializationsBody characterData)
    (fun _ => preserves_logMessage "error" "Unable to add specializations to character.") s
  simp only [importSpecializations]
  exact h.trans (frame_syncSpecialization _)

theorem preserves_importForcePower (forcepowers : List JsVal) (power : JsVal) :
    Preserves (importForcePower forcepowers power) := by
  unfold importForcePower
  repeat' first
    | with_reducible exact preserves_pure _
    | with_reducible exact preserves_lift _
    | with_reducible exact preserves_gets _
    | with_reducible exact preserves_lookupItem _
    | with_reducible exact preserves_pushItem _
    | with_reducible exact preserves_logMessage _ _
    | with_reducible exact preserves_updateDialog _
    | with_reducible exact preserves_updateDialogSpecialization
    | with_reducible exact preserves_countSpecialization
    | with_reducible exact preserves_modify (fun _ => Frame.of_eq rfl rfl rfl rfl)
    | with_reducible exact preserves_write _ _
    | with_reducible apply preserves_forEach
    | with_reducible apply preserves_bind
    | with_reducible apply preserves_tryCatch
    | with_reducible apply preserves_ite
    | intro _

theorem preserves_addEquipment (w : JsVal) : Preserves (addEquipment w) := by
  unfold addEquipment
  repeat' first
    | with_reducible exact preserves_pure _
    | with_reducible exact preserves_lift _
    | with_reducible exact preserves_gets _
    | with_reducible exact preserves_lookupItem _
    | with_reducible exact preserves_pushItem _
    | with_reducible exact preserves_logMessage _ _
    | with_reducible exact preserves_updateDialog _
    | with_reducible exact preserves_updateDialogSpecialization
    | with_reducible exact preserves_countSpecialization
    | with_reducible exact preserves_modify (fun _ => Frame.of_eq rfl rfl rfl rfl)
    | with_reducible exact preserves_write _ _
    | with_reducible apply preserves_forEach
    | with_reducible apply preserves_bind
    | with_reducible apply preserves_tryCatch
    | with_reducible apply preserves_ite
    | intro _

theorem preserves_importWeapons (characterData : JsVal) :
    Preserves (importWeapons characterData) := by
  unfold importWeapons
  repeat' first
    | with_reducible exact preserves_addEquipment _
    | with_reducible exact preserves_pure _
    | with_reducible exact preserves_lift _
    | with_reducible exact preserves_logMessage _ _
    | with_reducible apply preserves_forEach
    | with_reducible apply preserves_bind
    | with_reducible apply preserves_tryCatch
    | with_reducible apply preserves_ite
    | intro _

theorem preserves_importArmorOrGear (group entry kind : String) (characterData : JsVal) :
    Preserves (importArmorOrGear group entry kind characterData) := by
  unfold importArmorOrGear
  repeat' first
    | with_reducible exact preserves_addEquipment _
    | with_reducible exact preserves_pure _
    | with_reducible exact preserves_lift _
    | with_reducible exact preserves_logMessage _ _
    | with_reducible apply preserves_forEach
    | with_reducible apply preserves_bind
    | with_reducible apply preserves_tryCatch
    | with_reducible apply preserves_ite
    | intro _

theorem preserves_zoom_directories {α : Type} (m : Eff (List (String × String)) α) :
    Preserves (Eff.zoom (·.directories) (fun d s => { s with directories := d }) m) := by
  intro s
  simp only [Eff.zoom]
  exact Frame.of_eq rfl rfl rfl rfl

theorem preserves_setImg (x : JsVal) :
    Preserves (modifyCharacter (fun character => character.set "img" x)) := by
  apply preserves_modifyCharacter
  intro fs c h
  rw [set_obj _ _ _ _ h]
  exact ⟨_, rfl, fun k _ h2 => by rw [lookupField_setField]; simp [Ne.symm h2]⟩

theorem preserves_importPortrait (host : Host) (characterData : JsVal) :
    Preserves (importPortrait host characterData) := by
  unfold importPortrait
  repeat' first
    | with_reducible exact preserves_zoom_directories _
    | with_reducible exact preserves_setImg _
    | with_reducible exact preserves_pure _
    | with_reducible exact preserves_lift _
    | with_reducible exact preserves_gets _
    | with_reducible exact preserves_logMessage _ _
    | with_reducible exact preserves_modify (fun _ => Frame.of_eq rfl rfl rfl rfl)
    | with_reducible apply preserves_bind
    | with_reducible apply preserves_tryCatch
    | with_reducible apply preserves_ite
    | intro _

theorem preserves_importPhases (host : Host) (characterData : JsVal)
    (speciesSkills forcepowers : List JsVal) :
    Preserves (importPhases host characterData speciesSkills forcepowers) := by
  unfold importPhases
  repeat' first
    | with_reducible exact preserves_updateDialog _
    | with_reducible exact preserves_importSpecies _ _
    | with_reducible exact preserves_importCareer _
    | with_reducible exact preserves_importSpecializations _
    | with_reducible exact preserves_forEach (preserves_importForcePower _) _
    | with_reducible exact preserves_importWeapons _
    | with_reducible exact preserves_importArmorOrGear _ _ _ _
    | with_reducible exact preserves_importPortrait _ _
    | with_reducible apply preserves_bind
    | intro _

theorem noThrow_pure {α : Type} (a : α) : NoThrow (pure a : Eff ImportState α) :=
  fun _ => ⟨a, rfl⟩

theorem noThrow_logMessage (level msg : String) : NoThrow (logMessage level msg) :=
  fun _ => ⟨(), rfl⟩

theorem noThrow_updateDialog (value : JsVal) : NoThrow (updateDialog value) :=
  fun _ => ⟨(), rfl⟩

theorem noThrow_bind {α β : Type} {m : Eff ImportState α} {f : α → Eff ImportState β}
    (hm : NoThrow m) (hf : ∀ a, NoThrow (f a)) : NoThrow (m >>= f) := by
  intro s
  obtain ⟨a, ha⟩ := hm s
  simp only [Eff.bind_apply]
  cases hr : m s with
  | mk r s' =>
    rw [hr] at ha
    simp only at ha
    subst ha
    exact hf a s'

theorem noThrow_lift_bind {α β : Type} {x : Js α} {a : α} {f : α → Eff ImportState β}
    (hx : x = .ok a) (hf : NoThrow (f a)) : NoThrow (Eff.lift x >>= f) := by
  intro s
  simp only [Eff.bind_apply, Eff.lift, hx]
  exact hf s

theorem noThrow_tryCatch {α : Type} {m : Eff ImportState α}
    {handler : JsErr → Eff ImportState α} (hh : ∀ e, NoThrow (handler e)) :
    NoThrow (Eff.tryCatch m handler) := by
  intro s
  simp only [Eff.tryCatch]
  cases hr : m s with
  | mk r s' =>
    cases r with
    | error e => exact hh e s'
    | ok a => exact ⟨a, rfl⟩

theorem noThrow_forEach {α : Type} {f : α → Eff ImportState Unit} :
    ∀ xs : List α, (∀ x ∈ xs, NoThrow (f x)) → NoThrow (Eff.forEach f xs) := by
  intro xs
  induction xs with
  | nil => intro _ s; exact ⟨(), rfl⟩
  | cons x rest ih =>
    intro h
    exact noThrow_bind (h x (List.mem_cons_self _ _))
      (fun _ => ih (fun y hy => h y (List.mem_cons_of_mem _ hy)))

theorem noThrow_ite {α : Type} {c : Prop} [Decidable c] {a b : Eff ImportState α}
    (ha : NoThrow a) (hb : NoThrow b) : NoThrow (if c then a else b) := by
  split
  · exact ha
  · exact hb

theorem noThrow_importSpecies (characterData : JsVal) (speciesSkills : List JsVal) (k : JsVal)
    (hk : characterData.getPath ["Character", "Species", "SpeciesKey"] = .ok k) :
    NoThrow (importSpecies characterData speciesSkills) :=
  noThrow_tryCatch fun _ => noThrow_lift_bind hk (noThrow_logMessage _ _)

theorem noThrow_importCareer (characterData : JsVal) (k : JsVal)
    (hk : characterData.getPath ["Character", "Career", "CareerKey"] = .ok k) :
    NoThrow (importCareer characterData) :=
  noThrow_tryCatch fun _ => noThrow_lift_bind hk (noThrow_logMessage _ _)

theorem noThrow_importSpecializations (characterData : JsVal) :
    NoThrow (importSpecializations characterData) := by
  intro s
  obtain ⟨a, ha⟩ := noThrow_tryCatch (m := importSpecializationsBody characterData)
    (fun _ => noThrow_logMessage "error" "Unable to add specializations to character.") s
  exact ⟨a, by simp only [importSpecializations]; exact ha⟩

theorem noThrow_importForcePower (forcepowers : List JsVal) (power : JsVal) :
    NoThrow (importForcePower forcepowers power) :=
  noThrow_tryCatch fun _ => noThrow_logMessage _ _

theorem noThrow_importWeapons (characterData : JsVal)
    (h : noNullEntries (((characterData.getOpt "Character").getOpt "Weapons").getOpt
      "CharWeapon")) :
    NoThrow (importWeapons characterData) := by
  unfold importWeapons
  simp only
  apply noThrow_ite _ (noThrow_pure _)
  cases hw : ((characterData.getOpt "Character").getOpt "Weapons").getOpt "CharWeapon" with
  | arr xs =>
    rw [hw] at h
    simp only [isArray, if_true, asArray, pure, Except.pure]
    apply noThrow_lift_bind rfl
    apply noThrow_forEach
    intro w hwx
    apply noThrow_tryCatch
    intro _
    apply noThrow_lift_bind (get_eq_getOpt (h w hwx) "ItemKey")
    exact noThrow_ite (noThrow_logMessage _ _) (noThrow_pure _)
  | _ =>
    simp only [isArray, Bool.false_eq_true, if_false]
    apply noThrow_tryCatch
    intro _
    exact noThrow_ite (noThrow_logMessage _ _) (noThrow_pure _)

theorem noThrow_importArmorOrGear (group entry kind : String) (characterData : JsVal)
    (h : noNullEntries (((characterData.getOpt "Character").getOpt group).getOpt entry)) :
    NoThrow (importArmorOrGear group entry kind characterData) := by
  unfold importArmorOrGear
  simp only
  by_cases ht : (((characterData.getOpt "Character").getOpt group).getOpt entry).truthy = true
  swap
  · simp only [ht, Bool.false_eq_true, if_false]; exact noThrow_pure _
  simp only [ht, if_true]
  have hnn := nullish_of_truthy ht
  cases hw : ((characterData.getOpt "Character").getOpt group).getOpt entry with
  | arr xs =>
    rw [hw] at h
    simp only [isArray, if_true, asArray, pure, Except.pure]
    apply noThrow_lift_bind rfl
    apply noThrow_forEach
    intro w hwx
    apply noThrow_tryCatch
    intro _
    exact noThrow_lift_bind (get_eq_getOpt (h w hwx) "ItemKey") (noThrow_logMessage _ _)
  | _ =>
    rw [hw] at hnn
    simp only [isArray, Bool.false_eq_true, if_false]
    apply noThrow_tryCatch
    intro _
    exact noThrow_lift_bind (get_eq_getOpt hnn "ItemKey") (noThrow_logMessage _ _)

theorem noThrow_importPortrait (host : Host) (characterData : JsVal) :
    NoThrow (importPortrait host characterData) :=
  noThrow_tryCatch fun _ => noThrow_logMessage _ _

/-! ## The first part of `characterImport` and the commit -/

theorem ensures_pure {α : Type} {P : α → Prop} (a : α) (h : P a) :
    Ensures (pure a : Js α) P := by
  intro b hb
  cases hb
  exact h

theorem ensures_true {α : Type} (m : Js α) : Ensures m (fun _ => True) := fun _ _ => trivial

theorem ensures_eq {α : Type} {m : Js α} {a : α} (h : m = .ok a) : Ensures m (fun b => b = a) := by
  intro b hb
  rw [h] at hb
  cases hb
  rfl

theorem ensures_bind {α β : Type} {m : Js α} {f : α → Js β} {Q : α → Prop} {P : β → Prop}
    (hm : Ensures m Q) (hf : ∀ a, Q a → Ensures (f a) P) : Ensures (m >>= f) P := by
  intro b hb
  cases hr : m with
  | error e => rw [hr] at hb; cases hb
  | ok a => rw [hr] at hb; exact hf a (hm a hr) b hb

theorem ensures_ite {α : Type} {c : Prop} [Decidable c] {a b : Js α} {P : α → Prop}
    (ha : Ensures a P) (hb : Ensures b P) : Ensures (if c then a else b) P := by
  split
  · exact ha
  · exact hb

theorem ensures_setPath_data {F c : JsVal} (h : HasFlags F c) (p : List String) (k : String)
    (x : JsVal) : Ensures (c.setPath ("data" :: p) k x) (HasFlags F) := by
  obtain ⟨fs, rfl, hF⟩ := h
  intro c' hc'
  obtain ⟨y, rfl⟩ := modifyPath_obj fs "data" p _ c' hc'
  exact ⟨_, rfl, by rw [lookupField_setField]; simpa using hF⟩

theorem ensures_arrayForEach {α : Type} {f : α → JsVal → Js α} {Q : α → Prop}
    (hf : ∀ a x, Q a → Ensures (f a x) Q) :
    ∀ (xs : List JsVal) (a : α), Q a → Ensures (arrayForEach f xs a) Q := by
  intro xs
  induction xs with
  | nil => intro a ha; exact ensures_pure a ha
  | cons x rest ih =>
    intro a ha
    exact ensures_bind (hf a x ha) (fun a' ha' => ih a' ha')

theorem ensures_characteristicStep (F character char : JsVal) (h : HasFlags F character) :
    Ensures (characteristicStep character char) (HasFlags F) := by
  unfold characteristicStep
  repeat' first
    | exact ensures_pure _ (by assumption)
    | with_reducible exact ensures_setPath_data (by assumption) _ _ _
    | with_reducible apply ensures_ite
    | (with_reducible apply ensures_bind (ensures_setPath_data (by assumption) _ _ _); intro _ _)
    | (with_reducible apply ensures_bind (ensures_true _); intro _ _)

theorem ensures_skillStep (F : JsVal) (st : JsVal × List JsVal) (skill : JsVal)
    (h : HasFlags F st.1) :
    Ensures (skillStep st skill) (fun r => HasFlags F r.1) := by
  unfold skillStep
  repeat' first
    | exact ensures_pure _ (by assumption)
    | with_reducible apply ensures_ite
    | (with_reducible apply ensures_bind (ensures_setPath_data (by assumption) _ _ _); intro _ _)
    | (with_reducible apply ensures_bind (ensures_true _); intro _ _)

theorem ensures_initialCharacter (characterData key : JsVal)
    (hkey : characterData.getPath ["Character", "Key"] = .ok key) :
    Ensures (initialCharacter characterData) (HasFlags (.obj [("ffgimportid", key)])) := by
  unfold initialCharacter
  with_reducible apply ensures_bind (ensures_true _); intro _ _
  with_reducible apply ensures_bind (ensures_eq hkey); intro k hk
  subst hk
  repeat' (with_reducible apply ensures_bind (ensures_true _); intro _ _)
  exact ensures_pure _ (Exists.intro _ ⟨rfl, by simp [lookupField]⟩)

theorem ensures_prepareCharacter (characterData key : JsVal)
    (hkey : characterData.getPath ["Character", "Key"] = .ok key) :
    Ensures (prepareCharacter characterData)
      (fun r => HasFlags (.obj [("ffgimportid", key)]) r.1) := by
  unfold prepareCharacter
  with_reducible apply ensures_bind (ensures_initialCharacter characterData key hkey)
  intro c hc
  with_reducible apply ensures_bind (ensures_true _); intro _ _
  with_reducible apply ensures_bind (ensures_true _); intro _ _
  with_reducible apply ensures_bind (ensures_arrayForEach
    (fun a x ha => ensures_characteristicStep _ a x ha) _ c hc)
  intro c1 hc1
  with_reducible apply ensures_bind (ensures_true _); intro _ _
  with_reducible apply ensures_bind (ensures_true _); intro _ _
  with_reducible apply ensures_bind (ensures_arrayForEach
    (Q := fun r => HasFlags (.obj [("ffgimportid", key)]) r.1)
    (fun a x ha => ensures_skillStep _ a x ha) _ (c1, []) hc1)
  intro r hr
  obtain ⟨c2, sk⟩ := r
  simp only
  with_reducible apply ensures_bind (ensures_true _); intro _ _
  with_reducible exact ensures_pure _ hr

theorem key_of_prepareCharacter (characterData : JsVal)
    (r : JsVal × List JsVal × List JsVal) (h : prepareCharacter characterData = .ok r) :
    ∃ key, characterData.getPath ["Character", "Key"] = .ok key := by
  cases hk : characterData.getPath ["Character", "Key"] with
  | ok key => exact ⟨key, rfl⟩
  | error e =>
    exfalso
    cases hn : characterData.getPath ["Character", "Description", "CharName"] <;>
      simp [prepareCharacter, initialCharacter, bind, Except.bind, hk, hn] at h

theorem getOpt_of_getPath {v key : JsVal} {a b : String} (h : v.getPath [a, b] = .ok key) :
    (v.getOpt a).getOpt b = key := by
  simp only [getPath, bind, Except.bind, pure, Except.pure] at h
  cases ha : v.get a with
  | error e => simp [ha] at h
  | ok x =>
    simp only [ha] at h
    cases hb : x.get b with
    | error e => simp [hb] at h
    | ok y =>
      simp only [hb, Except.ok.injEq] at h
      simp [getOpt, ha, hb, h]

theorem noThrow_importPhases (host : Host) (characterData : JsVal)
    (speciesSkills forcepowers : List JsVal) (ks kc : JsVal)
    (hspecies : characterData.getPath ["Character", "Species", "SpeciesKey"] = .ok ks)
    (hcareer : characterData.getPath ["Character", "Career", "CareerKey"] = .ok kc)
    (hweapons : noNullEntries
      (((characterData.getOpt "Character").getOpt "Weapons").getOpt "CharWeapon"))
    (harmor : noNullEntries
      (((characterData.getOpt "Character").getOpt "Armor").getOpt "CharArmor"))
    (hgear : noNullEntries
      (((characterData.getOpt "Character").getOpt "Gear").getOpt "CharGear")) :
    NoThrow (importPhases host characterData speciesSkills forcepowers) := by
  unfold importPhases
  repeat' first
    | with_reducible exact noThrow_updateDialog _
    | with_reducible exact noThrow_importSpecies _ _ ks hspecies
    | with_reducible exact noThrow_importCareer _ kc hcareer
    | with_reducible exact noThrow_importSpecializations _
    | with_reducible exact noThrow_forEach _ (fun _ _ => noThrow_importForcePower _ _)
    | with_reducible exact noThrow_importWeapons _ hweapons
    | with_reducible exact noThrow_importArmorOrGear _ _ _ _ harmor
    | with_reducible exact noThrow_importArmorOrGear _ _ _ _ hgear
    | with_reducible exact noThrow_importPortrait _ _
    | with_reducible apply noThrow_bind
    | intro _

theorem characterImportBody_commit (host : Host) (data : String) (s : ImportState)
    (characterData key : JsVal) (prep : JsVal × List JsVal × List JsVal)
    (hparse : host.xmlToJs data = .ok characterData)
    (hprep : prepareCharacter characterData = .ok prep)
    (hkey : characterData.getPath ["Character", "Key"] = .ok key)
    (hdoc : PhasesReadable characterData) :
    ∃ s3 fs, s3.game = s.game ∧ s3.storage = s.storage ∧ s3.notifications = s.notifications
      ∧ s3.character = .obj fs
      ∧ lookupField "flags" fs = some (.obj [("ffgimportid", key)])
      ∧ characterImportBody host data s
        = (commitCharacter host characterData >>= fun _ => updateDialog (.num 100)) s3 := by
  obtain ⟨c, sk, fp⟩ := prep
  obtain ⟨fs, hc, hflags⟩ := ensures_prepareCharacter characterData key hkey _ hprep
  simp only at hc
  subst hc
  obtain ⟨ks, hks⟩ := hdoc.species
  obtain ⟨kc, hkc⟩ := hdoc.career
  obtain ⟨s1, hs1⟩ : ∃ s1 : ImportState,
      s1 = if !s.temporary.truthy then { s with temporary := .obj [] } else s := ⟨_, rfl⟩
  have h1g : s1.game = s.game := by rw [hs1]; split <;> rfl
  have h1s : s1.storage = s.storage := by rw [hs1]; split <;> rfl
  have h1n : s1.notifications = s.notifications := by rw [hs1]; split <;> rfl
  obtain ⟨u, hu⟩ := noThrow_importPhases host characterData sk fp ks kc hks hkc
    hdoc.weapons hdoc.armor hdoc.gear { s1 with character := .obj fs }
  obtain ⟨hg, hst, hn, hch⟩ := preserves_importPhases host characterData sk fp
    { s1 with character := .obj fs }
  obtain ⟨fs', hfs', hk⟩ := hch fs rfl
  cases hph : importPhases host characterData sk fp { s1 with character := .obj fs } with
  | mk r s3 =>
    rw [hph] at hu hg hst hn hfs'
    simp only at hu hg hst hn hfs'
    subst hu
    refine ⟨s3, fs', hg.trans h1g, hst.trans h1s, hn.trans h1n, hfs', ?_, ?_⟩
    · rw [hk "flags" (by decide) (by decide)]; exact hflags
    · simp only [characterImportBody, Eff.bind_apply, Eff.lift, hparse, Eff.modify, hprep,
        ← hs1, hph]

theorem findActor_total (data key : JsVal) (actors : List JsVal)
    (hactors : data.get "actors" = .ok (.arr actors))
    (hflags : ∀ a ∈ actors, (a.getOpt "flags").nullish = false) :
    ∃ found, findActor data key = .ok found := by
  have hfind : ∀ xs : List JsVal, (∀ a ∈ xs, (a.getOpt "flags").nullish = false) →
      ∃ found, arrayFind (hasImportId key) xs = .ok found := by
    intro xs
    induction xs with
    | nil => intro _; exact ⟨_, rfl⟩
    | cons a rest ih =>
      intro h
      have ha := h a (List.mem_cons_self _ _)
      obtain ⟨found, hrest⟩ := ih (fun b hb => h b (List.mem_cons_of_mem _ hb))
      simp only [arrayFind, hasImportId, getPath, get_eq_getOpt (nullish_of_getOpt ha),
        get_eq_getOpt ha, bind, Except.bind, pure, Except.pure, hrest]
      split <;> exact ⟨_, rfl⟩
  obtain ⟨found, h⟩ := hfind actors hflags
  exact ⟨found, by simp only [findActor, hactors, asArray, bind, Except.bind, pure,
    Except.pure, h]⟩

theorem commitCharacter_storage (host : Host) (characterData : JsVal) (s : ImportState)
    (fs : Fields) (found : JsVal) (hchar : s.character = .obj fs)
    (hfind : findActor s.game.data ((characterData.getOpt "Character").getOpt "Key")
      = .ok found) :
    ∃ call, (commitCharacter host characterData s).2.storage = s.storage ++ [call]
      ∧ (commitCharacter host characterData s).2.notifications = s.notifications := by
  by_cases ht : found.truthy = true
  · refine ⟨.update (.obj (setField "_id" (found.getOpt "_id") fs)), ?_⟩
    simp only [commitCharacter, Eff.bind_apply, Eff.gets, Eff.lift, hfind, ht, if_true,
      modifyCharacter, hchar, JsVal.set, pure, Except.pure, Eff.modify]
    cases host.actorUpdate s.game.data (.obj (setField "_id" (found.getOpt "_id") fs)) <;>
      exact ⟨rfl, rfl⟩
  · refine ⟨.create (.obj fs), ?_⟩
    simp only [commitCharacter, Eff.bind_apply, Eff.gets, Eff.lift, hfind, ht,
      Bool.false_eq_true, if_false, hchar, Eff.modify]
    cases host.actorCreate s.game.data (.obj fs) <;> exact ⟨rfl, rfl⟩

theorem characterImport_of_body (host : Host) (data : String) (s s3 : ImportState)
    (characterData : JsVal)
    (hbody : characterImportBody host data s
      = (commitCharacter host characterData >>= fun _ => updateDialog (.num 100)) s3) :
    (characterImport host data s).storage = (commitCharacter host characterData s3).2.storage
    ∧ ((commitCharacter host characterData s3).1 = .ok () →
      (characterImport host data s).game = (commitCharacter host characterData s3).2.game) := by
  simp only [characterImport, Eff.tryCatch, hbody, Eff.bind_apply]
  cases hc : commitCharacter host characterData s3 with
  | mk r s4 =>
    cases r with
    | error e => exact ⟨rfl, fun h => by cases h⟩
    | ok u => exact ⟨rfl, fun _ => rfl⟩

/-! ## C7: what aborts a run -/

/-- C7, as amended: when the document parses, its first part (the record with the
characteristics and the skills) is built without a failure, the species and career
keys can be read, the weapon, armor and gear lists have no `undefined` or `null`
entry, and `game.data.actors` is an array of records with `flags`, the run reaches the
commit: exactly one storage call, a create or an update, is made. -/
theorem characterImport_commits (host : Host) (data : String) (s : ImportState)
    (characterData : JsVal) (prep : JsVal × List JsVal × List JsVal) (actors : List JsVal)
    (hparse : host.xmlToJs data = .ok characterData)
    (hprep : prepareCharacter characterData = .ok prep)
    (hdoc : PhasesReadable characterData)
    (hactors : s.game.data.get "actors" = .ok (.arr actors))
    (hflags : ∀ a ∈ actors, (a.getOpt "flags").nullish = false) :
    ∃ call, (characterImport host data s).storage = s.storage ++ [call] := by
  obtain ⟨key, hkey⟩ := key_of_prepareCharacter characterData prep hprep
  obtain ⟨s3, fs, hg, hst, _, hchar, _, hbody⟩ :=
    characterImportBody_commit host data s characterData key prep hparse hprep hkey hdoc
  obtain ⟨found, hfind⟩ := findActor_total s3.game.data
    ((characterData.getOpt "Character").getOpt "Key") actors (by rw [hg]; exact hactors) hflags
  obtain ⟨call, hcall, _⟩ := commitCharacter_storage host characterData s3 fs found hchar hfind
  exact ⟨call, by
    rw [(characterImport_of_body host data s s3 characterData hbody).1, hcall, hst]⟩

/-- C7, as amended, at a document without characteristics, skills and equipment, in a
world without catalogs and actors. -/
theorem characterImport_commits_witness :
    ∃ call, (characterImport (Examples.host (Examples.document [])) ""
        (ImportState.initial (Examples.game []) .undef)).storage
      = (ImportState.initial (Examples.game []) .undef).storage ++ [call] :=
  characterImport_commits (Examples.host (Examples.document [])) ""
    (ImportState.initial (Examples.game []) .undef) (Examples.document []) _ [] rfl rfl
    ⟨⟨_, rfl⟩, ⟨_, rfl⟩, trivial, trivial, trivial⟩ rfl (by decide)

/-- C7 as stated fails: the document parses, its only skill entry has a key that is
not in the skill table, and the run makes no storage call and reports the failure. -/
theorem characterImport_unknown_skill_aborts :
    (Examples.host Examples.unknownSkill).xmlToJs "" = .ok Examples.unknownSkill
    ∧ (Examples.run [] Examples.unknownSkill).storage = []
    ∧ (Examples.run [] Examples.unknownSkill).notifications
      = ["An error occured while import character!"] := by
  decide

theorem hasImportId_of_flags (key : String) (fs : Fields)
    (h : lookupField "flags" fs = some (.obj [("ffgimportid", .str key)])) :
    hasImportId (.str key) (.obj fs) = .ok true := by
  simp [hasImportId, getPath, JsVal.get, h, lookupField, bind, Except.bind, pure, Except.pure,
    strictEq]

theorem findActor_eq (ds : Fields) (actors : List JsVal) (key : JsVal)
    (hactors : lookupField "actors" ds = some (.arr actors)) :
    findActor (.obj ds) key = arrayFind (hasImportId key) actors := by
  simp only [findActor, JsVal.get, hactors, Option.getD_some, asArray, bind, Except.bind, pure,
    Except.pure]

theorem commitCharacter_create (host : Host) (characterData : JsVal) (s : ImportState)
    (fs : Fields) (found data' : JsVal) (hchar : s.character = .obj fs)
    (hfind : findActor s.game.data ((characterData.getOpt "Character").getOpt "Key")
      = .ok found)
    (ht : found.truthy = false)
    (hcreate : host.actorCreate s.game.data (.obj fs) = .ok data') :
    (commitCharacter host characterData s).1 = .ok ()
      ∧ (commitCharacter host characterData s).2.storage = s.storage ++ [.create (.obj fs)]
      ∧ (commitCharacter host characterData s).2.game = { s.game with data := data' } := by
  refine ⟨?_, ?_, ?_⟩ <;>
    simp only [commitCharacter, Eff.bind_apply, Eff.gets, Eff.lift, hfind, ht,
      Bool.false_eq_true, if_false, hchar, Eff.modify, hcreate]

theorem commitCharacter_update (host : Host) (characterData : JsVal) (s : ImportState)
    (fs : Fields) (found data' : JsVal) (hchar : s.character = .obj fs)
    (hfind : findActor s.game.data ((characterData.getOpt "Character").getOpt "Key")
      = .ok found)
    (ht : found.truthy = true)
    (hupdate : host.actorUpdate s.game.data (.obj (setField "_id" (found.getOpt "_id") fs))
      = .ok data') :
    (commitCharacter host characterData s).1 = .ok ()
      ∧ (commitCharacter host characterData s).2.storage
        = s.storage ++ [.update (.obj (setField "_id" (found.getOpt "_id") fs))]
      ∧ (commitCharacter host characterData s).2.game = { s.game with data := data' } := by
  refine ⟨?_, ?_, ?_⟩ <;>
    simp only [commitCharacter, Eff.bind_apply, Eff.gets, Eff.lift, hfind, ht, if_true,
      modifyCharacter, hchar, JsVal.set, pure, Except.pure, Eff.modify, hupdate]

theorem fakeCreate_eq (ds fs : Fields) (actors : List JsVal)
    (hactors : lookupField "actors" ds = some (.arr actors)) :
    Examples.fakeCreate (.obj ds) (.obj fs) = .ok (.obj (setField "actors" (.arr (actors
      ++ [.obj (setField "_id" (.str ("actor" ++ toString actors.length)) fs)])) ds)) := by
  simp only [Examples.fakeCreate, JsVal.get, hactors, Option.getD_some, asArray, bind,
    Except.bind, pure, Except.pure, JsVal.set]

theorem fakeUpdate_eq (ds fs : Fields) (actors : List JsVal) (id : JsVal)
    (hactors : lookupField "actors" ds = some (.arr actors))
    (hid : lookupField "_id" fs = some id) :
    Examples.fakeUpdate (.obj ds) (.obj fs) = .ok (.obj (setField "actors" (.arr (actors.map
      fun a => if strictEq (a.getOpt "_id") id then .obj fs else a)) ds)) := by
  simp only [Examples.fakeUpdate, JsVal.get, hactors, hid, Option.getD_some, asArray, bind,
    Except.bind, pure, Except.pure, JsVal.set]

theorem lookupField_setField_self (k : String) (x : JsVal) (fs : Fields) :
    lookupField k (setField k x fs) = some x := by
  rw [lookupField_setField]; simp

theorem getOpt_obj (fs : Fields) (k : String) (x : JsVal) (h : lookupField k fs = some x) :
    (JsVal.obj fs).getOpt k = x := by
  simp [getOpt, JsVal.get, h, pure, Except.pure]

theorem fakeUpdate_map (actors : List JsVal) (stored c2 : JsVal) (sid : String)
    (hfresh : ∀ a ∈ actors, strictEq (a.getOpt "_id") (.str sid) = false)
    (hstored : stored.getOpt "_id" = .str sid) :
    (actors ++ [stored]).map (fun a => if strictEq (a.getOpt "_id") (.str sid) then c2 else a)
      = actors ++ [c2] := by
  rw [List.map_append]
  congr 1
  · calc actors.map (fun a => if strictEq (a.getOpt "_id") (.str sid) then c2 else a)
        = actors.map (fun a => a) := List.map_congr_left (fun a ha => by simp [hfresh a ha])
      _ = actors := List.map_id' _
  · simp [hstored, strictEq]

/-! ## C8: importing the same document twice -/

/-- C8: with the fake storage, for a document that parses, whose import reaches the
commit and whose key is a string that no stored record has as its import id, the first
run creates a record and the second run finds it by its import id and issues an
update with the storage identifier the record was given: the store then holds the
records it held before and the updated record, the only one with this import id. -/
theorem characterImport_twice (host : Host) (data : String) (s : ImportState)
    (characterData : JsVal) (prep : JsVal × List JsVal × List JsVal) (key : String)
    (ds : Fields) (actors : List JsVal)
    (hparse : host.xmlToJs data = .ok characterData)
    (hprep : prepareCharacter characterData = .ok prep)
    (hkey : characterData.getPath ["Character", "Key"] = .ok (.str key))
    (hdoc : PhasesReadable characterData)
    (hcreate : host.actorCreate = Examples.fakeCreate)
    (hupdate : host.actorUpdate = Examples.fakeUpdate)
    (hdata : s.game.data = .obj ds)
    (hactors : lookupField "actors" ds = some (.arr actors))
    (hnone : ∀ a ∈ actors, hasImportId (.str key) a = .ok false)
    (hfresh : ∀ a ∈ actors,
      strictEq (a.getOpt "_id") (.str ("actor" ++ toString actors.length)) = false) :
    ∃ c1 c2,
      (characterImport host data s).storage = s.storage ++ [.create c1]
      ∧ (characterImport host data (characterImport host data s)).storage
        = s.storage ++ [.create c1, .update c2]
      ∧ c2.getOpt "_id" = .str ("actor" ++ toString actors.length)
      ∧ hasImportId (.str key) c2 = .ok true
      ∧ (characterImport host data (characterImport host data s)).game.data.getOpt "actors"
        = .arr (actors ++ [c2]) := by
  have hk' : (characterData.getOpt "Character").getOpt "Key" = .str key :=
    getOpt_of_getPath hkey
  -- the first run
  obtain ⟨s3, fs1, hg, hst, _, hchar, hflags, hbody⟩ :=
    characterImportBody_commit host data s characterData (.str key) prep hparse hprep hkey hdoc
  have hd3 : s3.game.data = .obj ds := by rw [hg]; exact hdata
  have hfind1 : findActor s3.game.data ((characterData.getOpt "Character").getOpt "Key")
      = .ok .undef := by
    rw [hd3, hk', findActor_eq ds actors _ hactors]
    exact arrayFind_none _ _ hnone
  have hc1 := fakeCreate_eq ds fs1 actors hactors
  rw [← hd3, ← hcreate] at hc1
  obtain ⟨hok1, hsto1, hgame1⟩ := commitCharacter_create host characterData s3 fs1 .undef _
    hchar hfind1 rfl hc1
  obtain ⟨hS1sto, hS1game⟩ := characterImport_of_body host data s s3 characterData hbody
  have hS1game := hS1game hok1
  -- the second run
  obtain ⟨s4, fs2, hg', hst', _, hchar', hflags', hbody'⟩ :=
    characterImportBody_commit host data (characterImport host data s) characterData
      (.str key) prep hparse hprep hkey hdoc
  have hact1 := lookupField_setField_self "actors" (.arr (actors
    ++ [.obj (setField "_id" (.str ("actor" ++ toString actors.length)) fs1)])) ds
  have hd4 : s4.game.data = .obj (setField "actors" (.arr (actors
      ++ [.obj (setField "_id" (.str ("actor" ++ toString actors.length)) fs1)])) ds) := by
    rw [hg', hS1game, hgame1]
  have hsid : (JsVal.obj (setField "_id" (.str ("actor" ++ toString actors.length))
      fs1)).getOpt "_id" = .str ("actor" ++ toString actors.length) :=
    getOpt_obj _ _ _ (lookupField_setField_self _ _ _)
  have hfind2 : findActor s4.game.data ((characterData.getOpt "Character").getOpt "Key")
      = .ok (.obj (setField "_id" (.str ("actor" ++ toString actors.length)) fs1)) := by
    rw [hd4, hk', findActor_eq _ _ _ hact1]
    exact arrayFind_first _ _ actors [] hnone (hasImportId_of_flags key _ (by
      rw [lookupField_setField]; simpa using hflags))
  have hu := fakeUpdate_eq _ (setField "_id" (.str ("actor" ++ toString actors.length)) fs2)
    _ (.str ("actor" ++ toString actors.length)) hact1 (lookupField_setField_self _ _ _)
  rw [fakeUpdate_map actors _ _ _ hfresh hsid, ← hd4, ← hupdate] at hu
  obtain ⟨hok2, hsto2, hgame2⟩ := commitCharacter_update host characterData s4 fs2 _ _
    hchar' hfind2 rfl (by rw [hsid]; exact hu)
  rw [hsid] at hsto2
  obtain ⟨hS2sto, hS2game⟩ := characterImport_of_body host data _ s4 characterData hbody'
  have hS2game := hS2game hok2
  refine ⟨.obj fs1, .obj (setField "_id" (.str ("actor" ++ toString actors.length)) fs2),
    ?_, ?_, ?_, ?_, ?_⟩
  · rw [hS1sto, hsto1, hst]
  · rw [hS2sto, hsto2, hst', hS1sto, hsto1, hst]
    simp
  · exact getOpt_obj _ _ _ (lookupField_setField_self _ _ _)
  · exact hasImportId_of_flags key _ (by rw [lookupField_setField]; simpa using hflags')
  · rw [hS2game, hgame2]
    exact getOpt_obj _ _ _ (lookupField_setField_self _ _ _)

/-- C8 at a document with the key `abc`, in a world without catalogs and actors: the
record created gets the identifier `actor0`, and the second run updates it. -/
theorem characterImport_twice_witness :
    ∃ c1 c2,
      (characterImport (Examples.host (Examples.document [])) ""
        (ImportState.initial (Examples.game []) .undef)).storage
        = (ImportState.initial (Examples.game []) .undef).storage ++ [.create c1]
      ∧ (characterImport (Examples.host (Examples.document [])) ""
          (characterImport (Examples.host (Examples.document [])) ""
            (ImportState.initial (Examples.game []) .undef))).storage
        = (ImportState.initial (Examples.game []) .undef).storage ++ [.create c1, .update c2]
      ∧ c2.getOpt "_id" = .str ("actor" ++ toString ([] : List JsVal).length)
      ∧ hasImportId (.str "abc") c2 = .ok true
      ∧ (characterImport (Examples.host (Examples.document [])) ""
          (characterImport (Examples.host (Examples.document [])) ""
            (ImportState.initial (Examples.game []) .undef))).game.data.getOpt "actors"
        = .arr ([] ++ [c2]) :=
  characterImport_twice (Examples.host (Examples.document [])) ""
    (ImportState.initial (Examples.game []) .undef) (Examples.document []) _ "abc"
    [("items", .arr []), ("actors", .arr [])] [] rfl rfl rfl
    ⟨⟨_, rfl⟩, ⟨_, rfl⟩, trivial, trivial, trivial⟩ rfl rfl rfl rfl (by decide) (by decide)

theorem getOpt_obj_eq (fs : Fields) (k : String) :
    (JsVal.obj fs).getOpt k = (lookupField k fs).getD .undef := by
  simp [getOpt, JsVal.get, pure, Except.pure]

theorem convertOGCharacteristic_code (k : String) (hk : k ∈ characteristicCodes) :
    convertOGCharacteristic (.str k) = .str (characteristicName k) := by
  simp only [characteristicCodes, List.mem_cons, List.mem_singleton, List.not_mem_nil,
    or_false] at hk
  rcases hk with rfl | rfl | rfl | rfl | rfl | rfl <;> rfl

theorem characteristicName_ne (k : String) : characteristicName k ≠ "" := by
  unfold characteristicName
  split_ifs <;> decide

/-! ## C23: `CONFIG.temporary` after an import -/

/-- C23: whatever the input and whatever happened during the run, `CONFIG.temporary`
is the empty object when `characterImport` has finished. -/
theorem characterImport_clears_temporary (host : Host) (data : String) (s : ImportState) :
    (characterImport host data s).temporary = .obj [] := rfl

/-! ## Integers and their decimal text -/

theorem digitChar_digit (d : Nat) (h : d < 10) :
    digit? (Nat.digitChar d) = some d ∧ isJsSpace (Nat.digitChar d) = false
      ∧ Nat.digitChar d ≠ '-' ∧ Nat.digitChar d ≠ '+' := by
  interval_cases d <;> decide

theorem readDigits_toDigitsCore : ∀ (f n : Nat) (ds : List Char), n < f →
    ∃ k, ∀ a s, readDigits (Nat.toDigitsCore 10 f n ds) a s
      = readDigits ds (a * 10 ^ k + n) true := by
  intro f
  induction f with
  | zero => intro n ds h; omega
  | succ f ih =>
    intro n ds h
    have hd := (digitChar_digit (n % 10) (Nat.mod_lt _ (by decide))).1
    by_cases h0 : n / 10 = 0
    · refine ⟨1, fun a s => ?_⟩
      have hn : n % 10 = n := Nat.mod_eq_of_lt (by omega)
      simp only [Nat.toDigitsCore, h0, if_true, readDigits, hd, pow_one]
      rw [hn, Nat.mul_comm]
    · obtain ⟨k, hk⟩ := ih (n / 10) (Nat.digitChar (n % 10) :: ds) (by omega)
      refine ⟨k + 1, fun a s => ?_⟩
      simp only [Nat.toDigitsCore, h0, if_false, hk, readDigits, hd]
      congr 1
      rw [pow_succ, ← Nat.mul_assoc]
      generalize a * 10 ^ k = x
      omega

theorem toDigitsCore_head : ∀ (f n : Nat) (ds : List Char), 0 < f →
    ∃ d rest, d < 10 ∧ Nat.toDigitsCore 10 f n ds = Nat.digitChar d :: rest := by
  intro f
  induction f with
  | zero => intro n ds h; omega
  | succ f ih =>
    intro n ds _
    by_cases h0 : n / 10 = 0
    · exact ⟨n % 10, ds, Nat.mod_lt _ (by decide), by simp [Nat.toDigitsCore, h0]⟩
    · cases f with
      | zero =>
        exact ⟨n % 10, ds, Nat.mod_lt _ (by decide), by simp [Nat.toDigitsCore]⟩
      | succ f =>
        obtain ⟨d, rest, hd, hr⟩ := ih (n / 10) (Nat.digitChar (n % 10) :: ds) (by omega)
        exact ⟨d, rest, hd, by simp only [Nat.toDigitsCore, h0, if_false] at hr ⊢; exact hr⟩

theorem excessBits_small (fuel m : Nat) (h : m < 2 ^ 53) : excessBits fuel m = 0 := by
  cases fuel with
  | zero => rfl
  | succ fuel => simp only [excessBits, h, if_true]

theorem nearestDouble_small (m : Nat) (h : m < 2 ^ 53) : nearestDouble m = m := by
  simp [nearestDouble, excessBits_small m m h, Nat.mod_one]

/-- A safe integer is the number it is. -/
theorem toDouble_safe (n : Int) (h : isSafe n) : toDouble n = n := by
  obtain ⟨hlo, hhi⟩ := h
  cases n with
  | ofNat m =>
    have hm : m < 2 ^ 53 := by
      have : (m : Int) < 2 ^ 53 := hhi
      exact_mod_cast this
    simp only [toDouble, nearestDouble_small m hm]
    rfl
  | negSucc m =>
    have hm : m + 1 < 2 ^ 53 := by
      have : -(2 ^ 53 : Int) < -((m : Int) + 1) := by
        rw [Int.negSucc_eq] at hlo; exact hlo
      have h2 : ((m + 1 : Nat) : Int) < 2 ^ 53 := by push_cast; omega
      exact_mod_cast h2
    simp only [toDouble, nearestDouble_small (m + 1) hm]
    rw [Int.negSucc_eq]
    push_cast
    rfl

theorem readInteger_toDigits (m : Nat) :
    readInteger (Nat.toDigits 10 m) = .num m
      ∧ (Nat.toDigits 10 m).dropWhile isJsSpace = Nat.toDigits 10 m
      ∧ readDigits (Nat.toDigits 10 m) 0 false = (m, true) := by
  obtain ⟨k, hk⟩ := readDigits_toDigitsCore (m + 1) m [] (by omega)
  obtain ⟨d, rest, hd, hr⟩ := toDigitsCore_head (m + 1) m [] (by omega)
  obtain ⟨_, hsp, hminus, hplus⟩ := digitChar_digit d hd
  have hread : readDigits (Nat.toDigits 10 m) 0 false = (m, true) := by
    rw [Nat.toDigits, hk]; simp [readDigits]
  refine ⟨?_, ?_, hread⟩
  · rw [Nat.toDigits, hr] at hread ⊢
    rw [readInteger.eq_3 _ (fun cs h => hminus (List.cons.inj h).1)
      (fun cs h => hplus (List.cons.inj h).1), hread]
  · rw [Nat.toDigits, hr, List.dropWhile_cons, hsp]; rfl

/-- The call `parseInt(text, 10)` on the decimal text of an integer gives the double
nearest to the integer. -/
theorem parseInt10_toString (n : Int) :
    parseInt10 (.str (toString n)) = .num (toDouble n) := by
  cases n with
  | ofNat m =>
    obtain ⟨hp, hdrop, _⟩ := readInteger_toDigits m
    show parseIntChars ((Nat.toDigits 10 m).dropWhile isJsSpace) = _
    rw [hdrop, parseIntChars, hp]; rfl
  | negSucc m =>
    obtain ⟨_, _, hread⟩ := readInteger_toDigits (m + 1)
    show parseIntChars (('-' :: Nat.toDigits 10 (m + 1)).dropWhile isJsSpace) = _
    rw [List.dropWhile_cons, if_neg (by decide)]
    simp only [parseIntChars, readInteger, hread]
    rfl

/-! ## C28: descriptors of a characteristic -/

/-- C28 (as amended): for a descriptor whose key is one of the six characteristic codes
and not a key of the skill name table, `getBaseModAttributeObject` returns the modtype
"Characteristic", the display name of the characteristic as mod, and as value the
count of the descriptor: `parseInt(Count, 10)`, which is `c` when `Count` is the safe
integer `c` or its decimal text, and 0 when there is no `Count`. -/
theorem getBaseModAttributeObject_characteristic (temporary mod : JsVal) (table : Fields)
    (k : String)
    (hskills : temporary.getOpt "skills" = .obj table)
    (hkey : mod.getOpt "Key" = .str k)
    (hcode : k ∈ characteristicCodes)
    (hskill : k ∉ table.map Prod.fst) :
    getBaseModAttributeObject temporary mod
        = .ok (modResult (characteristicName k) "Characteristic" (countOf mod))
      ∧ (mod.getOpt "Count" = .undef → countOf mod = .num 0)
      ∧ ∀ c : Int, isSafe c →
          mod.getOpt "Count" = .num c ∨ mod.getOpt "Count" = .str (toString c) →
          countOf mod = .num c := by
  have hmod : mod.nullish = false := nullish_of_getOpt (by rw [hkey]; rfl)
  have htemp : temporary.nullish = false := nullish_of_getOpt (by rw [hskills]; rfl)
  have henc : k ≠ "ENCTADD" := by
    intro h; subst h; revert hcode; decide
  have hname : (JsVal.str (characteristicName k)).truthy = true := by
    simp [truthy, characteristicName_ne]
  refine ⟨?_, ?_, ?_⟩
  · have h2 : decide (k ∈ table.map Prod.fst) = false := by simpa using hskill
    have h3 : (JsVal.str k).strictEq (.str "ENCTADD") = false := by simp [strictEq, henc]
    have h1 : (JsVal.str k).includedIn ["BR", "AG", "INT", "CUN", "WIL", "PR"] = true := by
      simp only [includedIn, decide_eq_true_eq]; exact hcode
    simp only [getBaseModAttributeObject, get_eq_getOpt hmod, get_eq_getOpt htemp, hkey,
      hskills, JsVal.keys, nullish, ownFields, bind, Except.bind, pure, Except.pure, h1, h3,
      Bool.false_eq_true, if_false, if_true, convertOGCharacteristic_code k hcode, hname,
      modResult, countOf]
    simp only [includedIn, h2, Bool.false_eq_true, if_false, hname, if_true]
  · intro h; simp [countOf, h, truthy]
  · intro c hsafe h
    rcases h with h | h
    · by_cases hc : c = 0
      · simp [countOf, h, truthy, hc]
      · simp [countOf, h, truthy, hc, parseInt10]
    · have hne : toString c ≠ "" := by
        intro he
        have := parseInt10_toString c
        have h0 : parseInt10 (.str "") = .nan := by decide
        rw [he, h0] at this
        cases this
      simp only [countOf, h, truthy_str, bne_iff_ne, ne_eq, hne, not_false_eq_true, if_true,
        parseInt10_toString c, toDouble_safe c hsafe]

theorem mem_keys_of_lookupField {k : String} {fs : Fields} {x : JsVal}
    (h : lookupField k fs = some x) : k ∈ fs.map Prod.fst := by
  by_contra hc
  rw [(lookupField_eq_none_iff k fs).mpr hc] at h
  cases h

theorem getBaseModAttributeObject_skill (temporary mod : JsVal) (table : Fields)
    (k : String) (name : JsVal)
    (hskills : temporary.getOpt "skills" = .obj table)
    (hkey : mod.getOpt "Key" = .str k)
    (hname : lookupField k table = some name) (hne : name.truthy = true)
    (henc : k ≠ "ENCTADD") :
    getBaseModAttributeObject temporary mod
      = .ok (.obj [("type", name), ("value", .obj [("mod", name),
          ("modtype", (skillModifier mod (countOf mod)).1),
          ("value", (skillModifier mod (countOf mod)).2)])]) := by
  have hmod : mod.nullish = false := nullish_of_getOpt (by rw [hkey]; rfl)
  have htemp : temporary.nullish = false := nullish_of_getOpt (by rw [hskills]; rfl)
  have h2 : (JsVal.str k).includedIn (table.map Prod.fst) = true := by
    simp only [includedIn, decide_eq_true_eq]; exact mem_keys_of_lookupField hname
  have h3 : (JsVal.str k).strictEq (.str "ENCTADD") = false := by simp [strictEq, henc]
  have hs : (JsVal.str k).toStr = k := by simp [toStr]
  have hg : (JsVal.obj table).get k = .ok name := by
    simp [JsVal.get, hname, pure, Except.pure]
  simp only [getBaseModAttributeObject, get_eq_getOpt hmod, get_eq_getOpt htemp, hkey,
    hskills, JsVal.keys, nullish, ownFields, bind, Except.bind, pure, Except.pure, h2, h3, hs,
    hg, Bool.false_eq_true, if_false, if_true, hne, countOf]
  split <;> rfl

/-! ## C24: a boost count, and a failure count after it -/

/-- C24 (as amended): for a key `k` of the skill name table other than `ENCTADD` whose
name `name` is not empty, and a descriptor with the key `k` that is not marked career
and whose only die count is a `BoostCount` of `n`, `getBaseModAttributeObject` returns
the modtype "Skill Boost" with the value `n`; for the same descriptor with a
`FailureCount` of `m` it returns the modtype "Skill Add Failure" with the value `m`. In
both the mod is `name`. -/
theorem getBaseModAttributeObject_boost_failure (temporary : JsVal) (table fs : Fields)
    (k name : String) (boost failure : JsVal) (n m : Int)
    (hskills : temporary.getOpt "skills" = .obj table)
    (hname : lookupField k table = some (.str name)) (hne : name ≠ "")
    (henc : k ≠ "ENCTADD")
    (hkey : lookupField "Key" fs = some (.str k))
    (hcareer : lookupField "SkillIsCareer" fs = none)
    (hboost : lookupField "BoostCount" fs = some boost)
    (hn : boost.truthy = true) (hparse : parseInt10 boost = .num n)
    (hm : failure.truthy = true) (hparse' : parseInt10 failure = .num m)
    (h1 : lookupField "SetbackCount" fs = none)
    (h2 : lookupField "AddSetbackCount" fs = none)
    (h3 : lookupField "AdvantageCount" fs = none)
    (h4 : lookupField "ThreatCount" fs = none)
    (h5 : lookupField "SuccessCount" fs = none)
    (h6 : lookupField "FailureCount" fs = none) :
    getBaseModAttributeObject temporary (.obj fs)
        = .ok (modResult name "Skill Boost" (.num n))
      ∧ getBaseModAttributeObject temporary (.obj (setField "FailureCount" failure fs))
        = .ok (modResult name "Skill Add Failure" (.num m)) := by
  have hname' : (JsVal.str name).truthy = true := by simp [truthy, hne]
  constructor
  · rw [getBaseModAttributeObject_skill temporary _ table k (.str name) hskills
      (by rw [getOpt_obj_eq, hkey]; rfl) hname hname' henc]
    simp [skillModifier, dieCountModifier, getOpt_obj_eq, hcareer, hboost, hn, hparse, h1, h2,
      h3, h4, h5, h6, truthy_undef, modResult, Id.run]
  · rw [getBaseModAttributeObject_skill temporary _ table k (.str name) hskills
      (by rw [getOpt_obj_eq, lookupField_setField, hkey]; rfl) hname hname' henc]
    simp [skillModifier, dieCountModifier, getOpt_obj_eq, lookupField_setField, hcareer, hboost,
      hn, hparse, hm, hparse', h1, h2, h3, h4, h5, truthy_undef, modResult, Id.run]

/-- C24 at the skill `ATHL` with a boost count of 2 and a failure count of 1. -/
theorem getBaseModAttributeObject_boost_failure_witness :
    getBaseModAttributeObject Examples.temporary
        (.obj [("Key", .str "ATHL"), ("BoostCount", .str "2")])
        = .ok (modResult "Athletics" "Skill Boost" (.num 2))
      ∧ getBaseModAttributeObject Examples.temporary
          (.obj (setField "FailureCount" (.str "1")
            [("Key", .str "ATHL"), ("BoostCount", .str "2")]))
        = .ok (modResult "Athletics" "Skill Add Failure" (.num 1)) :=
  getBaseModAttributeObject_boost_failure Examples.temporary
    [("ATHL", .str "Athletics"), ("BRAWL", .str "Brawl")]
    [("Key", .str "ATHL"), ("BoostCount", .str "2")] "ATHL" "Athletics" (.str "2") (.str "1")
    2 1 rfl rfl (by decide) (by decide) rfl rfl rfl (by decide) (by decide) (by decide)
    (by decide) rfl rfl rfl rfl rfl rfl

/-- C24 as stated fails for two keys of a skill name table: when `ENCTADD` is a key of
the table, its descriptor with a boost count of 2 gets the modtype "Stat" and the mod
"Encumbrance" (lines 294-298), and for a skill whose name is the empty string there is
no result (line 300). -/
theorem getBaseModAttributeObject_boost_overridden :
    getBaseModAttributeObject (.obj [("skills", .obj [("ENCTADD", .str "Enc")])])
        (.obj [("Key", .str "ENCTADD"), ("BoostCount", .str "2")])
      = .ok (modResult "Encumbrance" "Stat" (.num 2))
    ∧ getBaseModAttributeObject (.obj [("skills", .obj [("ATHL", .str "")])])
        (.obj [("Key", .str "ATHL"), ("BoostCount", .str "2")]) = .ok .undef := by
  decide

/-- C28 at the descriptor `{Key: "AG", Count: "2"}`. -/
theorem getBaseModAttributeObject_characteristic_witness :
    getBaseModAttributeObject Examples.temporary (.obj [("Key", .str "AG"), ("Count", .str "2")])
        = .ok (modResult (characteristicName "AG") "Characteristic"
          (countOf (.obj [("Key", .str "AG"), ("Count", .str "2")])))
      ∧ ((JsVal.obj [("Key", .str "AG"), ("Count", .str "2")]).getOpt "Count" = .undef →
        countOf (.obj [("Key", .str "AG"), ("Count", .str "2")]) = .num 0)
      ∧ ∀ c : Int, isSafe c →
          (JsVal.obj [("Key", .str "AG"), ("Count", .str "2")]).getOpt "Count" = .num c
            ∨ (JsVal.obj [("Key", .str "AG"), ("Count", .str "2")]).getOpt "Count"
              = .str (toString c) →
          countOf (.obj [("Key", .str "AG"), ("Count", .str "2")]) = .num c :=
  getBaseModAttributeObject_characteristic Examples.temporary
    (.obj [("Key", .str "AG"), ("Count", .str "2")])
    [("ATHL", .str "Athletics"), ("BRAWL", .str "Brawl")] "AG" rfl rfl (by decide) (by decide)

/-- C28 as stated fails when a characteristic code is a key of the skill name table as
well: the block for skills (lines 255-292) runs after the block for characteristics
and replaces the modtype and the name. -/
theorem getBaseModAttributeObject_characteristic_overridden :
    getBaseModAttributeObject (.obj [("skills", .obj [("BR", .str "Brawl")])])
        (.obj [("Key", .str "BR"), ("Count", .str "2")])
      = .ok (modResult "Brawl" "Skill Rank" (.num 2)) := by
  decide

theorem includedIn_eq_true {v : JsVal} {names : List String} (h : v.includedIn names = true) :
    ∃ k, v = .str k ∧ k ∈ names := by
  cases v <;> simp [includedIn] at h
  exact ⟨_, rfl, h⟩

theorem lookupField_of_mem_keys {k : String} : ∀ {fs : Fields}, k ∈ fs.map Prod.fst →
    ∃ x, lookupField k fs = some x ∧ (k, x) ∈ fs := by
  intro fs h
  obtain ⟨x, hx, hl⟩ := lookupField_prefix k fs [] h
  exact ⟨x, by simpa using hl, hx⟩

theorem getBaseModAttributeObject_other (temporary mod : JsVal) (table : Fields)
    (hskills : temporary.getOpt "skills" = .obj table) (hmod : mod.nullish = false)
    (hskill : (mod.getOpt "Key").includedIn (table.map Prod.fst) = false) :
    getBaseModAttributeObject temporary mod
      = .ok (if (mod.getOpt "Key").strictEq (.str "ENCTADD") = true then
          modResult "Encumbrance" "Stat" (countOf mod)
        else if (convertOGCharacteristic (mod.getOpt "Key")).truthy = true
            ∧ (mod.getOpt "Key").includedIn characteristicCodes = true then
          .obj [("type", convertOGCharacteristic (mod.getOpt "Key")),
            ("value", .obj [("mod", convertOGCharacteristic (mod.getOpt "Key")),
              ("modtype", .str "Characteristic"), ("value", countOf mod)])]
        else .undef) := by
  have htemp : temporary.nullish = false := nullish_of_getOpt (by rw [hskills]; rfl)
  simp only [getBaseModAttributeObject, get_eq_getOpt hmod, get_eq_getOpt htemp,
    hskills, JsVal.keys, nullish, ownFields, bind, Except.bind, pure, Except.pure, hskill,
    Bool.false_eq_true, if_false, countOf, modResult, characteristicCodes]
  by_cases h3 : (mod.getOpt "Key").strictEq (.str "ENCTADD") = true
  · simp [h3, truthy]
  · by_cases h1 : (mod.getOpt "Key").includedIn ["BR", "AG", "INT", "CUN", "WIL", "PR"] = true
    · by_cases ht : (convertOGCharacteristic (mod.getOpt "Key")).truthy = true
      · simp [h3, h1, ht]
      · simp [h3, h1, ht]
    · simp [h3, h1, truthy_undef]

theorem getBaseModAttributeObject_encumbrance (temporary mod : JsVal) (table : Fields)
    (hskills : temporary.getOpt "skills" = .obj table)
    (hkey : mod.getOpt "Key" = .str "ENCTADD") :
    ∃ r, getBaseModAttributeObject temporary mod = .ok r ∧ r.truthy = true := by
  have hmod : mod.nullish = false := nullish_of_getOpt (by rw [hkey]; rfl)
  have htemp : temporary.nullish = false := nullish_of_getOpt (by rw [hskills]; rfl)
  have hs : ∀ k, (JsVal.obj table).get k = .ok ((JsVal.obj table).getOpt k) :=
    fun k => get_eq_getOpt (v := JsVal.obj table) rfl k
  have h3 : (JsVal.str "ENCTADD").strictEq (.str "ENCTADD") = true := by decide
  have h1 : (JsVal.str "ENCTADD").includedIn ["BR", "AG", "INT", "CUN", "WIL", "PR"] = false := by
    decide
  have ht : (JsVal.str "Encumbrance").truthy = true := by decide
  simp only [getBaseModAttributeObject, get_eq_getOpt hmod, get_eq_getOpt htemp, hkey,
    hskills, hs, JsVal.keys, nullish, ownFields, bind, Except.bind, pure, Except.pure, h3, h1,
    ht, Bool.false_eq_true, if_false, if_true]
  split <;> exact ⟨_, rfl, rfl⟩

/-! ## C29: the keys `getBaseModAttributeObject` knows -/

/-- C29 (as amended): with a skill name table whose names are truthy (not empty),
`getBaseModAttributeObject` returns a result exactly when the key of the descriptor is
one of the six characteristic codes, a key of the table, or `ENCTADD`; for every other
key it returns `undefined`; and for `ENCTADD`, when it is not a key of the table, the
result has the mod "Encumbrance", the modtype "Stat" and the count of the descriptor as
value. -/
theorem getBaseModAttributeObject_recognised (temporary mod : JsVal) (table : Fields)
    (hskills : temporary.getOpt "skills" = .obj table)
    (htable : ∀ p ∈ table, p.2.truthy = true)
    (hmod : mod.nullish = false) :
    ∃ r, getBaseModAttributeObject temporary mod = .ok r
      ∧ (r.truthy = true ↔ recognised table (mod.getOpt "Key"))
      ∧ (¬ recognised table (mod.getOpt "Key") → r = .undef)
      ∧ (mod.getOpt "Key" = .str "ENCTADD" → "ENCTADD" ∉ table.map Prod.fst →
          r = modResult "Encumbrance" "Stat" (countOf mod)) := by
  by_cases h2 : (mod.getOpt "Key").includedIn (table.map Prod.fst) = true
  · obtain ⟨k, hk, hmem⟩ := includedIn_eq_true h2
    obtain ⟨name, hname, hin⟩ := lookupField_of_mem_keys hmem
    have hne := htable (k, name) hin
    have hrec : recognised table (mod.getOpt "Key") := Or.inr (Or.inl h2)
    by_cases henc : k = "ENCTADD"
    · subst henc
      obtain ⟨r, hr, ht⟩ := getBaseModAttributeObject_encumbrance temporary mod table hskills hk
      exact ⟨r, hr, ⟨fun _ => hrec, fun _ => ht⟩, fun h => absurd hrec h,
        fun _ h => absurd hmem h⟩
    · refine ⟨_, getBaseModAttributeObject_skill temporary mod table k name hskills hk hname
        hne henc, ⟨fun _ => hrec, fun _ => rfl⟩, fun h => absurd hrec h, ?_⟩
      intro h; rw [hk] at h; cases h; exact absurd rfl henc
  · simp only [Bool.not_eq_true] at h2
    refine ⟨_, getBaseModAttributeObject_other temporary mod table hskills hmod h2, ?_, ?_, ?_⟩
    · by_cases h3 : (mod.getOpt "Key").strictEq (.str "ENCTADD") = true
      · rw [if_pos h3]
        exact ⟨fun _ => Or.inr (Or.inr (strictEq_str.mp h3)), fun _ => rfl⟩
      · rw [if_neg h3]
        by_cases h1 : (mod.getOpt "Key").includedIn characteristicCodes = true
        · obtain ⟨k, hk, hmem⟩ := includedIn_eq_true h1
          have hc := convertOGCharacteristic_code k hmem
          have ht : (JsVal.str (characteristicName k)).truthy = true := by
            simp [truthy_str, characteristicName_ne]
          rw [hk, hc, if_pos ⟨ht, hk ▸ h1⟩]
          exact ⟨fun _ => Or.inl (hk ▸ h1), fun _ => rfl⟩
        · rw [if_neg (fun h => h1 h.2)]
          constructor
          · intro h; cases h
          · rintro (h | h | h)
            · exact absurd h h1
            · rw [h2] at h; cases h
            · exact absurd (strictEq_str.mpr h) h3
    · intro hnot
      have h3 : ¬ (mod.getOpt "Key").strictEq (.str "ENCTADD") = true :=
        fun h => hnot (Or.inr (Or.inr (strictEq_str.mp h)))
      have h1 : ¬ (mod.getOpt "Key").includedIn characteristicCodes = true :=
        fun h => hnot (Or.inl h)
      rw [if_neg h3, if_neg (fun h => h1 h.2)]
    · intro h _
      rw [if_pos (strictEq_str.mpr h)]

/-- C29 at a descriptor with the key `ENCTADD` and the count 3. -/
theorem getBaseModAttributeObject_recognised_witness :
    ∃ r, getBaseModAttributeObject Examples.temporary
        (.obj [("Key", .str "ENCTADD"), ("Count", .str "3")]) = .ok r
      ∧ (r.truthy = true ↔ recognised [("ATHL", .str "Athletics"), ("BRAWL", .str "Brawl")]
          ((JsVal.obj [("Key", .str "ENCTADD"), ("Count", .str "3")]).getOpt "Key"))
      ∧ (¬ recognised [("ATHL", .str "Athletics"), ("BRAWL", .str "Brawl")]
          ((JsVal.obj [("Key", .str "ENCTADD"), ("Count", .str "3")]).getOpt "Key") → r = .undef)
      ∧ ((JsVal.obj [("Key", .str "ENCTADD"), ("Count", .str "3")]).getOpt "Key"
            = .str "ENCTADD" →
          "ENCTADD" ∉ ([("ATHL", .str "Athletics"), ("BRAWL", .str "Brawl")] : Fields).map Prod.fst →
          r = modResult "Encumbrance" "Stat"
            (countOf (.obj [("Key", .str "ENCTADD"), ("Count", .str "3")]))) :=
  getBaseModAttributeObject_recognised Examples.temporary
    (.obj [("Key", .str "ENCTADD"), ("Count", .str "3")])
    [("ATHL", .str "Athletics"), ("BRAWL", .str "Brawl")] rfl (by decide) rfl

/-- C29 as stated fails in two places: a key of the skill name table whose name is the
empty string gets no result, and when `ENCTADD` is a key of the table the value of its
result is the boost count 5, not the count 3 of the descriptor. -/
theorem getBaseModAttributeObject_unnamed_skill :
    recognised [("ATHL", .str "")] (.str "ATHL")
    ∧ getBaseModAttributeObject (.obj [("skills", .obj [("ATHL", .str "")])])
        (.obj [("Key", .str "ATHL")]) = .ok .undef
    ∧ getBaseModAttributeObject (.obj [("skills", .obj [("ENCTADD", .str "Enc")])])
        (.obj [("Key", .str "ENCTADD"), ("Count", .str "3"), ("BoostCount", .str "5")])
      = .ok (modResult "Encumbrance" "Stat" (.num 5))
    ∧ countOf (.obj [("Key", .str "ENCTADD"), ("Count", .str "3"), ("BoostCount", .str "5")])
      = .num 3 :=
  ⟨Or.inr (Or.inl (by decide)), by decide, by decide, by decide⟩

theorem truthy_of_hasImportId {id x : JsVal} {b : Bool} (h : hasImportId id x = .ok b) :
    x.truthy = true := by
  have hi : index? "flags" = none := by decide
  cases x <;> first
    | rfl
    | simp [hasImportId, getPath, JsVal.get, hi, bind, Except.bind, pure, Except.pure, throw,
        throwThe, MonadExceptOf.throw] at h

/-! ## C30: lookups among the local entities -/

/-- C30: when the local collection `game.data[type]` is an array, `findEntityByImportId`
returns its first element with the import id `id`, and `undefined` when no element has
it; and when the element found is a local item, `findCompendiumEntityByImportId`
returns it, for every type and catalog hint, and leaves `CONFIG.temporary` as it is. -/
theorem findEntityByImportId_first (game : Game) (type : String) (id : JsVal)
    (items : List JsVal) (hcoll : game.data.get type = .ok (.arr items)) :
    (∀ pre x post, items = pre ++ x :: post →
      (∀ y ∈ pre, hasImportId id y = .ok false) → hasImportId id x = .ok true →
      findEntityByImportId game type id = .ok x
        ∧ (type = "items" → ∀ (t : String) (packId temporary : JsVal),
            findCompendiumEntityByImportId game t id packId temporary = (.ok x, temporary)))
    ∧ ((∀ y ∈ items, hasImportId id y = .ok false) →
      findEntityByImportId game type id = .ok .undef) := by
  constructor
  · intro pre x post hitems hpre hx
    have hfind : findEntityByImportId game type id = .ok x := by
      simp only [findEntityByImportId, hcoll, asArray, bind, Except.bind, pure, Except.pure,
        hitems]
      exact arrayFind_first _ x pre post hpre hx
    refine ⟨hfind, ?_⟩
    intro htype t packId temporary
    subst htype
    simp only [findCompendiumEntityByImportId, Eff.bind_apply, Eff.lift, hfind,
      truthy_of_hasImportId hx, if_true, Eff.pure_apply]
  · intro hnone
    simp only [findEntityByImportId, hcoll, asArray, bind, Except.bind, pure, Except.pure]
    exact arrayFind_none _ _ hnone

/-- C30 in a world with three items, of which the second and the third have the id. -/
theorem findEntityByImportId_first_witness :
    findEntityByImportId Examples.localItems "items" (.str "HUMAN")
        = .ok (Examples.record "i2" "HUMAN" [])
      ∧ ("items" = "items" → ∀ (t : String) (packId temporary : JsVal),
          findCompendiumEntityByImportId Examples.localItems t (.str "HUMAN") packId temporary
            = (.ok (Examples.record "i2" "HUMAN" []), temporary)) :=
  (findEntityByImportId_first Examples.localItems "items" (.str "HUMAN") _ rfl).1
    [Examples.record "i1" "TWILEK" []] (Examples.record "i2" "HUMAN" [])
    [Examples.record "i3" "HUMAN" []] rfl (by decide) (by decide)

/-! ## C26: the upgrades of a force power -/

/-- C26 (code bug): the ability at position 4 has `Purchased` "false", which the
filter of the force powers does not count as purchased, and the overlay marks the
upgrade 0 of the item as learned. -/
theorem upgradeLoop_marks_unpurchased :
    hasPurchasedAbility (.obj [("ForceAbilities", .obj [("CharForceAbility",
        .arr [.obj [("Key", .str "SENSE4"), ("Purchased", .str "false")]])])]) = .ok false
    ∧ ((Examples.senseItem.jsonCopy.toOption.bind
        (fun force => force.at? ["data", "upgrades", "upgrade0", "islearned"]))
      = some (.bool false))
    ∧ (((importForcePower [Examples.sensePower] Examples.sensePower
          { ImportState.initial (Examples.game [Examples.pack "world.force" "Item" false
              [Examples.senseItem]]) (.obj []) with character := .obj [("items", .arr [])] }).2
        ).character.at? ["items"])
      = some (.arr [Examples.record "f1" "SENSE"
          [("upgrades", .obj [("upgrade0", .obj [("islearned", .bool true)])])]]) := by
  decide

theorem mem_replaceField (k : String) (x : JsVal) : ∀ (fs : Fields) (p : String × JsVal),
    p ∈ replaceField k x fs → p = (k, x) ∨ p ∈ fs := by
  intro fs
  induction fs with
  | nil => intro p h; simp [replaceField] at h
  | cons q rest ih =>
    intro p h
    obtain ⟨l, v⟩ := q
    simp only [replaceField] at h
    split at h
    · rcases List.mem_cons.mp h with h | h
      · exact Or.inl h
      · exact Or.inr (List.mem_cons_of_mem _ h)
    · rcases List.mem_cons.mp h with h | h
      · exact Or.inr (h ▸ List.mem_cons_self _ _)
      · rcases ih p h with h | h
        · exact Or.inl h
        · exact Or.inr (List.mem_cons_of_mem _ h)

theorem mem_insertIndexField (i : Nat) (k : String) (x : JsVal) :
    ∀ (fs : Fields) (p : String × JsVal),
    p ∈ insertIndexField i k x fs → p = (k, x) ∨ p ∈ fs := by
  intro fs
  induction fs with
  | nil => intro p h; simp [insertIndexField] at h; exact Or.inl h
  | cons q rest ih =>
    intro p h
    obtain ⟨l, v⟩ := q
    simp only [insertIndexField] at h
    split at h
    · split at h
      · rcases List.mem_cons.mp h with h | h
        · exact Or.inr (h ▸ List.mem_cons_self _ _)
        · rcases ih p h with h | h
          · exact Or.inl h
          · exact Or.inr (List.mem_cons_of_mem _ h)
      · rcases List.mem_cons.mp h with h | h
        · exact Or.inl h
        · exact Or.inr h
    · rcases List.mem_cons.mp h with h | h
      · exact Or.inl h
      · exact Or.inr h

theorem mem_setField (k : String) (x : JsVal) (fs : Fields) (p : String × JsVal)
    (h : p ∈ setField k x fs) : p = (k, x) ∨ p ∈ fs := by
  unfold setField at h
  split at h
  · exact mem_replaceField k x fs p h
  · split at h
    · exact mem_insertIndexField _ k x fs p h
    · rcases List.mem_append.mp h with h | h
      · exact Or.inr h
      · exact Or.inl (by simpa using h)

theorem flatAcc_setField (k : String) (x : JsVal) (acc : Fields) (hx : x.typeOf ≠ "object")
    (h : FlatAcc acc) : FlatAcc (setField k x acc) := by
  refine ⟨?_, nodup_setField k x acc h.2⟩
  intro p hp
  rcases mem_setField k x acc p hp with rfl | hp
  · exact hx
  · exact h.1 p hp

mutual
theorem recursiveObject_flatAcc : (o : JsVal) → (itemkey : String) → (acc : Fields) →
    FlatAcc acc → FlatAcc (recursiveObject o itemkey acc)
  | .obj fs, itemkey, acc, h => by
    simp only [recursiveObject]; exact recursiveFields_flatAcc fs itemkey acc h
  | .arr xs, itemkey, acc, h => by
    simp only [recursiveObject]; exact recursiveElems_flatAcc xs 0 itemkey acc h
  | .undef, _, _, h => by simpa [recursiveObject] using h
  | .null, _, _, h => by simpa [recursiveObject] using h
  | .bool _, _, _, h => by simpa [recursiveObject] using h
  | .num _, _, _, h => by simpa [recursiveObject] using h
  | .nan, _, _, h => by simpa [recursiveObject] using h
  | .str _, _, _, h => by simpa [recursiveObject] using h
  | .entity _, _, _, h => by simpa [recursiveObject] using h
  | .fn _, _, _, h => by simpa [recursiveObject] using h
theorem recursiveFields_flatAcc : (fs : List (String × JsVal)) → (itemkey : String) →
    (acc : Fields) → FlatAcc acc → FlatAcc (recursiveFields fs itemkey acc)
  | [], _, _, h => by simpa [recursiveFields] using h
  | (k, v) :: rest, itemkey, acc, h => by
    simp only [recursiveFields]
    split
    · exact recursiveFields_flatAcc rest itemkey _
        (recursiveObject_flatAcc v _ acc h)
    · next hne =>
      split
      · exact recursiveFields_flatAcc rest itemkey _ (flatAcc_setField _ v acc hne h)
      · exact recursiveFields_flatAcc rest itemkey acc h
theorem recursiveElems_flatAcc : (xs : List JsVal) → (i : Nat) → (itemkey : String) →
    (acc : Fields) → FlatAcc acc → FlatAcc (recursiveElems xs i itemkey acc)
  | [], _, _, _, h => by simpa [recursiveElems] using h
  | v :: rest, i, itemkey, acc, h => by
    simp only [recursiveElems]
    split
    · exact recursiveElems_flatAcc rest (i + 1) itemkey _
        (recursiveObject_flatAcc v _ acc h)
    · next hne =>
      split
      · exact recursiveElems_flatAcc rest (i + 1) itemkey _ (flatAcc_setField _ v acc hne h)
      · exact recursiveElems_flatAcc rest (i + 1) itemkey acc h
end

theorem buildUpdateDataLoop_flatAcc : ∀ (fs : List (String × JsVal)) (acc : Fields),
    FlatAcc acc → FlatAcc (buildUpdateDataLoop fs acc) := by
  intro fs
  induction fs with
  | nil => intro acc h; simpa [buildUpdateDataLoop] using h
  | cons p rest ih =>
    intro acc h
    obtain ⟨k, v⟩ := p
    simp only [buildUpdateDataLoop]
    split
    · exact ih _ (recursiveObject_flatAcc v k acc h)
    · next hne => exact ih _ (flatAcc_setField _ v acc hne h)

theorem data_append_cancel {a b : String} (h : "data." ++ a = "data." ++ b) : a = b := by
  have := congrArg String.data h
  simp only [String.data_append, List.append_cancel_left_eq] at this
  exact String.ext this

theorem buildUpdateDataLoop_prefixed : ∀ (fs acc : Fields),
    (∀ p ∈ fs, p.2.typeOf ≠ "object") → (fs.map Prod.fst).Nodup →
    (∀ k ∈ fs.map Prod.fst, "data." ++ k ∉ acc.map Prod.fst) →
    buildUpdateDataLoop fs acc = acc ++ fs.map prefixed := by
  intro fs
  induction fs with
  | nil => intro acc _ _ _; simp [buildUpdateDataLoop]
  | cons p rest ih =>
    intro acc hty hnd hfree
    obtain ⟨k, v⟩ := p
    have hv : v.typeOf ≠ "object" := hty (k, v) (List.mem_cons_self _ _)
    simp only [List.map_cons, List.nodup_cons] at hnd
    have hnot : "data." ++ k ∉ acc.map Prod.fst := hfree k (by simp)
    simp only [buildUpdateDataLoop, hv, if_false, setField_data_append k v acc hnot]
    rw [ih _ (fun q hq => hty q (List.mem_cons_of_mem _ hq)) hnd.2]
    · simp [prefixed, List.append_assoc]
    · intro k' hk' hmem
      simp only [List.map_append, List.map_cons, List.map_nil, List.mem_append,
        List.mem_singleton] at hmem
      rcases hmem with hmem | hmem
      · exact hfree k' (List.mem_cons_of_mem _ hk') hmem
      · exact hnd.1 (data_append_cancel hmem ▸ hk')

/-! ## C27: flattening a flat mapping -/

/-- C27, as amended: for a record whose `img` is not an object, the mapping `F` that
`buildUpdateData` returns has no value left to expand (no object, array or `null`),
and `buildUpdateData` on `F` as the data of a record returns the entries of `F` in
their order with their values, each key with one more prefix `data.`. -/
theorem buildUpdateData_of_flat (newItem : JsVal) (F : Fields)
    (h : buildUpdateData newItem = .ok (.obj F))
    (himg : (newItem.getOpt "img").typeOf ≠ "object") :
    (∀ p ∈ F, p.2.typeOf ≠ "object")
      ∧ buildUpdateData (.obj [("data", .obj F)]) = .ok (.obj (F.map prefixed)) := by
  have hflat : FlatAcc F := by
    simp only [buildUpdateData, bind, Except.bind, pure, Except.pure] at h
    cases hn : newItem.get "name" with
    | error e => simp [hn] at h
    | ok n =>
      have hnn := not_nullish_of_get hn
      simp only [hn, get_eq_getOpt hnn, Except.ok.injEq, JsVal.obj.injEq] at h
      rw [← h]
      apply buildUpdateDataLoop_flatAcc
      split
      · exact flatAcc_setField _ _ _ himg ⟨(fun p hp => by cases hp), by simp⟩
      · exact ⟨(fun p hp => by cases hp), by simp⟩
  refine ⟨hflat.1, ?_⟩
  have hloop := buildUpdateDataLoop_prefixed F [] hflat.1 hflat.2 (by simp)
  simp only [buildUpdateData, JsVal.get, lookupField, bind, Except.bind, pure, Except.pure,
    ownFields]
  simp [truthy_undef, hloop]

/-- C27, as amended, at the record with the data `{a: {b: 1, c: {d: 2}}}`. -/
theorem buildUpdateData_of_flat_witness :
    (∀ p ∈ ([("data.a.b", .num 1), ("data.a.c.d", .num 2)] : Fields), p.2.typeOf ≠ "object")
      ∧ buildUpdateData (.obj [("data", .obj [("data.a.b", .num 1), ("data.a.c.d", .num 2)])])
        = .ok (.obj (([("data.a.b", .num 1), ("data.a.c.d", .num 2)] : Fields).map prefixed)) :=
  buildUpdateData_of_flat Examples.nested _ (by decide) (by decide)

/-- C27 as stated fails: the flat mapping of `{a: {b: 1, c: {d: 2}}}` is
`{"data.a.b": 1, "data.a.c.d": 2}`, and flattening this mapping as the data of a
record gives `{"data.data.a.b": 1, "data.data.a.c.d": 2}`, not the mapping again. -/
theorem buildUpdateData_not_idempotent :
    buildUpdateData Examples.nested
        = .ok (.obj [("data.a.b", .num 1), ("data.a.c.d", .num 2)])
      ∧ buildUpdateData (.obj [("data", .obj [("data.a.b", .num 1), ("data.a.c.d", .num 2)])])
        = .ok (.obj [("data.data.a.b", .num 1), ("data.data.a.c.d", .num 2)])
      ∧ buildUpdateData (.obj [("data", .obj [("data.a.b", .num 1), ("data.a.c.d", .num 2)])])
        ≠ .ok (.obj [("data.a.b", .num 1), ("data.a.c.d", .num 2)]) := by
  decide

/-! ## The list of the images stored -/

theorem uploadImage_effect (host : Host) (images : ImageHost)
    (path serverPath filename : String) (s : ImportState) :
    (uploadImage host images path serverPath filename s).2.temporary = s.temporary
      ∧ ((uploadImage host images path serverPath filename s).2.uploads = s.uploads
        ∨ (uploadImage host images path serverPath filename s).2.uploads
          = s.uploads ++ [("data", serverPath, filename)]) := by
  simp only [uploadImage, Eff.bind_apply, Eff.zoom, Eff.lift, Eff.modify]
  cases verifyPath host "data" serverPath s.directories with
  | mk r d =>
    cases r with
    | error e => exact ⟨rfl, Or.inl rfl⟩
    | ok b =>
      simp only
      cases images.zipFile path with
      | error e => exact ⟨rfl, Or.inl rfl⟩
      | ok img =>
        simp only
        cases images.getMimeType (imageHeader img) with
        | error e => exact ⟨rfl, Or.inl rfl⟩
        | ok type => exact ⟨rfl, Or.inr rfl⟩

theorem any_strictEq_str (xs : List JsVal) (d : String) :
    (xs.any fun e => strictEq e (.str d)) = true ↔ JsVal.str d ∈ xs := by
  simp only [List.any_eq_true, strictEq_str]
  constructor
  · rintro ⟨x, hx, rfl⟩; exact hx
  · intro h; exact ⟨_, h, rfl⟩

theorem obj_of_get_images {temporary : JsVal} {xs : List JsVal}
    (h : temporary.get "images" = .ok (.arr xs)) :
    ∃ fs, temporary = .obj fs ∧ lookupField "images" fs = some (.arr xs) := by
  have hi : index? "images" = none := by decide
  cases temporary with
  | obj fs =>
    refine ⟨fs, rfl, ?_⟩
    simp only [JsVal.get, pure, Except.pure, Except.ok.injEq] at h
    cases hl : lookupField "images" fs with
    | none => simp [hl] at h
    | some x => simp only [hl, Option.getD_some] at h; rw [h]
  | _ => simp [JsVal.get, hi, pure, Except.pure, throw, throwThe, MonadExceptOf.throw] at h

theorem importImageBody_deduped (host : Host) (images : ImageHost)
    (path serverPath filename : String) (s : ImportState) (h : Deduped s) :
    Deduped (importImageBody host images path serverPath filename s).2 := by
  simp only [importImageBody, Eff.bind_apply, Eff.gets, Eff.lift]
  cases hget : s.temporary.get "images" with
  | error e => exact h
  | ok list =>
    simp only
    cases hinc : includesString list (serverPath ++ "/" ++ filename) with
    | error e => exact h
    | ok b =>
      cases b with
      | true => exact h
      | false =>
        simp only [Bool.not_false, if_true]
        cases hpush : pushElement list (.str (serverPath ++ "/" ++ filename)) with
        | error e => exact h
        | ok list' =>
          cases list with
          | arr xs =>
            simp only [pushElement, pure, Except.pure, Except.ok.injEq] at hpush
            subst hpush
            obtain ⟨fs, hfs, hl⟩ := obj_of_get_images hget
            have hnot : JsVal.str (serverPath ++ "/" ++ filename) ∉ xs := by
              intro hmem
              have := (any_strictEq_str xs _).mpr hmem
              simp [includesString, pure, Except.pure, this] at hinc
            simp only [hfs, JsVal.set, pure, Except.pure, Eff.modify]
            obtain ⟨htemp, hup⟩ := uploadImage_effect host images path serverPath filename
              { s with temporary := .obj (setField "images"
                (.arr (xs ++ [.str (serverPath ++ "/" ++ filename)])) fs) }
            cases hu : uploadImage host images path serverPath filename
              { s with temporary := .obj (setField "images"
                (.arr (xs ++ [.str (serverPath ++ "/" ++ filename)])) fs) } with
            | mk r s' =>
              rw [hu] at htemp hup
              simp only at htemp hup
              have hs' : Deduped s' := by
                have himg : s'.temporary.getOpt "images"
                    = .arr (xs ++ [.str (serverPath ++ "/" ++ filename)]) := by
                  rw [htemp]
                  exact getOpt_obj _ _ _ (lookupField_setField_self _ _ _)
                have hold : ∀ u ∈ s.uploads, JsVal.str (uploadDest u) ∈ xs := by
                  intro u hu'
                  obtain ⟨ys, hys, hmem⟩ := h.2 u hu'
                  rw [hfs, getOpt_obj _ _ _ hl] at hys
                  cases hys
                  exact hmem
                rcases hup with hup | hup
                · rw [Deduped, hup]
                  exact ⟨h.1, fun u hu' => ⟨_, himg, List.mem_append_left _ (hold u hu')⟩⟩
                · rw [Deduped, hup]
                  constructor
                  · rw [List.map_append, List.nodup_append]
                    refine ⟨h.1, by simp, ?_⟩
                    intro d hd hd'
                    simp only [List.map_cons, List.map_nil, List.mem_singleton, uploadDest]
                      at hd'
                    obtain ⟨u, hu', rfl⟩ := List.mem_map.mp hd
                    exact hnot (hd' ▸ hold u hu')
                  · intro u hu'
                    rcases List.mem_append.mp hu' with hu' | hu'
                    · exact ⟨_, himg, List.mem_append_left _ (hold u hu')⟩
                    · simp only [List.mem_singleton] at hu'
                      subst hu'
                      exact ⟨_, himg, by simp [uploadDest]⟩
              simp only [Eff.bind_apply, Eff.lift, Eff.modify, hu]
              cases r <;> exact hs'
          | _ => simp [pushElement, throw, throwThe, MonadExceptOf.throw] at hpush

theorem deduped_of_eq {s s' : ImportState} (hu : s'.uploads = s.uploads)
    (ht : s'.temporary = s.temporary) (h : Deduped s) : Deduped s' := by
  unfold Deduped
  rw [hu, ht]
  exact h

theorem importImage_deduped (host : Host) (images : ImageHost) (path pack : JsVal)
    (s : ImportState) (h : Deduped s) :
    Deduped (importImage host images path pack s).2 := by
  have htry : ∀ (p serverPath : String) (s1 : ImportState), Deduped s1 →
      Deduped (Eff.tryCatch (importImageBody host images p serverPath (fileName p))
        (fun _ => do
          logMessage "error" ("Error Uploading File: " ++ p ++ " to " ++ serverPath)
          pure JsVal.undef) s1).2 := by
    intro p serverPath s1 h1
    have hb := importImageBody_deduped host images p serverPath (fileName p) s1 h1
    simp only [Eff.tryCatch]
    cases hr : importImageBody host images p serverPath (fileName p) s1 with
    | mk r s2 =>
      rw [hr] at hb
      cases r with
      | ok x => exact hb
      | error e => exact deduped_of_eq rfl rfl hb
  unfold importImage
  split
  swap
  · exact h
  simp only [Eff.bind_apply, Eff.gets, Eff.lift]
  cases pack.getPath ["metadata", "name"] with
  | error e => exact h
  | ok packName =>
    simp only
    cases path with
    | str p =>
      simp only [Eff.bind_apply, Eff.gets, Eff.lift]
      cases hget : s.temporary.get "images" with
      | error e => exact h
      | ok list =>
        simp only
        by_cases ht : list.truthy = true
        · simp only [ht, Bool.not_true, Bool.false_eq_true, if_false, Eff.pure_apply]
          exact htry _ _ s h
        · simp only [ht, Bool.not_false, Bool.not_eq_true, if_true, Eff.bind_apply, Eff.lift]
          cases hset : s.temporary.set "images" (.arr []) with
          | error e => exact h
          | ok t' =>
            simp only [Eff.modify]
            apply htry
            have hempty : s.uploads = [] := by
              cases hu : s.uploads with
              | nil => rfl
              | cons u us =>
                exfalso
                obtain ⟨xs, hxs, _⟩ := h.2 u (by rw [hu]; exact List.mem_cons_self _ _)
                simp only [getOpt, hget] at hxs
                rw [hxs] at ht
                exact ht rfl
            exact ⟨by simp [hempty], fun u hu => by simp [hempty] at hu⟩
    | _ => exact h

theorem importImages_deduped (host : Host) : ∀ (calls : List ImageCall) (s : ImportState),
    Deduped s → Deduped (importImages host calls s) := by
  intro calls
  induction calls with
  | nil => intro s h; exact h
  | cons c cs ih =>
    intro s h
    exact ih _ (importImage_deduped host c.images c.path c.pack s h)

theorem importImage_known (host : Host) (images : ImageHost) (p : String) (pack name : JsVal)
    (s : ImportState) (xs : List JsVal) (hp : p ≠ "")
    (hname : pack.getPath ["metadata", "name"] = .ok name)
    (hlist : s.temporary.get "images" = .ok (.arr xs))
    (hmem : JsVal.str ("worlds/" ++ s.game.worldId.toStr ++ "/images/packs/" ++ name.toStr
      ++ "/" ++ fileName p) ∈ xs) :
    importImage host images (.str p) pack s
      = (.ok (.str ("worlds/" ++ s.game.worldId.toStr ++ "/images/packs/" ++ name.toStr
          ++ "/" ++ fileName p)), s) := by
  have ht : (JsVal.str p).truthy = true := by simp [truthy_str, hp]
  have hinc := (any_strictEq_str xs _).mpr hmem
  have harr : (JsVal.arr xs).truthy = true := rfl
  simp only [importImage, ht, if_true, Eff.bind_apply, Eff.gets, Eff.lift, hname, hlist,
    harr, Bool.not_true, Bool.false_eq_true, if_false, Eff.pure_apply, Eff.tryCatch,
    importImageBody, includesString, pure, Except.pure, hinc, Eff.ret]

/-! ## C21: the signature of a file -/

/-- C21 (code bug): the bytes `89 50 4e 47` give the signature `89504e47`, but a byte
below `0x10` gives one digit: the bytes `00 00 01 00` give the four digits `0010`, and
the bytes `01 10 00 00` and `11 00 00 00` give the same signature, `11000`. -/
theorem imageHeader_unpadded :
    imageHeader [0x89, 0x50, 0x4e, 0x47] = "89504e47"
      ∧ imageHeader [0x00, 0x00, 0x01, 0x00] = "0010"
      ∧ imageHeader [0x01, 0x10, 0x00, 0x00] = "11000"
      ∧ imageHeader [0x11, 0x00, 0x00, 0x00] = "11000" := by
  decide

/-! ## C22: one upload for a destination -/

/-- C22: in a batch that starts without upload requests, no two upload requests are
made for the same destination (server path and file name), whatever the calls of
`importImage` are and however each ends; and a call whose destination is in the list
`CONFIG.temporary.images` returns the destination and changes nothing: it asks for no
directory and no upload. -/
theorem importImages_once (host : Host) (calls : List ImageCall) (s : ImportState)
    (hs : s.uploads = []) :
    ((importImages host calls s).uploads.map uploadDest).Nodup
      ∧ ∀ (images : ImageHost) (p : String) (pack name : JsVal) (s' : ImportState)
          (xs : List JsVal), p ≠ "" → pack.getPath ["metadata", "name"] = .ok name →
          s'.temporary.get "images" = .ok (.arr xs) →
          JsVal.str ("worlds/" ++ s'.game.worldId.toStr ++ "/images/packs/" ++ name.toStr
            ++ "/" ++ fileName p) ∈ xs →
          importImage host images (.str p) pack s'
            = (.ok (.str ("worlds/" ++ s'.game.worldId.toStr ++ "/images/packs/"
                ++ name.toStr ++ "/" ++ fileName p)), s') :=
  ⟨(importImages_deduped host calls s
      ⟨by simp [hs], fun u hu => by simp [hs] at hu⟩).1,
    fun images p pack name s' xs hp hname hlist hmem =>
      importImage_known host images p pack name s' xs hp hname hlist hmem⟩

/-- C22 at a batch of two calls for the same file: one upload request is made. -/
theorem importImages_once_witness :
    (((importImages (Examples.host .undef) [Examples.imageCall, Examples.imageCall]
        (ImportState.initial (Examples.game []) (.obj []))).uploads.map uploadDest).Nodup
      ∧ ∀ (images : ImageHost) (p : String) (pack name : JsVal) (s' : ImportState)
          (xs : List JsVal), p ≠ "" → pack.getPath ["metadata", "name"] = .ok name →
          s'.temporary.get "images" = .ok (.arr xs) →
          JsVal.str ("worlds/" ++ s'.game.worldId.toStr ++ "/images/packs/" ++ name.toStr
            ++ "/" ++ fileName p) ∈ xs →
          importImage (Examples.host .undef) images (.str p) pack s'
            = (.ok (.str ("worlds/" ++ s'.game.worldId.toStr ++ "/images/packs/"
                ++ name.toStr ++ "/" ++ fileName p)), s'))
    ∧ (importImages (Examples.host .undef) [Examples.imageCall, Examples.imageCall]
        (ImportState.initial (Examples.game []) (.obj []))).uploads
      = [("data", "worlds/w/images/packs/p", "a.png")] :=
  ⟨importImages_once (Examples.host .undef) [Examples.imageCall, Examples.imageCall]
    (ImportState.initial (Examples.game []) (.obj [])) rfl, by decide⟩

/-! ## Items that stay -/

theorem itemsKept_refl (s : ImportState) : ItemsKept s s :=
  ⟨rfl, fun items h => ⟨[], by simpa using h⟩⟩

theorem itemsKept_trans {s s' s'' : ImportState} (h : ItemsKept s s') (h' : ItemsKept s' s'') :
    ItemsKept s s'' := by
  refine ⟨h'.1.trans h.1, ?_⟩
  intro items hi
  obtain ⟨a, ha⟩ := h.2 items hi
  obtain ⟨b, hb⟩ := h'.2 _ ha
  exact ⟨a ++ b, by simpa [List.append_assoc] using hb⟩

theorem itemsKept_of_eq {s s' : ImportState} (hg : s'.game = s.game)
    (hc : s'.character = s.character) : ItemsKept s s' :=
  ⟨hg, fun items h => ⟨[], by rw [hc]; simpa using h⟩⟩

theorem keepsItems_pure {α : Type} (a : α) : KeepsItems (pure a : Eff ImportState α) :=
  fun s => itemsKept_refl s

theorem keepsItems_lift {α : Type} (x : Js α) : KeepsItems (Eff.lift x : Eff ImportState α) :=
  fun s => itemsKept_refl s

theorem keepsItems_gets {α : Type} (f : ImportState → α) : KeepsItems (Eff.gets f) :=
  fun s => itemsKept_refl s

theorem keepsItems_bind {α β : Type} {m : Eff ImportState α} {f : α → Eff ImportState β}
    (hm : KeepsItems m) (hf : ∀ a, KeepsItems (f a)) : KeepsItems (m >>= f) := by
  intro s
  have h := hm s
  simp only [Eff.bind_apply]
  cases hr : m s with
  | mk r s' =>
    rw [hr] at h
    cases r with
    | error e => exact h
    | ok a => exact itemsKept_trans h (hf a s')

theorem keepsItems_tryCatch {α : Type} {m : Eff ImportState α}
    {handler : JsErr → Eff ImportState α}
    (hm : KeepsItems m) (hh : ∀ e, KeepsItems (handler e)) :
    KeepsItems (Eff.tryCatch m handler) := by
  intro s
  have h := hm s
  simp only [Eff.tryCatch]
  cases hr : m s with
  | mk r s' =>
    rw [hr] at h
    cases r with
    | error e => exact itemsKept_trans h (hh e s')
    | ok a => exact h

theorem keepsItems_forEach {α : Type} {f : α → Eff ImportState Unit}
    (hf : ∀ a, KeepsItems (f a)) : ∀ xs : List α, KeepsItems (Eff.forEach f xs) := by
  intro xs
  induction xs with
  | nil => exact fun s => itemsKept_refl s
  | cons x rest ih => exact keepsItems_bind (hf x) (fun _ => ih)

theorem keepsItems_ite {α : Type} {c : Prop} [Decidable c] {a b : Eff ImportState α}
    (ha : KeepsItems a) (hb : KeepsItems b) : KeepsItems (if c then a else b) := by
  split
  · exact ha
  · exact hb

theorem keepsItems_modify {f : ImportState → ImportState} (h : ∀ s, ItemsKept s (f s)) :
    KeepsItems (Eff.modify f) := h

theorem keepsItems_updateDialog (value : JsVal) : KeepsItems (updateDialog value) :=
  fun _ => itemsKept_of_eq rfl rfl

theorem keepsItems_logMessage (level msg : String) : KeepsItems (logMessage level msg) :=
  fun _ => itemsKept_of_eq rfl rfl

theorem keepsItems_countSpecialization : KeepsItems countSpecialization :=
  fun _ => itemsKept_of_eq rfl rfl

theorem keepsItems_updateDialogSpecialization : KeepsItems updateDialogSpecialization :=
  keepsItems_bind (keepsItems_gets _) fun _ =>
    keepsItems_bind (keepsItems_gets _) fun _ => keepsItems_updateDialog _

theorem keepsItems_lookupItem (id : JsVal) : KeepsItems (lookupItem id) := by
  intro s
  simp only [lookupItem]
  exact itemsKept_of_eq rfl rfl

theorem keepsItems_pushItem (item : JsVal) : KeepsItems (pushItem item) := by
  intro s
  refine ⟨?_, ?_⟩
  · simp only [pushItem, modifyCharacter]
    split <;> rfl
  · intro items hitems
    obtain ⟨c, hc, hc'⟩ := pushItem_items item s items hitems
    exact ⟨[item], by rw [hc]; exact hc'⟩

theorem keepsItems_write (v : SpecVar) (item : JsVal) :
    KeepsItems (Eff.modify (v.write item)) := by
  intro s
  cases v <;> exact itemsKept_of_eq rfl rfl

theorem keepsItems_funcGetTalent (characterSpecTalent itemId : JsVal) :
    KeepsItems (funcGetTalent characterSpecTalent itemId) := by
  unfold funcGetTalent
  apply keepsItems_bind (keepsItems_lift _)
  intro purchased
  apply keepsItems_ite
  · apply keepsItems_bind (keepsItems_gets _)
    intro game
    split
    · exact keepsItems_pure _
    · exact keepsItems_bind (keepsItems_logMessage _ _) (fun _ => keepsItems_pure _)
  · exact keepsItems_pure _

theorem keepsItems_addBonusChar (v : SpecVar) (i : Nat) (char : JsVal) :
    KeepsItems (addBonusChar v i char) := by
  unfold addBonusChar
  repeat' first
    | with_reducible exact keepsItems_pure _
    | with_reducible exact keepsItems_lift _
    | with_reducible exact keepsItems_gets _
    | with_reducible exact keepsItems_write _ _
    | with_reducible apply keepsItems_bind
    | intro _

theorem keepsItems_talentStep (v : SpecVar) (spec : JsVal) (i : Nat) :
    KeepsItems (talentStep v spec i) := by
  unfold talentStep
  repeat' first
    | with_reducible exact keepsItems_funcGetTalent _ _
    | with_reducible exact keepsItems_addBonusChar _ _ _
    | with_reducible exact keepsItems_pure _
    | with_reducible exact keepsItems_lift _
    | with_reducible exact keepsItems_gets _
    | with_reducible exact keepsItems_write _ _
    | with_reducible apply keepsItems_forEach
    | with_reducible apply keepsItems_bind
    | with_reducible apply keepsItems_ite
    | intro _

theorem keepsItems_talentLoop (v : SpecVar) (spec : JsVal) :
    ∀ n i, KeepsItems (talentLoop v spec n i) := by
  intro n
  induction n with
  | zero => intro i; exact keepsItems_pure _
  | succ n ih =>
    intro i
    unfold talentLoop
    exact keepsItems_bind (keepsItems_talentStep v spec i) fun _ =>
      keepsItems_bind keepsItems_countSpecialization fun _ =>
        keepsItems_bind keepsItems_updateDialogSpecialization fun _ => ih (i + 1)

theorem keepsItems_specializationStep (spec : JsVal) : KeepsItems (specializationStep spec) := by
  unfold specializationStep addTalentsToTotal applyTalents pushSpecialization
  repeat' first
    | with_reducible exact keepsItems_talentLoop _ _ _ _
    | with_reducible exact keepsItems_pure _
    | with_reducible exact keepsItems_lift _
    | with_reducible exact keepsItems_gets _
    | with_reducible exact keepsItems_lookupItem _
    | with_reducible exact keepsItems_pushItem _
    | with_reducible exact keepsItems_logMessage _ _
    | with_reducible exact keepsItems_updateDialogSpecialization
    | with_reducible exact keepsItems_countSpecialization
    | with_reducible exact keepsItems_modify (fun _ => itemsKept_of_eq rfl rfl)
    | with_reducible apply keepsItems_bind
    | with_reducible apply keepsItems_tryCatch
    | with_reducible apply keepsItems_ite
    | intro _

theorem noThrow_countSpecialization : NoThrow countSpecialization := fun _ => ⟨(), rfl⟩

theorem noThrow_updateDialogSpecialization : NoThrow updateDialogSpecialization :=
  fun _ => ⟨(), rfl⟩

/-! ## C25: a specialization that fails -/

/-- C25, as amended: a round of the loop over the specializations of the document for
a specialization that is not the starting one (`isStartingSpec` is not "true") never
throws, whether the specialization resolves or not and whatever happens to its
talents: the loop goes on with the next specialization, in a state with the same world
in which the items added so far are still there. -/
theorem specializationStep_sibling (spec : JsVal) (rest : List JsVal) (s : ImportState)
    (hspec : spec.nullish = false)
    (hother : strictEq (spec.getOpt "isStartingSpec") (.str "true") = false) :
    ∃ s', specializationStep spec s = (.ok (), s')
      ∧ Eff.forEach specializationStep (spec :: rest) s
        = Eff.forEach specializationStep rest s'
      ∧ ItemsKept s s' := by
  have hno : NoThrow (specializationStep spec) := by
    unfold specializationStep
    apply noThrow_lift_bind (get_eq_getOpt hspec "isStartingSpec")
    simp only [hother, Bool.and_false, Bool.false_eq_true, if_false]
    exact noThrow_bind (noThrow_tryCatch fun _ => noThrow_logMessage _ _) fun _ =>
      noThrow_bind noThrow_countSpecialization fun _ => noThrow_updateDialogSpecialization
  obtain ⟨u, hu⟩ := hno s
  have hk := keepsItems_specializationStep spec s
  cases hr : specializationStep spec s with
  | mk r s' =>
    rw [hr] at hu hk
    simp only at hu hk
    subst hu
    exact ⟨s', rfl, by simp only [Eff.forEach, Eff.andThen, hr], hk⟩

/-- C25, as amended, at a specialization that does not resolve (the world has no
catalog of specializations), followed by another one. -/
theorem specializationStep_sibling_witness :
    ∃ s', specializationStep (Examples.charSpecialization "SCOUT") Examples.unarmed = (.ok (), s')
      ∧ Eff.forEach specializationStep
          (Examples.charSpecialization "SCOUT" :: [Examples.charSpecialization "TRADER"])
          Examples.unarmed
        = Eff.forEach specializationStep [Examples.charSpecialization "TRADER"] s'
      ∧ ItemsKept Examples.unarmed s' :=
  specializationStep_sibling (Examples.charSpecialization "SCOUT")
    [Examples.charSpecialization "TRADER"] Examples.unarmed rfl rfl

/-- C25 as stated fails: the starting specialization `PILOT` does not resolve, the
specializations `SCOUT` and `TRADER` of the document do, and none is added: the record
that is created has no items. -/
theorem characterImport_starting_specialization_missing :
    (findCompendiumEntityByImportId (Examples.game [Examples.pack "world.specializations"
        "Item" false [Examples.specialization "p2" "SCOUT",
          Examples.specialization "p3" "TRADER"]]) "Item" (.str "SCOUT") .undef (.obj [])).1
      = .ok (Examples.specialization "p2" "SCOUT")
    ∧ (Examples.run [Examples.pack "world.specializations" "Item" false
        [Examples.specialization "p2" "SCOUT", Examples.specialization "p3" "TRADER"]]
        Examples.twoSpecializations).character.getOpt "items" = .arr [] := by
  constructor
  · decide
  · decide!

/-! ## The byte-order marker -/

theorem replaceFirst_matchMarker_succ (i : Nat) (cs : List Char) :
    replaceFirst matchMarker [] (i + 1) cs = cs := by
  induction cs generalizing i with
  | nil => simp [replaceFirst, matchMarker]
  | cons c cs ih => simp [replaceFirst, matchMarker, ih]

theorem replaceFirst_matchMarker (s : String) :
    String.mk (replaceFirst matchMarker [] 0 s.toList) = withoutMarker s := by
  unfold withoutMarker
  cases h : s.toList with
  | nil =>
    have : s = "" := by
      cases s with | mk data => simp only [String.toList] at h; subst h; rfl
    subst this
    rfl
  | cons c cs =>
    by_cases hc : c = byteOrderMark
    · simp [replaceFirst, matchMarker, hc]
    · have : s = String.mk (c :: cs) := by
        cases s with | mk data => simp only [String.toList] at h; subst h; rfl
      simp [replaceFirst, matchMarker, hc, replaceFirst_matchMarker_succ, this]

theorem stringToXml_eq {α : Type} (parseFromString : String → String → α) (s : String) :
    stringToXml parseFromString s = parseFromString (withoutMarker s) "text/xml" := by
  simp only [stringToXml, replaceFirst_matchMarker]

/-! ## C31: the text that is parsed -/

/-- C31 (code bug): `stringToXml` hands the text without a byte-order marker at its
start to the parser, and `characterImport` hands its argument as it is: with a parser
that does not accept a marker before the document, `stringToXml` reads the document
from a text that starts with the marker, and `characterImport` reports a failure for
the same text and makes no storage call, while it stores the character of the text
without the marker. -/
theorem characterImport_keeps_marker :
    (∀ (α : Type) (parseFromString : String → String → α) (s : String),
        stringToXml parseFromString s = parseFromString (withoutMarker s) "text/xml")
      ∧ withoutMarker Examples.marked = "<C/>"
      ∧ stringToXml (fun data _ => Examples.strictParser (Examples.document []) data)
          Examples.marked = .ok (Examples.document [])
      ∧ (characterImport (Examples.strictHost (Examples.document [])) Examples.marked
          (ImportState.initial (Examples.game []) .undef)).storage = []
      ∧ (characterImport (Examples.strictHost (Examples.document [])) Examples.marked
          (ImportState.initial (Examples.game []) .undef)).notifications
        = ["An error occured while import character!"]
      ∧ ((characterImport (Examples.strictHost (Examples.document []))
          (withoutMarker Examples.marked)
          (ImportState.initial (Examples.game []) .undef)).storage.length = 1
        ∧ (characterImport (Examples.strictHost (Examples.document []))
          (withoutMarker Examples.marked)
          (ImportState.initial (Examples.game []) .undef)).notifications = []) := by
  refine ⟨fun α p s => stringToXml_eq p s, by decide, by decide, by decide, by decide, ?_⟩
  decide!

/-! ## The counters of the experience block -/

theorem parseInt10_counter (ranks : Fields) (k : String) (n : Int) (h : counts ranks k n)
    (hn : isSafe n) :
    parseInt10 (((lookupField k ranks).getD .undef).orElse (.num 0)) = .num n := by
  unfold counts at h
  cases hl : lookupField k ranks with
  | none => rw [hl] at h; subst h; rfl
  | some v =>
    rw [hl] at h
    rcases h with rfl | rfl
    · rfl
    · show parseInt10 (.str (toString n)) = _
      rw [parseInt10_toString n, toDouble_safe n hn]

theorem initialCharacter_experience (characterData name : JsVal) (ranks : Fields)
    (a b c u : Int)
    (hname : characterData.getPath ["Character", "Description", "CharName"] = .ok name)
    (hranks : characterData.getPath ["Character", "Experience", "ExperienceRanks"]
      = .ok (.obj ranks))
    (ha : counts ranks "StartingRanks" a) (hb : counts ranks "SpeciesRanks" b)
    (hc : counts ranks "PurchasedRanks" c) (hu : counts ranks "UsedExperience" u)
    (hsafe : isSafe a ∧ isSafe b ∧ isSafe c ∧ isSafe u)
    (hsums : isSafe (a + b) ∧ isSafe (a + b + c) ∧ isSafe (a + b + c - u)) :
    ∃ character, initialCharacter characterData = .ok character
      ∧ character.at? ["data", "experience"] = some (.obj [("total", .num (a + b + c)),
          ("available", .num (a + b + c - u))]) := by
  have hroot : ∃ root, characterData.get "Character" = .ok root ∧ root.nullish = false := by
    have h1 : (characterData.get "Character" >>= fun root =>
        root.getPath ["Experience", "ExperienceRanks"]) = .ok (.obj ranks) := hranks
    cases hr : characterData.get "Character" with
    | error e => rw [hr] at h1; cases h1
    | ok root =>
      rw [hr] at h1
      refine ⟨root, rfl, ?_⟩
      cases root <;> first | rfl | cases h1
  obtain ⟨root, hroot, hnn⟩ := hroot
  obtain ⟨key, hkey⟩ := get_total root "Key" hnn
  obtain ⟨credits, hcredits⟩ := get_total root "Credits" hnn
  have hkey2 : characterData.getPath ["Character", "Key"] = .ok key := by
    simp only [getPath, hroot, hkey, bind, Except.bind, pure, Except.pure]
  have hcredits2 : characterData.getPath ["Character", "Credits"] = .ok credits := by
    simp only [getPath, hroot, hcredits, bind, Except.bind, pure, Except.pure]
  simp only [initialCharacter, hname, hranks, hkey2, hcredits2, bind, Except.bind, pure,
    Except.pure, JsVal.get, parseInt10_counter _ _ _ ha hsafe.1,
    parseInt10_counter _ _ _ hb hsafe.2.1, parseInt10_counter _ _ _ hc hsafe.2.2.1,
    parseInt10_counter _ _ _ hu hsafe.2.2.2, doubleAdd, doubleSub, toDouble_safe _ hsums.1,
    toDouble_safe _ hsums.2.1, toDouble_safe _ hsums.2.2]
  exact ⟨_, rfl, by simp [JsVal.at?, lookupField]⟩


/-! ## What the first part keeps of the record -/

theorem modifyPath_obj_child (fs : Fields) (k : String) (ks : List String)
    (f : JsVal → Js JsVal) (c : JsVal) (h : (JsVal.obj fs).modifyPath (k :: ks) f = .ok c) :
    ∃ y, ((lookupField k fs).getD .undef).modifyPath ks f = .ok y
      ∧ c = .obj (setField k y fs) := by
  simp only [modifyPath, bind, Except.bind, JsVal.get, pure, Except.pure] at h
  split at h
  · cases h
  · rename_i y hy
    exact ⟨y, hy, set_obj _ _ _ _ h⟩

theorem at?_modifyPath_other (e q : String) (hq : q ≠ e) (p : List String)
    (f : JsVal → Js JsVal) (c c' E : JsVal) (h : c.at? ["data", e] = some E)
    (hm : c.modifyPath ("data" :: q :: p) f = .ok c') : c'.at? ["data", e] = some E := by
  cases c <;> simp only [JsVal.at?] at h <;> try cases h
  rename_i fs
  cases hl : lookupField "data" fs with
  | none => rw [hl] at h; cases h
  | some d =>
    rw [hl] at h
    cases d <;> simp only [JsVal.at?] at h <;> try cases h
    rename_i ds
    obtain ⟨y, hy, rfl⟩ := modifyPath_obj_child fs "data" (q :: p) f c' hm
    rw [hl] at hy
    obtain ⟨x, rfl⟩ := modifyPath_obj ds q p f y hy
    simp only [JsVal.at?, lookupField_setField, if_true, if_neg hq]
    exact h

theorem ensures_setPath_exp {E c : JsVal} (h : c.at? ["data", "experience"] = some E)
    (q : String) (p : List String) (k : String) (x : JsVal) (hq : q ≠ "experience") :
    Ensures (c.setPath ("data" :: q :: p) k x)
      (fun c' => c'.at? ["data", "experience"] = some E) :=
  fun c' hc' => at?_modifyPath_other "experience" q hq p _ c c' E h hc'

theorem ensures_characteristicStep_experience (E character char : JsVal)
    (h : character.at? ["data", "experience"] = some E) :
    Ensures (characteristicStep character char)
      (fun c' => c'.at? ["data", "experience"] = some E) := by
  unfold characteristicStep
  repeat' first
    | exact ensures_pure _ (by assumption)
    | with_reducible exact ensures_setPath_exp (by assumption) _ _ _ _ (by decide)
    | with_reducible apply ensures_ite
    | (with_reducible apply ensures_bind (ensures_setPath_exp (by assumption) _ _ _ _ (by decide)); intro _ _)
    | (with_reducible apply ensures_bind (ensures_true _); intro _ _)

theorem ensures_skillStep_experience (E : JsVal) (st : JsVal × List JsVal) (skill : JsVal)
    (h : st.1.at? ["data", "experience"] = some E) :
    Ensures (skillStep st skill) (fun r => r.1.at? ["data", "experience"] = some E) := by
  unfold skillStep
  repeat' first
    | exact ensures_pure _ (by assumption)
    | with_reducible apply ensures_ite
    | (with_reducible apply ensures_bind (ensures_setPath_exp (by assumption) _ _ _ _ (by decide)); intro _ _)
    | (with_reducible apply ensures_bind (ensures_true _); intro _ _)

theorem ensures_prepareCharacter_experience (characterData c0 E : JsVal)
    (hinit : initialCharacter characterData = .ok c0)
    (hE : c0.at? ["data", "experience"] = some E) :
    Ensures (prepareCharacter characterData)
      (fun r => r.1.at? ["data", "experience"] = some E) := by
  unfold prepareCharacter
  with_reducible apply ensures_bind (ensures_eq hinit)
  intro c hc
  subst hc
  with_reducible apply ensures_bind (ensures_true _); intro _ _
  with_reducible apply ensures_bind (ensures_true _); intro _ _
  with_reducible apply ensures_bind (ensures_arrayForEach
    (fun a x ha => ensures_characteristicStep_experience E a x ha) _ c hE)
  intro c1 hc1
  with_reducible apply ensures_bind (ensures_true _); intro _ _
  with_reducible apply ensures_bind (ensures_true _); intro _ _
  with_reducible apply ensures_bind (ensures_arrayForEach
    (Q := fun r => r.1.at? ["data", "experience"] = some E)
    (fun a x ha => ensures_skillStep_experience E a x ha) _ (c1, []) hc1)
  intro r hr
  obtain ⟨c2, sk⟩ := r
  simp only
  with_reducible apply ensures_bind (ensures_true _); intro _ _
  with_reducible exact ensures_pure _ hr


theorem characterImportBody_commit_fields (host : Host) (data : String) (s : ImportState)
    (characterData : JsVal) (prep : JsVal × List JsVal × List JsVal) (fs0 : Fields)
    (hparse : host.xmlToJs data = .ok characterData)
    (hprep : prepareCharacter characterData = .ok prep)
    (hrec : prep.1 = .obj fs0)
    (hdoc : PhasesReadable characterData) :
    ∃ s3 fs, s3.game = s.game ∧ s3.storage = s.storage ∧ s3.character = .obj fs
      ∧ (∀ k, k ≠ "items" → k ≠ "img" → lookupField k fs = lookupField k fs0)
      ∧ characterImportBody host data s
        = (commitCharacter host characterData >>= fun _ => updateDialog (.num 100)) s3 := by
  obtain ⟨c, sk, fp⟩ := prep
  simp only at hrec
  subst hrec
  obtain ⟨ks, hks⟩ := hdoc.species
  obtain ⟨kc, hkc⟩ := hdoc.career
  obtain ⟨s1, hs1⟩ : ∃ s1 : ImportState,
      s1 = if !s.temporary.truthy then { s with temporary := .obj [] } else s := ⟨_, rfl⟩
  have h1g : s1.game = s.game := by rw [hs1]; split <;> rfl
  have h1s : s1.storage = s.storage := by rw [hs1]; split <;> rfl
  obtain ⟨u, hu⟩ := noThrow_importPhases host characterData sk fp ks kc hks hkc
    hdoc.weapons hdoc.armor hdoc.gear { s1 with character := .obj fs0 }
  obtain ⟨hg, hst, _, hch⟩ := preserves_importPhases host characterData sk fp
    { s1 with character := .obj fs0 }
  obtain ⟨fs', hfs', hk⟩ := hch fs0 rfl
  cases hph : importPhases host characterData sk fp { s1 with character := .obj fs0 } with
  | mk r s3 =>
    rw [hph] at hu hg hst hfs'
    simp only at hu hg hst hfs'
    subst hu
    refine ⟨s3, fs', hg.trans h1g, hst.trans h1s, hfs', hk, ?_⟩
    simp only [characterImportBody, Eff.bind_apply, Eff.lift, hparse, Eff.modify, hprep,
      ← hs1, hph]

theorem commitCharacter_record (host : Host) (characterData : JsVal) (s : ImportState)
    (fs : Fields) (found : JsVal) (hchar : s.character = .obj fs)
    (hfind : findActor s.game.data ((characterData.getOpt "Character").getOpt "Key")
      = .ok found) :
    ∃ call fs', (commitCharacter host characterData s).2.storage = s.storage ++ [call]
      ∧ call.record = .obj fs'
      ∧ ∀ k, k ≠ "_id" → lookupField k fs' = lookupField k fs := by
  by_cases ht : found.truthy = true
  · refine ⟨.update (.obj (setField "_id" (found.getOpt "_id") fs)), _, ?_, rfl, ?_⟩
    · simp only [commitCharacter, Eff.bind_apply, Eff.gets, Eff.lift, hfind, ht, if_true,
        modifyCharacter, hchar, JsVal.set, pure, Except.pure, Eff.modify]
      cases host.actorUpdate s.game.data (.obj (setField "_id" (found.getOpt "_id") fs)) <;>
        rfl
    · intro k hk
      rw [lookupField_setField, if_neg (fun h => hk h.symm)]
  · refine ⟨.create (.obj fs), fs, ?_, rfl, fun _ _ => rfl⟩
    simp only [commitCharacter, Eff.bind_apply, Eff.gets, Eff.lift, hfind, ht,
      Bool.false_eq_true, if_false, hchar, Eff.modify]
    cases host.actorCreate s.game.data (.obj fs) <;> rfl

theorem initialCharacter_of_prepareCharacter (characterData : JsVal)
    (prep : JsVal × List JsVal × List JsVal) (h : prepareCharacter characterData = .ok prep) :
    ∃ name, characterData.getPath ["Character", "Description", "CharName"] = .ok name := by
  cases hn : characterData.getPath ["Character", "Description", "CharName"] with
  | ok name => exact ⟨name, rfl⟩
  | error e =>
    exfalso
    simp [prepareCharacter, initialCharacter, bind, Except.bind, hn] at h

theorem at?_data (fs fs' : Fields) (p : List String) (x : JsVal)
    (h : (JsVal.obj fs).at? ("data" :: p) = some x)
    (hk : lookupField "data" fs' = lookupField "data" fs) :
    (JsVal.obj fs').at? ("data" :: p) = some x := by
  simp only [JsVal.at?, hk] at h ⊢
  exact h

/-! ## C32: the experience of the record -/

/-- C32 (as amended): when the document parses, the run reaches the commit (the first
part of the record is built, the species and career keys can be read, the equipment
lists have no `undefined` or `null` entry, and `game.data.actors` is an array of
records with `flags`), and the experience block of the document is an object whose four
counters hold the integers `a` (starting), `b` (species), `c` (purchased) and `u`
(used), each as a number or as its decimal text, an absent counter holding 0, and the
counters and the sums `a + b`, `a + b + c` and `a + b + c - u` are safe integers (of
magnitude below `2^53`), then the record that is stored has `data.experience.total`
equal to `a + b + c` and `data.experience.available` equal to the total minus `u`;
hence available plus used is the total. -/
theorem characterImport_experience (host : Host) (data : String) (s : ImportState)
    (characterData : JsVal) (prep : JsVal × List JsVal × List JsVal) (actors : List JsVal)
    (ranks : Fields) (a b c u : Int)
    (hparse : host.xmlToJs data = .ok characterData)
    (hprep : prepareCharacter characterData = .ok prep)
    (hdoc : PhasesReadable characterData)
    (hactors : s.game.data.get "actors" = .ok (.arr actors))
    (hflags : ∀ x ∈ actors, (x.getOpt "flags").nullish = false)
    (hranks : characterData.getPath ["Character", "Experience", "ExperienceRanks"]
      = .ok (.obj ranks))
    (ha : counts ranks "StartingRanks" a) (hb : counts ranks "SpeciesRanks" b)
    (hc : counts ranks "PurchasedRanks" c) (hu : counts ranks "UsedExperience" u)
    (hsafe : isSafe a ∧ isSafe b ∧ isSafe c ∧ isSafe u)
    (hsums : isSafe (a + b) ∧ isSafe (a + b + c) ∧ isSafe (a + b + c - u)) :
    ∃ (call : StorageCall) (total available : Int),
      (characterImport host data s).storage = s.storage ++ [call]
      ∧ call.record.at? ["data", "experience", "total"] = some (.num total)
      ∧ call.record.at? ["data", "experience", "available"] = some (.num available)
      ∧ total = a + b + c ∧ available = total - u ∧ available + u = total := by
  obtain ⟨name, hname⟩ := initialCharacter_of_prepareCharacter characterData prep hprep
  obtain ⟨c0, hinit, hE⟩ :=
    initialCharacter_experience characterData name ranks a b c u hname hranks ha hb hc hu
      hsafe hsums
  have hprepE := ensures_prepareCharacter_experience characterData c0 _ hinit hE prep hprep
  simp only at hprepE
  obtain ⟨fs0, hfs0⟩ : ∃ fs0, prep.1 = .obj fs0 := by
    cases h : prep.1 <;> simp [h, JsVal.at?] at hprepE
    exact ⟨_, rfl⟩
  rw [hfs0] at hprepE
  obtain ⟨s3, fs, hg, hst, hchar, hk, hbody⟩ :=
    characterImportBody_commit_fields host data s characterData prep fs0 hparse hprep hfs0 hdoc
  obtain ⟨found, hfind⟩ := findActor_total s3.game.data
    ((characterData.getOpt "Character").getOpt "Key") actors (by rw [hg]; exact hactors) hflags
  obtain ⟨call, fs', hcall, hrecord, hid⟩ :=
    commitCharacter_record host characterData s3 fs found hchar hfind
  have hdata : lookupField "data" fs' = lookupField "data" fs0 :=
    (hid "data" (by decide)).trans (hk "data" (by decide) (by decide))
  have hrec := at?_data fs0 fs' ["experience"] _ hprepE hdata
  refine ⟨call, a + b + c, a + b + c - u, ?_, ?_, ?_, rfl, rfl, by omega⟩
  · rw [(characterImport_of_body host data s s3 characterData hbody).1, hcall, hst]
  · rw [hrecord]
    have := at?_append ["data", "experience"] ["total"] (.obj fs')
    simp only [List.cons_append, List.nil_append] at this
    rw [this, hrec]
    rfl
  · rw [hrecord]
    have := at?_append ["data", "experience"] ["available"] (.obj fs')
    simp only [List.cons_append, List.nil_append] at this
    rw [this, hrec]
    rfl

/-- C32 at a document with 100 starting ranks and 120 used, as text, 45 purchased ranks
as a number and no species ranks, in a world without catalogs and actors: the record
stored has the total 145 and 25 available. -/
theorem characterImport_experience_witness :
    ∃ (call : StorageCall) (total available : Int),
      (characterImport (Examples.host Examples.experienced) ""
        (ImportState.initial (Examples.game []) .undef)).storage
        = (ImportState.initial (Examples.game []) .undef).storage ++ [call]
      ∧ call.record.at? ["data", "experience", "total"] = some (.num total)
      ∧ call.record.at? ["data", "experience", "available"] = some (.num available)
      ∧ total = 100 + 0 + 45 ∧ available = total - 120 ∧ available + 120 = total :=
  characterImport_experience (Examples.host Examples.experienced) ""
    (ImportState.initial (Examples.game []) .undef) Examples.experienced _ []
    [("StartingRanks", .str "100"), ("PurchasedRanks", .num 45),
      ("UsedExperience", .str "120")] 100 0 45 120 rfl rfl
    ⟨⟨_, rfl⟩, ⟨_, rfl⟩, trivial, trivial, trivial⟩ rfl (by decide) rfl
    (Or.inr rfl) rfl (Or.inl rfl) (Or.inr rfl) (by decide) (by decide)

/-- C32 as stated fails: the starting ranks `9007199254740993` (`2^53 + 1`) are read as
the double `9007199254740992`, and with no other counter the record that is stored has
that total, which is not the sum of the counters of the document. -/
theorem characterImport_experience_rounded :
    counts [("StartingRanks", .str "9007199254740993")] "StartingRanks" 9007199254740993
    ∧ (Examples.run [] Examples.hugeExperience).storage.map
        (fun call => call.record.at? ["data", "experience", "total"])
      = [some (.num 9007199254740992)]
    ∧ (9007199254740992 : Int) ≠ 9007199254740993 + 0 + 0 := by
  refine ⟨Or.inr rfl, ?_, by decide⟩
  decide!

/-! ## C33: the path of a file that was not stored -/

/-- C33 (code bug): the destination is put on the list `CONFIG.temporary.images` before
the upload. In a batch of two calls for `Images/a.png`, the upload of the first call
fails: the call logs the error and returns `undefined`, and its request is the only
one of the batch. The second call, for which the upload service would accept the file,
finds the destination on the list and returns it without another request. The same
happens when the first call fails because the zip file has no such file: then no
request is made at all, and the second call returns the path. -/
theorem importImage_returns_unstored :
    (importImage (Examples.host .undef) Examples.failingUpload (.str "Images/a.png")
        Examples.imagePack Examples.batchStart).1 = .ok .undef
      ∧ (importImage (Examples.host .undef) Examples.failingUpload (.str "Images/a.png")
        Examples.imagePack Examples.batchStart).2.log
        = [("error", "Error Uploading File: Images/a.png to worlds/w/images/packs/p")]
      ∧ (importImage (Examples.host .undef) Examples.failingUpload (.str "Images/a.png")
        Examples.imagePack Examples.batchStart).2.uploads
        = [("data", "worlds/w/images/packs/p", "a.png")]
      ∧ (importImage (Examples.host .undef) Examples.imageHost (.str "Images/a.png")
          Examples.imagePack
          (importImage (Examples.host .undef) Examples.failingUpload (.str "Images/a.png")
            Examples.imagePack Examples.batchStart).2).1
        = .ok (.str "worlds/w/images/packs/p/a.png")
      ∧ (importImage (Examples.host .undef) Examples.imageHost (.str "Images/a.png")
          Examples.imagePack
          (importImage (Examples.host .undef) Examples.failingUpload (.str "Images/a.png")
            Examples.imagePack Examples.batchStart).2).2.uploads
        = [("data", "worlds/w/images/packs/p", "a.png")]
      ∧ (importImage (Examples.host .undef) Examples.emptyZip (.str "Images/a.png")
        Examples.imagePack Examples.batchStart).1 = .ok .undef
      ∧ (importImage (Examples.host .undef) Examples.imageHost (.str "Images/a.png")
          Examples.imagePack
          (importImage (Examples.host .undef) Examples.emptyZip (.str "Images/a.png")
            Examples.imagePack Examples.batchStart).2).1
        = .ok (.str "worlds/w/images/packs/p/a.png")
      ∧ (importImage (Examples.host .undef) Examples.imageHost (.str "Images/a.png")
          Examples.imagePack
          (importImage (Examples.host .undef) Examples.emptyZip (.str "Images/a.png")
            Examples.imagePack Examples.batchStart).2).2.uploads = [] := by
  decide

end ImportHelpers
